import Mathlib

/-!
# echoserver: buffer, event handler, event loop, connection, server and entry point

A shallow embedding of `src/src/buffer.cpp`, `src/include/buffer.h`,
`src/src/event_loop.cpp` (`EventHandler`, the handler table, `runInLoop` and
`doPendingTasks` of `EventLoop`), `src/src/connection.cpp`,
`src/src/echo_server.cpp` (`getNextLoop`, `handleNewConnection`,
`removeConnection`, `removeConnectionInLoop`, `start`, `stop`) and the function
`main` of `src/src/main.cpp`.

Conventions.
* `std::vector<char>` is a `List Byte`; `size_t` values are natural numbers.
  The size of a vector and the indices of a buffer are sizes of an array that
  exists, hence below `2^63`, the largest size of a `std::vector<char>`, and a
  sum of these alone does not wrap. An argument `len`, `reserve` or
  `initial_size` is any `size_t`: a sum with it is the sum modulo `2^64`
  (`sizeWrap`), in the constructor, `hasWritten`, `makeSpace` and `shrink`.
  The theorems on operations that may grow the vector assume that the size
  asked for is not above `max_size()` (`Buffer.Fits`); then these sums do not
  wrap and `resize` does not throw. The subtraction
  `write_index_ - read_index_` is the truncated one, which is the `size_t`
  one whenever `read_index_ ≤ write_index_`.
* A `const char*` into the buffer is its offset from `begin()`.
* `std::copy` is the front-to-back element loop.
* System calls (`send`, `readv`, `epoll_ctl`) are oracles: their result is an
  argument of the function that performs the call. The socket of a
  connection is a valid descriptor.
* A user callback is opaque: invoking it is recorded, and what the user code
  then calls on the connection is a later call of the sequence.
* The methods of `Connection` are first given as they run on the owning loop's
  thread, where `EventLoop::runInLoop(task)` invokes `task` synchronously.
* In the model of the server, threads are explicit: a loop is named by the
  thread that runs it, `runInLoop` runs the task inline when the caller is that
  thread and puts it on the loop's queue otherwise, and every callback
  invocation is recorded with the thread that executes it. The `int` counters
  are integers; `next_loop_index_` wraps as a 32-bit two's complement value.
* `std::atoi` is the one of the GNU C library, `(int) strtol(s, NULL, 10)`: the
  result is an `int`, the `long` cut to 32 bits.
-/

namespace echo_server

set_option maxRecDepth 100000

abbrev Byte := UInt8

/-! ## Buffer -/

/-- The class `Buffer` of `buffer.h`: backing vector and the two indices. -/
structure Buffer where
  buffer_ : List Byte
  read_index_ : Nat
  write_index_ : Nat
deriving DecidableEq, Repr

/-- The static constant `Buffer::kCheapPrepend`. -/
def kCheapPrepend : Nat := 8

/-- The static constant `Buffer::kInitialSize`. -/
def kInitialSize : Nat := 1024

/-- The loop of `std::copy(d, d + len, dst)` for a source outside the vector:
element `i` of `data` is stored at `pos + i`. -/
def copyInto : List Byte → Nat → List Byte → List Byte
  | buf, _, [] => buf
  | buf, pos, d :: ds => copyInto (buf.set pos d) (pos + 1) ds

/-- The loop of `std::copy(begin() + src, begin() + src + n, begin() + dst)`
for a source inside the vector itself: each step reads the current content. -/
def copyWithin : List Byte → Nat → Nat → Nat → List Byte
  | buf, _, _, 0 => buf
  | buf, src, dst, n + 1 => copyWithin (buf.set dst (buf.getD src 0)) (src + 1) (dst + 1) n

/-- The call `std::vector<char>::resize(n)`: truncate, or pad with zero bytes. -/
def vectorResize (v : List Byte) (n : Nat) : List Byte :=
  v.take n ++ List.replicate (n - v.length) 0

/-- The value of a sum computed in the 64-bit `size_t`: the sum modulo `2^64`. -/
def sizeWrap (n : Nat) : Nat := n % 18446744073709551616

/-- The largest size of a `std::vector<char>`, `max_size()`: `2^63 - 1`. -/
def kMaxSize : Nat := 9223372036854775807

namespace Buffer

/-- The constructor `Buffer::Buffer(size_t initial_size)`. -/
def new (initial_size : Nat) : Buffer :=
  { buffer_ := List.replicate (sizeWrap (kCheapPrepend + initial_size)) 0
    read_index_ := kCheapPrepend
    write_index_ := kCheapPrepend }

def readableBytes (b : Buffer) : Nat := b.write_index_ - b.read_index_

def writableBytes (b : Buffer) : Nat := b.buffer_.length - b.write_index_

def prependableBytes (b : Buffer) : Nat := b.read_index_

/-- The `n` bytes starting at `peek()`. -/
def peekN (b : Buffer) (n : Nat) : List Byte := (b.buffer_.drop b.read_index_).take n

/-- The readable zone `[peek(), beginWrite())`. -/
def readable (b : Buffer) : List Byte := b.peekN b.readableBytes

def retrieveAll (b : Buffer) : Buffer :=
  { b with read_index_ := kCheapPrepend, write_index_ := kCheapPrepend }

def retrieve (b : Buffer) (len : Nat) : Buffer :=
  if len < b.readableBytes then
    { b with read_index_ := b.read_index_ + len }
  else
    b.retrieveAll

/-- The method `retrieveUntil(const char* end)`, the pointer being an offset from `begin()`. -/
def retrieveUntil (b : Buffer) (e : Nat) : Buffer :=
  if b.read_index_ ≤ e ∧ e ≤ b.write_index_ then
    b.retrieve (e - b.read_index_)
  else
    b

def retrieveAsString (b : Buffer) (len : Nat) : List Byte × Buffer :=
  let len := if len > b.readableBytes then b.readableBytes else len
  let result := b.peekN len
  (result, b.retrieve len)

def retrieveAllAsString (b : Buffer) : List Byte × Buffer :=
  b.retrieveAsString b.readableBytes

def hasWritten (b : Buffer) (len : Nat) : Buffer :=
  { b with write_index_ := sizeWrap (b.write_index_ + len) }

/-- The method `makeSpace(size_t len)`: the sums `len + kCheapPrepend` and
`write_index_ + len` are `size_t` sums, for any argument `len`. -/
def makeSpace (b : Buffer) (len : Nat) : Buffer :=
  if b.writableBytes + b.prependableBytes < sizeWrap (len + kCheapPrepend) then
    { b with buffer_ := vectorResize b.buffer_ (sizeWrap (b.write_index_ + len)) }
  else
    let readable := b.readableBytes
    { buffer_ := copyWithin b.buffer_ b.read_index_ kCheapPrepend (b.write_index_ - b.read_index_)
      read_index_ := kCheapPrepend
      write_index_ := kCheapPrepend + readable }

def ensureWritableBytes (b : Buffer) (len : Nat) : Buffer :=
  if b.writableBytes < len then b.makeSpace len else b

/-- The method `append(const char* data, size_t len)` with `data` the `len` bytes pointed to. -/
def append (b : Buffer) (data : List Byte) : Buffer :=
  let b1 := b.ensureWritableBytes data.length
  let b2 := { b1 with buffer_ := copyInto b1.buffer_ b1.write_index_ data }
  b2.hasWritten data.length

/-- The method `prepend(const void* data, size_t len)`. -/
def prepend (b : Buffer) (data : List Byte) : Buffer :=
  if data.length > b.prependableBytes then
    b
  else
    let r := b.read_index_ - data.length
    { b with read_index_ := r, buffer_ := copyInto b.buffer_ r data }

def shrink (b : Buffer) (reserve : Nat) : Buffer :=
  let other := Buffer.new kInitialSize
  let other := other.ensureWritableBytes (sizeWrap (b.readableBytes + reserve))
  let other := other.append (b.peekN b.readableBytes)
  { buffer_ := other.buffer_
    read_index_ := other.read_index_
    write_index_ := other.write_index_ }

/-- The indices are ordered and inside the vector. -/
def WellFormed (b : Buffer) : Prop :=
  b.read_index_ ≤ b.write_index_ ∧ b.write_index_ ≤ b.buffer_.length

instance (b : Buffer) : Decidable b.WellFormed := by
  unfold WellFormed; infer_instance

/-- The vector that `ensureWritableBytes(len)` may have to create can exist: its size
`write_index_ + len` is not above `max_size()`. Then no `size_t` sum of `makeSpace` and
`hasWritten` wraps. A buffer and a byte string of `len` bytes that exist together meet
this. -/
def Fits (b : Buffer) (len : Nat) : Prop := b.write_index_ + len ≤ kMaxSize

instance (b : Buffer) (len : Nat) : Decidable (b.Fits len) := by
  unfold Fits; infer_instance

/-- The mutating operations of the public interface. -/
inductive Op where
  | append (data : List Byte)
  | ensureWritableBytes (len : Nat)
  | retrieve (len : Nat)
  | retrieveUntil (e : Nat)
  | retrieveAll
  | retrieveAsString (len : Nat)
  | retrieveAllAsString
  | prepend (data : List Byte)
  | shrink (reserve : Nat)

/-- The buffer after one operation. -/
def step (b : Buffer) : Op → Buffer
  | .append data => b.append data
  | .ensureWritableBytes len => b.ensureWritableBytes len
  | .retrieve len => b.retrieve len
  | .retrieveUntil e => b.retrieveUntil e
  | .retrieveAll => b.retrieveAll
  | .retrieveAsString len => (b.retrieveAsString len).2
  | .retrieveAllAsString => b.retrieveAllAsString.2
  | .prepend data => b.prepend data
  | .shrink reserve => b.shrink reserve

/-- The buffer after a sequence of operations, first to last. -/
def run (b : Buffer) (ops : List Op) : Buffer := ops.foldl step b

/-- The sizes the operation asks for on the buffer `b` can exist: `write_index_ + len` for
`append` of `len` bytes and for `ensureWritableBytes(len)`, and `8 + readableBytes() + reserve`
for `shrink(reserve)`, are not above `max_size()`. -/
def Op.fits (b : Buffer) : Op → Prop
  | .append data => b.Fits data.length
  | .ensureWritableBytes len => b.Fits len
  | .shrink reserve => kCheapPrepend + b.readableBytes + reserve ≤ kMaxSize
  | _ => True

instance : (b : Buffer) → (op : Op) → Decidable (op.fits b)
  | b, .append data => inferInstanceAs (Decidable (b.Fits data.length))
  | b, .ensureWritableBytes len => inferInstanceAs (Decidable (b.Fits len))
  | b, .shrink reserve =>
    inferInstanceAs (Decidable (kCheapPrepend + b.readableBytes + reserve ≤ kMaxSize))
  | _, .retrieve _ => isTrue trivial
  | _, .retrieveUntil _ => isTrue trivial
  | _, .retrieveAll => isTrue trivial
  | _, .retrieveAsString _ => isTrue trivial
  | _, .retrieveAllAsString => isTrue trivial
  | _, .prepend _ => isTrue trivial

/-- Every operation of the sequence, applied in turn from the buffer `b`, asks for sizes that
can exist. -/
def fitsRun : Buffer → List Op → Prop
  | _, [] => True
  | b, op :: ops => op.fits b ∧ fitsRun (b.step op) ops

instance fitsRunDecidable : (b : Buffer) → (ops : List Op) → Decidable (fitsRun b ops)
  | _, [] => isTrue trivial
  | b, op :: ops =>
    have := fitsRunDecidable (b.step op) ops
    inferInstanceAs (Decidable (op.fits b ∧ fitsRun (b.step op) ops))

end Buffer

namespace Buffer

/-- A buffer of 12 bytes holding `[5, 6]` at `[10, 12)`: no writable byte, ten prependable. -/
def compactable : Buffer := ⟨[0, 0, 0, 0, 0, 0, 0, 0, 0, 0, 5, 6], 10, 12⟩

/-- The result of the `readv` system call: failure with an `errno`, or the bytes waiting in
the socket, of which the call takes as many as the offered segments hold. -/
inductive ReadvResult where
  | failed (errno : Int)
  | data (d : List Byte)
deriving DecidableEq, Repr

/-- Size of the stack array `extrabuf` of `Buffer::readFd`. -/
def kExtraBuf : Nat := 65536

/-- The method `Buffer::readFd(fd, saved_errno)`: returns `n`, the value stored through
`saved_errno` (if any) and the buffer. -/
def readFd (b : Buffer) (r : ReadvResult) : Int × Option Int × Buffer :=
  let writable := b.writableBytes
  let iovcnt := if writable < kExtraBuf then 2 else 1
  match r with
  | .failed errno => (-1, some errno, b)
  | .data d =>
    let offered := if iovcnt = 2 then writable + kExtraBuf else writable
    let got := d.take offered
    let n := got.length
    let filled := { b with buffer_ := copyInto b.buffer_ b.write_index_ (got.take writable) }
    let extrabuf := got.drop writable
    if n ≤ writable then
      ((n : Int), none, { filled with write_index_ := b.write_index_ + n })
    else
      let b1 := { filled with write_index_ := filled.buffer_.length }
      ((n : Int), none, b1.append (extrabuf.take (n - writable)))

end Buffer

/-! ## EventHandler -/

/-- Linux `<sys/epoll.h>`. -/
def EPOLLIN : Nat := 0x001
/-- Linux `<sys/epoll.h>`. -/
def EPOLLPRI : Nat := 0x002
/-- Linux `<sys/epoll.h>`. -/
def EPOLLOUT : Nat := 0x004
/-- Linux `<sys/epoll.h>`. -/
def EPOLLERR : Nat := 0x008
/-- Linux `<sys/epoll.h>`. -/
def EPOLLHUP : Nat := 0x010
/-- Linux `<sys/epoll.h>`. -/
def EPOLLRDHUP : Nat := 0x2000

/-- The class `EventHandler`: a `std::function<void()>` callback is an optional
transformer of the state `σ` it captures. -/
structure EventHandler (σ : Type) where
  fd_ : Int
  events_ : Nat
  read_callback_ : Option (σ → σ)
  write_callback_ : Option (σ → σ)
  error_callback_ : Option (σ → σ)
  close_callback_ : Option (σ → σ)

/-- The statement `if (cb) cb();`. -/
def invoke {σ : Type} (cb : Option (σ → σ)) (s : σ) : σ :=
  match cb with
  | some f => f s
  | none => s

/-- The method `EventHandler::handleEvents(uint32_t events)`. -/
def EventHandler.handleEvents {σ : Type} (h : EventHandler σ) (events : Nat) (s : σ) : σ :=
  if events &&& EPOLLHUP ≠ 0 ∧ ¬ (events &&& EPOLLIN ≠ 0) then
    invoke h.close_callback_ s
  else
    let s1 := if events &&& EPOLLERR ≠ 0 then invoke h.error_callback_ s else s
    let s2 := if events &&& (EPOLLIN ||| EPOLLPRI ||| EPOLLRDHUP) ≠ 0 then
      invoke h.read_callback_ s1 else s1
    if events &&& EPOLLOUT ≠ 0 then invoke h.write_callback_ s2 else s2

/-- The four callbacks of an `EventHandler`. -/
inductive Callback where
  | read
  | write
  | error
  | close
deriving DecidableEq, Repr

/-- An `EventHandler` with all four callbacks set, each appending its own name to a log
when invoked. -/
def tracingHandler (fd : Int) (mask : Nat) : EventHandler (List Callback) :=
  { fd_ := fd
    events_ := mask
    read_callback_ := some (fun log => log ++ [Callback.read])
    write_callback_ := some (fun log => log ++ [Callback.write])
    error_callback_ := some (fun log => log ++ [Callback.error])
    close_callback_ := some (fun log => log ++ [Callback.close]) }

/-- The mask `E` contains `flag`: every bit of `flag` is set in `E`. -/
def hasFlag (E flag : Nat) : Bool := E &&& flag == flag

/-- The dispatch rule in the words of the specification: the callbacks to invoke for a
delivered mask, in order. -/
def specDispatch (E : Nat) : List Callback :=
  if hasFlag E EPOLLHUP ∧ ¬ hasFlag E EPOLLIN then [Callback.close]
  else
    (if hasFlag E EPOLLERR then [Callback.error] else []) ++
    (if hasFlag E EPOLLIN ∨ hasFlag E EPOLLPRI ∨ hasFlag E EPOLLRDHUP then [Callback.read]
      else []) ++
    (if hasFlag E EPOLLOUT then [Callback.write] else [])

/-! ## Connection -/

/-- The enumeration `ConnectionState`. -/
inductive ConnectionState where
  | CONNECTING
  | CONNECTED
  | DISCONNECTING
  | DISCONNECTED
deriving DecidableEq, Repr

/-- Position in the order CONNECTING < CONNECTED < DISCONNECTING < DISCONNECTED. -/
def ConnectionState.rank : ConnectionState → Nat
  | .CONNECTING => 0
  | .CONNECTED => 1
  | .DISCONNECTING => 2
  | .DISCONNECTED => 3

/-- What a `Connection` does to the outside: user callbacks it invokes and calls it makes
on its loop and its socket. -/
inductive Action where
  | messageCallback
  | closeCallback
  | errorCallback
  | writeCompleteCallback
  | addHandler
  | updateHandler (events : Nat)
  | removeHandler
  | shutdownWrite
deriving DecidableEq, Repr

/-- Linux `<errno.h>`; `EWOULDBLOCK` has the same value. -/
def EAGAIN : Int := 11
/-- Linux `<errno.h>`. -/
def EWOULDBLOCK : Int := 11
/-- Linux `<errno.h>`. -/
def EPIPE : Int := 32
/-- Linux `<errno.h>`. -/
def ECONNRESET : Int := 104

/-- The result of the `send` system call on the connection's socket: failure with an
`errno`, or the number of bytes the kernel has room for. -/
inductive SendResult where
  | failed (errno : Int)
  | room (n : Nat)
deriving DecidableEq, Repr

/-- The class `Connection`, with the part of its surroundings its methods act on:
`registered` says whether `loop_`'s handler table holds `handler_`, `wire` is what the
socket has accepted, `trace` lists the actions performed, oldest first. A callback member is
`true` when the `std::function` is set. -/
structure Connection where
  state_ : ConnectionState
  events_ : Nat
  input_buffer_ : Buffer
  output_buffer_ : Buffer
  message_callback_ : Bool
  close_callback_ : Bool
  error_callback_ : Bool
  write_complete_callback_ : Bool
  registered : Bool
  wire : List Byte
  trace : List Action
deriving DecidableEq, Repr

namespace Connection

/-- The constructor: state CONNECTING, empty interest mask, two default buffers. -/
def new : Connection :=
  { state_ := .CONNECTING
    events_ := 0
    input_buffer_ := Buffer.new kInitialSize
    output_buffer_ := Buffer.new kInitialSize
    message_callback_ := false
    close_callback_ := false
    error_callback_ := false
    write_complete_callback_ := false
    registered := false
    wire := []
    trace := [] }

def setMessageCallback (c : Connection) : Connection := { c with message_callback_ := true }

def setCloseCallback (c : Connection) : Connection := { c with close_callback_ := true }

def setErrorCallback (c : Connection) : Connection := { c with error_callback_ := true }

def setWriteCompleteCallback (c : Connection) : Connection :=
  { c with write_complete_callback_ := true }

/-- Append one action to the trace. -/
def act (c : Connection) (a : Action) : Connection := { c with trace := c.trace ++ [a] }

/-- The test `handler_->getEvents() & EventType::WRITE`. -/
def writeInterest (c : Connection) : Bool := c.events_ &&& EPOLLOUT ≠ 0

/-- The call `socket_->send(data, size)`: the value returned and the connection after it. -/
def socketSend (c : Connection) (data : List Byte) (r : SendResult) : Int × Connection :=
  match r with
  | .failed _ => (-1, c)
  | .room n => (((data.take n).length : Nat), { c with wire := c.wire ++ data.take n })

/-- The value of `errno` after the call `socket_->send`. -/
def sendErrno : SendResult → Int
  | .failed e => e
  | .room _ => 0

/-- The method `establishConnection()`; `epoll_ok` says whether `EPOLL_CTL_ADD` succeeds. -/
def establishConnection (c : Connection) (epoll_ok : Bool) : Connection :=
  let c := { c with state_ := .CONNECTED }
  let c := { c with events_ := c.events_ ||| EPOLLIN }
  let c := c.act .addHandler
  if epoll_ok then { c with registered := true } else c

def handleClose (c : Connection) : Connection :=
  let c := { c with state_ := .DISCONNECTED }
  let c := { c with events_ := 0 }
  if c.close_callback_ then c.act .closeCallback else c

def handleError (c : Connection) : Connection :=
  if c.error_callback_ then c.act .errorCallback else c

def destroyConnection (c : Connection) : Connection :=
  if c.state_ = .CONNECTED then
    let c := { c with state_ := .DISCONNECTED }
    let c := { c with events_ := 0 }
    let c := { c.act .removeHandler with registered := false }
    if c.close_callback_ then c.act .closeCallback else c
  else c

def shutdownInLoop (c : Connection) : Connection :=
  if ¬ c.writeInterest then c.act .shutdownWrite else c

def shutdown (c : Connection) : Connection :=
  if c.state_ = .CONNECTED then
    shutdownInLoop { c with state_ := .DISCONNECTING }
  else c

def forceCloseInLoop (c : Connection) : Connection :=
  if c.state_ = .CONNECTED ∨ c.state_ = .DISCONNECTING then c.handleClose else c

def forceClose (c : Connection) : Connection :=
  if c.state_ = .CONNECTED ∨ c.state_ = .DISCONNECTING then
    forceCloseInLoop { c with state_ := .DISCONNECTING }
  else c

def handleRead (c : Connection) (r : Buffer.ReadvResult) : Connection :=
  let (n, _, buf) := c.input_buffer_.readFd r
  let c := { c with input_buffer_ := buf }
  if n > 0 then
    if c.message_callback_ then c.act .messageCallback else c
  else if n = 0 then
    c.handleClose
  else
    c.handleError

/-- The block of `handleWrite` entered once the output buffer has no readable byte left. -/
def writeDrained (c : Connection) : Connection :=
  let c := { c with events_ := c.events_ &&& (0xFFFFFFFF ^^^ EPOLLOUT) }
  let c := c.act (.updateHandler c.events_)
  let c := if c.write_complete_callback_ then c.act .writeCompleteCallback else c
  if c.state_ = .DISCONNECTING then c.shutdownInLoop else c

def handleWrite (c : Connection) (r : SendResult) : Connection :=
  if c.writeInterest then
    let res := c.socketSend c.output_buffer_.readable r
    if res.1 > 0 then
      let c : Connection :=
        { res.2 with output_buffer_ := res.2.output_buffer_.retrieve res.1.toNat }
      if c.output_buffer_.readableBytes = 0 then c.writeDrained else c
    else res.2
  else c

/-- The block `if (output_buffer_->readableBytes() == 0) { ... }` of `sendInLoop`: the
values of `nwrote`, `remaining` and `fault_error` after it, and the connection. -/
def directSend (c : Connection) (data : List Byte) (r : SendResult) :
    Nat × Nat × Bool × Connection :=
  if c.output_buffer_.readableBytes = 0 then
    let res := c.socketSend data r
    if res.1 ≥ 0 then
      let remaining := data.length - res.1.toNat
      let c := if remaining = 0 ∧ res.2.write_complete_callback_ then
        res.2.act .writeCompleteCallback else res.2
      (res.1.toNat, remaining, false, c)
    else
      (0, data.length, decide (sendErrno r ≠ EWOULDBLOCK ∧
        (sendErrno r = EPIPE ∨ sendErrno r = ECONNRESET)), res.2)
  else (0, data.length, false, c)

/-- The block `if (!fault_error && remaining > 0) { ... }` of `sendInLoop`. -/
def queueRemaining (c : Connection) (data : List Byte) (nwrote remaining : Nat)
    (fault_error : Bool) : Connection :=
  if ¬ fault_error ∧ remaining > 0 then
    let c := { c with
      output_buffer_ := c.output_buffer_.append ((data.drop nwrote).take remaining) }
    if ¬ c.writeInterest then
      let c := { c with events_ := c.events_ ||| EPOLLOUT }
      c.act (.updateHandler c.events_)
    else c
  else c

def sendInLoop (c : Connection) (data : List Byte) (r : SendResult) : Connection :=
  if c.state_ ≠ .CONNECTED then c
  else
    let res := c.directSend data r
    res.2.2.2.queueRemaining data res.1 res.2.1 res.2.2.1

/-- The method `send(const void*, size_t)` called on the loop thread. -/
def send (c : Connection) (data : List Byte) (r : SendResult) : Connection :=
  if c.state_ ≠ .CONNECTED then c else c.sendInLoop data r

/-- The `EventHandler` built by the constructor, its four callbacks bound to the handler
methods; the results of the system calls the methods make are fixed beforehand. -/
def handler (c : Connection) (rd : Buffer.ReadvResult) (sd : SendResult) :
    EventHandler Connection :=
  { fd_ := 0
    events_ := c.events_
    read_callback_ := some (fun c => c.handleRead rd)
    write_callback_ := some (fun c => c.handleWrite sd)
    error_callback_ := some handleError
    close_callback_ := some handleClose }

/-- One event of `EventLoop::handleEvents`: the mask `E` is dispatched to the handler when
the loop's table holds it. -/
def deliver (c : Connection) (E : Nat) (rd : Buffer.ReadvResult) (sd : SendResult) :
    Connection :=
  if c.registered then (c.handler rd sd).handleEvents E c else c

/-- Calls on a connection: the public interface and the handler methods. -/
inductive Call where
  | establishConnection (epoll_ok : Bool)
  | destroyConnection
  | shutdown
  | forceClose
  | send (data : List Byte) (r : SendResult)
  | sendInLoop (data : List Byte) (r : SendResult)
  | handleRead (r : Buffer.ReadvResult)
  | handleWrite (r : SendResult)
  | handleClose
  | handleError
  | deliver (E : Nat) (rd : Buffer.ReadvResult) (sd : SendResult)
deriving DecidableEq, Repr

/-- The connection after one call. -/
def step (c : Connection) : Call → Connection
  | .establishConnection ok => c.establishConnection ok
  | .destroyConnection => c.destroyConnection
  | .shutdown => c.shutdown
  | .forceClose => c.forceClose
  | .send data r => c.send data r
  | .sendInLoop data r => c.sendInLoop data r
  | .handleRead r => c.handleRead r
  | .handleWrite r => c.handleWrite r
  | .handleClose => c.handleClose
  | .handleError => c.handleError
  | .deliver E rd sd => c.deliver E rd sd

/-- The connection after a sequence of calls, first to last. -/
def run (c : Connection) (calls : List Call) : Connection := calls.foldl step c

/-- The output buffer is well formed and its write index is at or above the reserve. -/
def OutOK (c : Connection) : Prop :=
  c.output_buffer_.WellFormed ∧ kCheapPrepend ≤ c.output_buffer_.write_index_

instance (c : Connection) : Decidable c.OutOK := by
  unfold OutOK; infer_instance

/-- The `send` fails with `EPIPE` or `ECONNRESET`. -/
def isFault : SendResult → Bool
  | .failed e => decide (e = EPIPE ∨ e = ECONNRESET)
  | .room _ => false

/-- The call is `sendInLoop` or `handleWrite`. -/
def Call.isWrite : Call → Bool
  | .sendInLoop _ _ => true
  | .handleWrite _ => true
  | _ => false

/-- The `send` of the call, if any, fails with `EPIPE` or `ECONNRESET`. -/
def Call.faults : Call → Bool
  | .send _ r => isFault r
  | .sendInLoop _ r => isFault r
  | .handleWrite r => isFault r
  | .deliver _ _ sd => isFault sd
  | _ => false

/-- The bytes the call submits for sending. -/
def Call.payload : Call → List Byte
  | .send data _ => data
  | .sendInLoop data _ => data
  | _ => []

/-- The call is `establishConnection`. -/
def Call.isEstablish : Call → Bool
  | .establishConnection _ => true
  | _ => false

/-- Number of invocations of the close callback so far. -/
def closeCount (c : Connection) : Nat := c.trace.count .closeCallback

end Connection

/-! ## Buffer: gathered read and searches -/

namespace Buffer

/-- Number of bytes the segments `readFd` offers to `readv` can take: the writable zone,
and the 64 KiB `extrabuf` when the writable zone is smaller than it. -/
def readvCapacity (b : Buffer) : Nat :=
  if b.writableBytes < kExtraBuf then b.writableBytes + kExtraBuf else b.writableBytes

/-- The static array `Buffer::kCRLF`: carriage return, line feed. -/
def kCRLF : List Byte := [13, 10]

/-- Outcome of the inner loop of `std::search` at one candidate position: the pattern is
exhausted (`return first`), the range is exhausted (`return last`), or an element differs
(`break`). -/
inductive MatchResult where
  | found
  | atEnd
  | mismatch
deriving DecidableEq, Repr

/-- The inner loop of `std::search`: compare the pattern with the range from `it` on. -/
def matchAt (buf : List Byte) (last : Nat) : Nat → List Byte → MatchResult
  | _, [] => .found
  | it, s :: ss =>
    if it = last then .atEnd
    else if buf.getD it 0 = s then matchAt buf last (it + 1) ss
    else .mismatch

/-- The outer loop of `std::search(first, last, s_first, s_last)` over the vector, positions
being offsets from `begin()`; the result `last` means no occurrence. `fuel` bounds the
number of candidate positions tried. -/
def stdSearch (buf : List Byte) (last : Nat) (pat : List Byte) : Nat → Nat → Nat
  | 0, _ => last
  | fuel + 1, first =>
    match matchAt buf last first pat with
    | .found => first
    | .atEnd => last
    | .mismatch => stdSearch buf last pat fuel (first + 1)

/-- The method `findCRLF()`: the offset from `begin()` of the position returned, `none` for
`nullptr`. The search gets one candidate position per readable byte and one more. -/
def findCRLF (b : Buffer) : Option Nat :=
  let crlf := stdSearch b.buffer_ b.write_index_ kCRLF
    (b.write_index_ + 1 - b.read_index_) b.read_index_
  if crlf = b.write_index_ then none else some crlf

/-- The call `memchr(s, c, n)` with `s` at offset `pos` of the vector. -/
def memchr (buf : List Byte) (c : Byte) : Nat → Nat → Option Nat
  | _, 0 => none
  | pos, n + 1 => if buf.getD pos 0 = c then some pos else memchr buf c (pos + 1) n

/-- The method `findEOL()`. -/
def findEOL (b : Buffer) : Option Nat :=
  memchr b.buffer_ 10 b.read_index_ b.readableBytes

/-- The two bytes carriage return, line feed stand at offsets `p` and `p + 1`, both inside
the readable zone. -/
def CRLFAt (b : Buffer) (p : Nat) : Prop :=
  b.read_index_ ≤ p ∧ p + 2 ≤ b.write_index_ ∧
    b.buffer_[p]? = some 13 ∧ b.buffer_[p + 1]? = some 10

instance (b : Buffer) (p : Nat) : Decidable (b.CRLFAt p) := by
  unfold CRLFAt; infer_instance

/-- A line feed stands at offset `p`, inside the readable zone. -/
def EOLAt (b : Buffer) (p : Nat) : Prop :=
  b.read_index_ ≤ p ∧ p < b.write_index_ ∧ b.buffer_[p]? = some 10

instance (b : Buffer) (p : Nat) : Decidable (b.EOLAt p) := by
  unfold EOLAt; infer_instance

/-- A buffer whose readable zone `[3, 6)` is line feed, 5, carriage return, with a line feed
just past the write index. -/
def crBeforeEnd : Buffer := ⟨[0, 0, 13, 10, 5, 13, 10, 13], 3, 6⟩

end Buffer

/-! ## EventLoop -/

/-- A `std::shared_ptr<EventHandler>` as the loop uses it: the descriptor of the handler and
the identity of the handler object. -/
structure HandlerRef where
  fd_ : Int
  id : Nat
deriving DecidableEq, Repr

/-- A closure on a pending-task queue, named after what invoking it does. -/
inductive LoopTask where
  | addHandler (handler : HandlerRef)
  | updateHandler (handler : HandlerRef)
  | removeHandler (handler : HandlerRef)
  | writeCompleteCallback
  | shutdownInLoop
  | other (tag : Nat)
deriving DecidableEq, Repr

/-- The class `EventLoop`: the thread recorded in `loop_thread_id_`, the table `handlers_`
as an association list with one entry per descriptor, the queue `pending_tasks_`, and the
number of writes made to `wakeup_fd_`. -/
structure EventLoop where
  loop_thread_id_ : Nat
  handlers_ : List (Int × HandlerRef)
  pending_tasks_ : List LoopTask
  wakeups : Nat
deriving DecidableEq, Repr

/-- The statement `handlers_.erase(fd)`. -/
def tableErase (t : List (Int × HandlerRef)) (fd : Int) : List (Int × HandlerRef) :=
  t.filter (fun e => decide (e.1 ≠ fd))

/-- The statement `handlers_[fd] = handler`. -/
def tableAssign (t : List (Int × HandlerRef)) (fd : Int) (handler : HandlerRef) :
    List (Int × HandlerRef) :=
  (fd, handler) :: tableErase t fd

/-- The call `handlers_.find(fd)`. -/
def tableFind (t : List (Int × HandlerRef)) (fd : Int) : Option HandlerRef :=
  t.lookup fd

namespace EventLoop

/-- The method `isInLoopThread()` evaluated on the thread `caller`. -/
def isInLoopThread (l : EventLoop) (caller : Nat) : Bool :=
  decide (l.loop_thread_id_ = caller)

def wakeup (l : EventLoop) : EventLoop := { l with wakeups := l.wakeups + 1 }

/-- The method `runInLoop(task)` called on the thread `caller`; `run` is what invoking the
task does to the state `s` it captures. -/
def runInLoop {σ : Type} (l : EventLoop) (caller : Nat) (task : LoopTask) (run : σ → σ)
    (s : σ) : σ × EventLoop :=
  if l.isInLoopThread caller then
    (run s, l)
  else
    (s, wakeup { l with pending_tasks_ := l.pending_tasks_ ++ [task] })

/-- The method `addHandler(handler)` called on the thread `caller`; `epoll_ok` says whether
`EPOLL_CTL_ADD` succeeds. -/
def addHandler (l : EventLoop) (caller : Nat) (handler : HandlerRef) (epoll_ok : Bool) :
    EventLoop :=
  let fd := handler.fd_
  if l.isInLoopThread caller then
    if ¬ epoll_ok then l
    else { l with handlers_ := tableAssign l.handlers_ fd handler }
  else
    (l.runInLoop caller (.addHandler handler) id ()).2

/-- The method `updateHandler(handler)`; `epoll_ok` says whether `EPOLL_CTL_MOD` succeeds. -/
def updateHandler (l : EventLoop) (caller : Nat) (handler : HandlerRef) (epoll_ok : Bool) :
    EventLoop :=
  if l.isInLoopThread caller then
    if ¬ epoll_ok then l
    else l
  else
    (l.runInLoop caller (.updateHandler handler) id ()).2

/-- The method `removeHandler(handler)`; `epoll_ok` says whether `EPOLL_CTL_DEL` succeeds:
a failure is logged and the method goes on. -/
def removeHandler (l : EventLoop) (caller : Nat) (handler : HandlerRef) (_epoll_ok : Bool) :
    EventLoop :=
  let fd := handler.fd_
  if l.isInLoopThread caller then
    { l with handlers_ := tableErase l.handlers_ fd }
  else
    (l.runInLoop caller (.removeHandler handler) id ()).2

end EventLoop

/-! ## Connection and its loop; the server's connection map -/

namespace Connection

/-- The statement
`loop_->runInLoop([this]() { write_complete_callback_(shared_from_this()); })` executed on
the thread of the loop `l`. -/
def runWriteComplete (c : Connection) (l : EventLoop) : Connection × EventLoop :=
  l.runInLoop l.loop_thread_id_ .writeCompleteCallback
    (fun c => c.act .writeCompleteCallback) c

/-- The block `directSend` of `sendInLoop` with the owning loop `l` explicit. -/
def directSendOn (c : Connection) (l : EventLoop) (data : List Byte) (r : SendResult) :
    Nat × Nat × Bool × Connection × EventLoop :=
  if c.output_buffer_.readableBytes = 0 then
    let res := c.socketSend data r
    if res.1 ≥ 0 then
      let remaining := data.length - res.1.toNat
      let cl := if remaining = 0 ∧ res.2.write_complete_callback_ then
        res.2.runWriteComplete l else (res.2, l)
      (res.1.toNat, remaining, false, cl)
    else
      (0, data.length, decide (sendErrno r ≠ EWOULDBLOCK ∧
        (sendErrno r = EPIPE ∨ sendErrno r = ECONNRESET)), res.2, l)
  else (0, data.length, false, c, l)

/-- The method `sendInLoop(data)` executed on the thread of the owning loop `l`, the loop
explicit. -/
def sendInLoopOn (c : Connection) (l : EventLoop) (data : List Byte) (r : SendResult) :
    Connection × EventLoop :=
  if c.state_ ≠ .CONNECTED then (c, l)
  else
    let res := c.directSendOn l data r
    (res.2.2.2.1.queueRemaining data res.1 res.2.1 res.2.2.1, res.2.2.2.2)

/-- The block `writeDrained` of `handleWrite` with the owning loop `l` explicit. -/
def writeDrainedOn (c : Connection) (l : EventLoop) : Connection × EventLoop :=
  let c := { c with events_ := c.events_ &&& (0xFFFFFFFF ^^^ EPOLLOUT) }
  let c := c.act (.updateHandler c.events_)
  let cl := if c.write_complete_callback_ then c.runWriteComplete l else (c, l)
  if cl.1.state_ = .DISCONNECTING then (cl.1.shutdownInLoop, cl.2) else cl

/-- The method `handleWrite()` executed on the thread of the owning loop `l`, the loop
explicit. -/
def handleWriteOn (c : Connection) (l : EventLoop) (r : SendResult) :
    Connection × EventLoop :=
  if c.writeInterest then
    let res := c.socketSend c.output_buffer_.readable r
    if res.1 > 0 then
      let c : Connection :=
        { res.2 with output_buffer_ := res.2.output_buffer_.retrieve res.1.toNat }
      if c.output_buffer_.readableBytes = 0 then c.writeDrainedOn l else (c, l)
    else (res.2, l)
  else (c, l)

/-- The method `shutdown()` executed on the thread of the owning loop `l`, the loop
explicit. -/
def shutdownOn (c : Connection) (l : EventLoop) : Connection × EventLoop :=
  if c.state_ = .CONNECTED then
    l.runInLoop l.loop_thread_id_ .shutdownInLoop shutdownInLoop
      { c with state_ := .DISCONNECTING }
  else (c, l)

end Connection

namespace EchoServer

/-- The statement `connections_.erase(name)` on the map as an association list. -/
def eraseConnection {V : Type} (connections_ : List (String × V)) (name : String) :
    List (String × V) :=
  connections_.filter (fun e => decide (e.1 ≠ name))

/-- The method `removeConnectionInLoop(conn)`, for the connection `c` named `name`: the map
after the erase, and the connection once the body that `conn->destroyConnection()` hands to
`runInLoop` has run on the owning loop. -/
def removeConnectionInLoop {V : Type} (connections_ : List (String × V)) (name : String)
    (c : Connection) : List (String × V) × Connection :=
  (eraseConnection connections_ name, c.destroyConnection)

end EchoServer

/-! ## Sample states -/

/-- A loop of thread 1 whose table holds one handler, for descriptor 5. -/
def oneHandlerLoop : EventLoop := ⟨1, [(5, ⟨5, 0⟩)], [], 0⟩

/-- A connection with a write-complete callback, established on its loop. -/
def withWriteComplete : Connection :=
  Connection.new.setWriteCompleteCallback.establishConnection true

/-- The connection `withWriteComplete` after a `sendInLoop` of three bytes of which the
socket took one: two bytes wait in the output buffer and write interest is set. -/
def withPendingOutput : Connection :=
  withWriteComplete.sendInLoop [1, 2, 3] (.room 1)

/-! ## EchoServer: worker selection -/

namespace EchoServer

/-- The `EventLoop*` returned by `getNextLoop`: `main_loop_`, or `loops_[index]`. -/
inductive LoopChoice where
  | main
  | worker (index : Int)
deriving DecidableEq, Repr

/-- The value of an `int` converted to the 64-bit `size_t`. -/
def toSizeT (i : Int) : Nat := (i % 18446744073709551616).toNat

/-- The value an integer has once stored in an `int`: 32 bits, two's complement. -/
def toInt32 (i : Int) : Int := (i + 2147483648) % 4294967296 - 2147483648

/-- The method `getNextLoop()`: the loop returned and `next_loop_index_` afterwards.
`loops_size` is `loops_.size()`; in `fetch_add(1) % loops_.size()` the `int` that
`fetch_add` returns is converted to `size_t` before the remainder is taken. -/
def getNextLoop (next_loop_index_ : Int) (loops_size : Nat) : LoopChoice × Int :=
  if loops_size = 0 then
    (.main, next_loop_index_)
  else
    let fetched := next_loop_index_
    let index := toInt32 ((toSizeT fetched % loops_size : Nat) : Int)
    (.worker index, toInt32 (fetched + 1))

/-- The value of `next_loop_index_` after `k` calls of `getNextLoop`, from the initial 0. -/
def counterAfter (loops_size : Nat) : Nat → Int
  | 0 => 0
  | k + 1 => (getNextLoop (counterAfter loops_size k) loops_size).2

/-- The loop returned by the `k`-th call of `getNextLoop`, counting from 0. -/
def kthLoop (loops_size k : Nat) : LoopChoice :=
  (getNextLoop (counterAfter loops_size k) loops_size).1

end EchoServer

/-! ## Connection: write interest and pending output -/

namespace Connection

/-- The call is `establishConnection`, `sendInLoop`, `handleWrite` or `shutdown`. -/
def Call.isOutputPath : Call → Bool
  | .establishConnection _ => true
  | .sendInLoop _ _ => true
  | .handleWrite _ => true
  | .shutdown => true
  | _ => false

/-- The handler's write-interest bit is set exactly when the output buffer has a readable
byte. -/
def WriteIffPending (c : Connection) : Prop :=
  c.writeInterest = true ↔ 0 < c.output_buffer_.readableBytes

instance (c : Connection) : Decidable c.WriteIffPending := by
  unfold WriteIffPending; infer_instance

end Connection

/-! ## EventLoop: the pending-task queue -/

namespace EventLoop

/-- Calls `runInLoop(task)` made one after the other, each on the thread given with it. -/
def postAll (l : EventLoop) (posts : List (Nat × LoopTask)) : EventLoop :=
  posts.foldl (fun l p => (l.runInLoop p.1 p.2 id ()).2) l

/-- Invoking a queued task on the loop's thread. A task queued by `addHandler`,
`updateHandler` or `removeHandler` calls that method again; `run t` is what the task does to
the state outside the loop, `epoll_ok` the outcome of the `epoll_ctl` call it may make. -/
def invokeTask {σ : Type} (run : LoopTask → σ → σ) (epoll_ok : Bool) (t : LoopTask) (s : σ)
    (l : EventLoop) : σ × EventLoop :=
  match t with
  | .addHandler h => (run t s, l.addHandler l.loop_thread_id_ h epoll_ok)
  | .updateHandler h => (run t s, l.updateHandler l.loop_thread_id_ h epoll_ok)
  | .removeHandler h => (run t s, l.removeHandler l.loop_thread_id_ h epoll_ok)
  | _ => (run t s, l)

/-- The statement `for (const auto& task : tasks) task();` of `doPendingTasks`, from the task
at position `i` of the batch on. While the task at position `j` runs, other threads make the
`runInLoop` calls `arrivals j`. -/
def runBatch {σ : Type} (run : LoopTask → σ → σ) (epoll_ok : Nat → Bool)
    (arrivals : Nat → List (Nat × LoopTask)) :
    List LoopTask → Nat → σ × EventLoop → σ × EventLoop
  | [], _, st => st
  | t :: ts, i, st =>
    let r := invokeTask run (epoll_ok i) t st.1 st.2
    runBatch run epoll_ok arrivals ts (i + 1) (r.1, postAll r.2 (arrivals i))

/-- The method `doPendingTasks()`: the queue is swapped into the local `tasks` under the
mutex, then the batch is run. -/
def doPendingTasks {σ : Type} (run : LoopTask → σ → σ) (epoll_ok : Nat → Bool)
    (arrivals : Nat → List (Nat × LoopTask)) (l : EventLoop) (s : σ) : σ × EventLoop :=
  let tasks := l.pending_tasks_
  let l := { l with pending_tasks_ := [] }
  runBatch run epoll_ok arrivals tasks 0 (s, l)

end EventLoop

/-- A loop of thread 1 with three tasks on its queue. -/
def threeTaskLoop : EventLoop :=
  ⟨1, [(5, ⟨5, 0⟩)], [.other 10, .removeHandler ⟨5, 0⟩, .other 11], 0⟩

/-- While the first task of a batch runs, thread 2 posts task 20 and thread 3 posts task 30;
while the third runs, thread 2 posts task 21. -/
def sampleArrivals : Nat → List (Nat × LoopTask)
  | 0 => [(2, .other 20), (3, .other 30)]
  | 2 => [(2, .other 21)]
  | _ => []

/-! ## The program entry point -/

/-- The enumeration `LogLevel`. -/
inductive LogLevel where
  | DEBUG
  | INFO
  | WARN
  | ERROR
  | FATAL
deriving DecidableEq, Repr

def parseLogLevel (level : String) : LogLevel :=
  if level = "DEBUG" then .DEBUG
  else if level = "INFO" then .INFO
  else if level = "WARN" then .WARN
  else if level = "ERROR" then .ERROR
  else if level = "FATAL" then .FATAL
  else .INFO

/-- The digits read by `atoi`: the value accumulated until the first character that is not a
decimal digit. -/
def atoiDigits : List Char → Int → Int
  | [], acc => acc
  | c :: cs, acc =>
    if 48 ≤ c.toNat ∧ c.toNat ≤ 57 then atoiDigits cs (acc * 10 + ((c.toNat - 48 : Nat) : Int))
    else acc

/-- The number that `strtol(s, NULL, 10)` reads: white space is skipped, an optional sign is
read, then decimal digits; 0 when no digit follows. -/
def strtolValue (s : String) : Int :=
  match s.toList.dropWhile (fun c => decide (c.toNat = 32 ∨ (9 ≤ c.toNat ∧ c.toNat ≤ 13))) with
  | [] => 0
  | c :: cs =>
    if c.toNat = 45 then - atoiDigits cs 0
    else if c.toNat = 43 then atoiDigits cs 0
    else atoiDigits (c :: cs) 0

/-- The C library function `strtol(s, NULL, 10)`: a number outside the range of the 64-bit
`long` is replaced by `LONG_MAX` or `LONG_MIN`. -/
def strtol (s : String) : Int :=
  if 9223372036854775807 < strtolValue s then 9223372036854775807
  else if strtolValue s < -9223372036854775808 then -9223372036854775808
  else strtolValue s

/-- The C library function `atoi` as the GNU C library defines it, `(int) strtol(s, NULL, 10)`:
the `long` is cut to the 32 bits of an `int`. -/
def atoi (s : String) : Int := EchoServer.toInt32 (strtol s)

/-- The local variables of `main` that the option loop sets. -/
structure Options where
  address : String
  port : Int
  thread_num : Int
  log_level : LogLevel
  log_file : String
deriving DecidableEq, Repr

/-- The message `main` writes to `std::cerr` before it returns from the option loop. -/
inductive ArgError where
  | invalidPort
  | portRequiresValue
  | addressRequiresValue
  | invalidThreadNumber
  | threadsRequiresValue
  | logLevelRequiresValue
  | logFileRequiresValue
  | unknownOption
deriving DecidableEq, Repr

/-- How the option loop of `main` ends: the usage text was asked for, an error was reported,
or every argument was read. -/
inductive ParseOutcome where
  | help
  | error (e : ArgError)
  | options (o : Options)
deriving DecidableEq, Repr

/-- The option loop of `main` on the arguments `argv[i..]`, with the variables as they are
when the iteration for `argv[i]` begins. -/
def parseArgs (o : Options) : List String → ParseOutcome
  | [] => .options o
  | arg :: rest =>
    if arg = "-h" ∨ arg = "--help" then .help
    else if arg = "-p" ∨ arg = "--port" then
      match rest with
      | v :: rest =>
        if atoi v ≤ 0 ∨ atoi v > 65535 then .error .invalidPort
        else parseArgs { o with port := atoi v } rest
      | [] => .error .portRequiresValue
    else if arg = "-a" ∨ arg = "--address" then
      match rest with
      | v :: rest => parseArgs { o with address := v } rest
      | [] => .error .addressRequiresValue
    else if arg = "-t" ∨ arg = "--threads" then
      match rest with
      | v :: rest =>
        if atoi v < 0 then .error .invalidThreadNumber
        else parseArgs { o with thread_num := atoi v } rest
      | [] => .error .threadsRequiresValue
    else if arg = "-l" ∨ arg = "--log-level" then
      match rest with
      | v :: rest => parseArgs { o with log_level := parseLogLevel v } rest
      | [] => .error .logLevelRequiresValue
    else if arg = "-f" ∨ arg = "--log-file" then
      match rest with
      | v :: rest => parseArgs { o with log_file := v } rest
      | [] => .error .logFileRequiresValue
    else .error .unknownOption

/-- What the environment decides for one run of `main`: the value of
`std::thread::hardware_concurrency()`, whether the log file can be opened, whether the
constructor of `EchoServer` throws, the results of `create`, `bind` and `listen` on the
listening socket, and whether `start` throws once the socket listens (as `std::thread` may). -/
structure RunEnv where
  hardware_concurrency : Nat
  log_file_opens : Bool
  constructor_throws : Bool
  create_ok : Bool
  bind_ok : Bool
  listen_ok : Bool
  start_throws : Bool
deriving DecidableEq, Repr

/-- How a call returns control: normally, or by an exception. -/
inductive Completion where
  | returned
  | thrown
deriving DecidableEq, Repr

namespace EchoServer

/-- The method `start()` on a server not started yet, as far as its caller sees it: after a
failed `create`, `bind` or `listen` it logs and returns; otherwise it starts the workers and
runs the main loop, and returns when the loop has been stopped. -/
def start (env : RunEnv) : Completion :=
  if ¬ env.create_ok then .returned
  else if ¬ env.bind_ok then .returned
  else if ¬ env.listen_ok then .returned
  else if env.start_throws then .thrown
  else .returned

end EchoServer

/-- The part of `main` after the option loop: the exit code. -/
def runServer (o : Options) (env : RunEnv) : Int :=
  if o.log_file ≠ "" ∧ ¬ env.log_file_opens then 1
  else if env.constructor_throws then 1
  else
    match EchoServer.start env with
    | .thrown => 1
    | .returned => 0

/-- The variables of `main` before the option loop. -/
def defaultOptions (env : RunEnv) : Options :=
  { address := "0.0.0.0"
    port := 8080
    thread_num := env.hardware_concurrency
    log_level := .INFO
    log_file := "" }

/-- The function `main` on the arguments `argv[1..]`: the exit code. -/
def main (args : List String) (env : RunEnv) : Int :=
  match parseArgs (defaultOptions env) args with
  | .help => 0
  | .error _ => 1
  | .options o => runServer o env

/-- An environment in which every step of the start-up succeeds. -/
def goodEnv : RunEnv := ⟨4, true, false, true, true, true, false⟩

/-! ## EchoServer: connections, loops and threads -/

namespace EchoServer

/-- The callbacks invoked for a connection: the server's connection callback, and the four
callbacks of the `Connection`. -/
inductive CallbackKind where
  | connection
  | message
  | writeComplete
  | close
  | error
deriving DecidableEq, Repr

/-- One invocation of a callback: the connection it is for (its position among the
connection objects of the server), the callback, and the thread that executes it. -/
structure Invocation where
  conn : Nat
  kind : CallbackKind
  thread : Nat
deriving DecidableEq, Repr

/-- What a loop thread executes for a connection `conn`: the body of a closure given to
`runInLoop`, or a callback of the connection's handler. The results of the system calls made
are fixed beforehand. -/
inductive ServerTask where
  | establishConnection (conn : Nat) (epoll_ok : Bool)
  | destroyConnection (conn : Nat)
  | removeConnectionInLoop (conn : Nat)
  | forceCloseInLoop (conn : Nat)
  | shutdownInLoop (conn : Nat)
  | sendInLoop (conn : Nat) (data : List Byte) (r : SendResult)
  | handleRead (conn : Nat) (r : Buffer.ReadvResult)
  | handleWrite (conn : Nat) (r : SendResult)
  | handleClose (conn : Nat)
  | handleError (conn : Nat)
deriving DecidableEq, Repr

/-- A `Connection` object with its members `name_` and `loop_`; a loop is named by the thread
that runs it. -/
structure ConnObject where
  name_ : String
  loop_ : Nat
  conn : Connection
deriving DecidableEq, Repr

/-- The class `EchoServer` with its surroundings. Every loop is running, so a loop is named by
the thread recorded in its `loop_thread_id_`: `main_loop_` is the thread of the main loop and
`loops_` lists the threads of the worker loops. `objects` holds every `Connection` created, a
`std::shared_ptr<Connection>` being a position in it; `connections_` is the map from names to
such pointers. `backlog` counts the peers waiting in the accept queue of the listening socket,
`queued` holds the tasks waiting on the pending queues, each with its loop, oldest first.
`mutex_held` says whether `connections_mutex_` is locked, `relocked` whether a thread has tried
to lock it while holding it: that thread blocks, and nothing that follows is modelled. `calls`
lists the callback invocations, oldest first. -/
structure Server where
  main_loop_ : Nat
  loops_ : List Nat
  started_ : Bool
  next_conn_id_ : Int
  next_loop_index_ : Int
  connection_callback_ : Bool
  message_callback_ : Bool
  write_complete_callback_ : Bool
  connections_ : List (String × Nat)
  objects : List ConnObject
  backlog : Nat
  queued : List (Nat × ServerTask)
  mutex_held : Bool
  relocked : Bool
  out_of_fuel : Bool
  calls : List Invocation
deriving DecidableEq, Repr

/-- The callback an action of a connection invokes, if it is one. -/
def callbackOf : Action → Option CallbackKind
  | .messageCallback => some .message
  | .closeCallback => some .close
  | .errorCallback => some .error
  | .writeCompleteCallback => some .writeComplete
  | _ => none

/-- The call `loop->runInLoop(task)` made on the thread `caller`, for the loop run by the
thread `target`; `rec` executes a task on a thread. -/
def runInLoop (rec : Server → Nat → ServerTask → Server) (s : Server) (caller target : Nat)
    (task : ServerTask) : Server :=
  if target = caller then rec s caller task
  else { s with queued := s.queued ++ [(target, task)] }

/-- The method `removeConnection(conn)` called on the thread `caller`. -/
def removeConnection (rec : Server → Nat → ServerTask → Server) (s : Server) (caller : Nat)
    (conn : Nat) : Server :=
  runInLoop rec s caller s.main_loop_ (.removeConnectionInLoop conn)

/-- A method `f` of the connection `conn` executed on the thread `thread`. The callbacks it
invokes are recorded with the thread. The close and error callbacks of a connection are the
closures installed by `handleNewConnection`, which call `removeConnection`; in every method
such a callback is the last thing done. -/
def onConnection (rec : Server → Nat → ServerTask → Server) (s : Server) (thread conn : Nat)
    (f : Connection → Connection) : Server :=
  match s.objects[conn]? with
  | none => s
  | some o =>
    let c := f o.conn
    let fresh := c.trace.drop o.conn.trace.length
    let s : Server :=
      { s with
        objects := s.objects.set conn { o with conn := c }
        calls := s.calls ++
          fresh.filterMap (fun a => (callbackOf a).map (fun k => ⟨conn, k, thread⟩)) }
    if Action.closeCallback ∈ fresh ∨ Action.errorCallback ∈ fresh then
      removeConnection rec s thread conn
    else s

/-- The task `task` executed on the thread `thread`; `fuel` bounds the depth of the calls
made inline, and `out_of_fuel` is set when the bound is reached. -/
def exec : Nat → Server → Nat → ServerTask → Server
  | 0, s, _, _ => { s with out_of_fuel := true }
  | fuel + 1, s, thread, task =>
    if s.relocked then s
    else
      match task with
      | .establishConnection conn ok =>
        onConnection (exec fuel) s thread conn (fun c => c.establishConnection ok)
      | .destroyConnection conn =>
        onConnection (exec fuel) s thread conn Connection.destroyConnection
      | .forceCloseInLoop conn =>
        onConnection (exec fuel) s thread conn Connection.forceCloseInLoop
      | .shutdownInLoop conn =>
        onConnection (exec fuel) s thread conn Connection.shutdownInLoop
      | .sendInLoop conn data r =>
        onConnection (exec fuel) s thread conn (fun c => c.sendInLoop data r)
      | .handleRead conn r =>
        onConnection (exec fuel) s thread conn (fun c => c.handleRead r)
      | .handleWrite conn r =>
        onConnection (exec fuel) s thread conn (fun c => c.handleWrite r)
      | .handleClose conn =>
        onConnection (exec fuel) s thread conn Connection.handleClose
      | .handleError conn =>
        onConnection (exec fuel) s thread conn Connection.handleError
      | .removeConnectionInLoop conn =>
        match s.objects[conn]? with
        | none => s
        | some o =>
          if s.mutex_held then { s with relocked := true }
          else
            let s : Server :=
              { s with connections_ := eraseConnection s.connections_ o.name_ }
            runInLoop (exec fuel) s thread o.loop_ (.destroyConnection conn)

/-- The method `Connection::send` of the connection `conn` called on the thread `caller`. -/
def send (rec : Server → Nat → ServerTask → Server) (s : Server) (caller conn : Nat)
    (data : List Byte) (r : SendResult) : Server :=
  match s.objects[conn]? with
  | none => s
  | some o =>
    if o.conn.state_ ≠ .CONNECTED then s
    else runInLoop rec s caller o.loop_ (.sendInLoop conn data r)

/-- The method `Connection::shutdown` of the connection `conn` called on the thread
`caller`. -/
def shutdown (rec : Server → Nat → ServerTask → Server) (s : Server) (caller conn : Nat) :
    Server :=
  match s.objects[conn]? with
  | none => s
  | some o =>
    if o.conn.state_ = .CONNECTED then
      let s : Server :=
        { s with objects :=
            s.objects.set conn { o with conn := { o.conn with state_ := .DISCONNECTING } } }
      runInLoop rec s caller o.loop_ (.shutdownInLoop conn)
    else s

/-- The method `Connection::forceClose` of the connection `conn` called on the thread
`caller`. -/
def forceClose (rec : Server → Nat → ServerTask → Server) (s : Server) (caller conn : Nat) :
    Server :=
  match s.objects[conn]? with
  | none => s
  | some o =>
    if o.conn.state_ = .CONNECTED ∨ o.conn.state_ = .DISCONNECTING then
      let s : Server :=
        { s with objects :=
            s.objects.set conn { o with conn := { o.conn with state_ := .DISCONNECTING } } }
      runInLoop rec s caller o.loop_ (.forceCloseInLoop conn)
    else s

/-- The thread of the loop `getNextLoop` returns. -/
def loopThread (s : Server) : LoopChoice → Nat
  | .main => s.main_loop_
  | .worker index => s.loops_.getD index.toNat s.main_loop_

/-- The `Connection` that `handleNewConnection` creates: its name is made from
`next_conn_id_`, its loop is the one `getNextLoop` returns, and its callbacks are set from the
server's message and write-complete callbacks and the two closures that call
`removeConnection`. -/
def newConnectionObject (s : Server) : ConnObject :=
  { name_ := "Connection-" ++ toString s.next_conn_id_
    loop_ := loopThread s (getNextLoop s.next_loop_index_ s.loops_.length).1
    conn :=
      { Connection.new with
        message_callback_ := s.message_callback_
        write_complete_callback_ := s.write_complete_callback_
        close_callback_ := true
        error_callback_ := true } }

/-- The first part of `handleNewConnection`, for a peer that `accept` returns: from the
`accept` to the callbacks set on the new `Connection`. The increment of `next_conn_id_` is
taken below the largest `int`. -/
def createConnection (s : Server) : Server :=
  { s with
    backlog := s.backlog - 1
    next_conn_id_ := s.next_conn_id_ + 1
    next_loop_index_ := (getNextLoop s.next_loop_index_ s.loops_.length).2
    objects := s.objects ++ [newConnectionObject s] }

/-- The method `handleNewConnection()` executed on the thread `caller`; `epoll_ok` says whether
the `EPOLL_CTL_ADD` of the new connection succeeds. With an empty accept queue `accept`
reports would-block and the method returns. -/
def handleNewConnection (rec : Server → Nat → ServerTask → Server) (s : Server) (caller : Nat)
    (epoll_ok : Bool) : Server :=
  if s.backlog = 0 then s
  else
    let o := newConnectionObject s
    let conn := s.objects.length
    if s.mutex_held then { createConnection s with relocked := true }
    else
      let s1 : Server :=
        { createConnection s with
          connections_ := (o.name_, conn) :: eraseConnection s.connections_ o.name_ }
      let s2 := runInLoop rec s1 caller o.loop_ (.establishConnection conn epoll_ok)
      if s2.relocked then s2
      else if s2.connection_callback_ then
        { s2 with calls := s2.calls ++ [⟨conn, .connection, caller⟩] }
      else s2

/-- The statement `for (auto& pair : connections_) pair.second->forceClose();` of `stop`, on
the entries still to visit. -/
def forceCloseAll (rec : Server → Nat → ServerTask → Server) (caller : Nat) :
    List (String × Nat) → Server → Server
  | [], s => s
  | e :: es, s =>
    if s.relocked then s
    else forceCloseAll rec caller es (forceClose rec s caller e.2)

/-- The method `stop()` called on the thread `caller`: the loops are told to stop, the worker
threads are joined, then every connection of the map is closed under `connections_mutex_`. -/
def stop (rec : Server → Nat → ServerTask → Server) (s : Server) (caller : Nat) : Server :=
  if ¬ s.started_ then s
  else
    let s : Server := { s with started_ := false }
    if s.mutex_held then { s with relocked := true }
    else
      let s : Server := { s with mutex_held := true }
      let s := forceCloseAll rec caller s.connections_ s
      if s.relocked then s
      else { s with connections_ := [], mutex_held := false }

/-- The method `EventLoop::doPendingTasks()` of the loop run by the thread `loop`. -/
def doPendingTasks (rec : Server → Nat → ServerTask → Server) (s : Server) (loop : Nat) :
    Server :=
  let tasks := (s.queued.filter (fun q => decide (q.1 = loop))).map Prod.snd
  let s : Server := { s with queued := s.queued.filter (fun q => decide (q.1 ≠ loop)) }
  tasks.foldl (fun s t => rec s loop t) s

/-- What happens next in the server: the main loop dispatches a read event of the listening
socket; the loop of a connection dispatches an event to a callback of its handler (whether
or not the handler is still in the loop's table: one dispatch may invoke several callbacks);
a loop runs its pending tasks; a thread calls a method of a connection or `stop`. -/
inductive Step where
  | newConnection (epoll_ok : Bool)
  | handleRead (conn : Nat) (r : Buffer.ReadvResult)
  | handleWrite (conn : Nat) (r : SendResult)
  | handleClose (conn : Nat)
  | handleError (conn : Nat)
  | doPendingTasks (loop : Nat)
  | send (caller conn : Nat) (data : List Byte) (r : SendResult)
  | shutdown (caller conn : Nat)
  | forceClose (caller conn : Nat)
  | stop (caller : Nat)
deriving DecidableEq, Repr

/-- A handler callback of the connection `conn` executed by the loop that owns it. -/
def dispatch (fuel : Nat) (s : Server) (conn : Nat) (task : ServerTask) : Server :=
  match s.objects[conn]? with
  | none => s
  | some o => exec fuel s o.loop_ task

/-- The server after one step. -/
def step (fuel : Nat) (s : Server) : Step → Server
  | .newConnection ok =>
    if s.relocked then s else handleNewConnection (exec fuel) s s.main_loop_ ok
  | .handleRead conn r => dispatch fuel s conn (.handleRead conn r)
  | .handleWrite conn r => dispatch fuel s conn (.handleWrite conn r)
  | .handleClose conn => dispatch fuel s conn (.handleClose conn)
  | .handleError conn => dispatch fuel s conn (.handleError conn)
  | .doPendingTasks loop => if s.relocked then s else doPendingTasks (exec fuel) s loop
  | .send caller conn data r =>
    if s.relocked then s else send (exec fuel) s caller conn data r
  | .shutdown caller conn => if s.relocked then s else shutdown (exec fuel) s caller conn
  | .forceClose caller conn => if s.relocked then s else forceClose (exec fuel) s caller conn
  | .stop caller => if s.relocked then s else stop (exec fuel) s caller

/-- The server after a sequence of steps, first to last. -/
def run (fuel : Nat) (s : Server) (steps : List Step) : Server := steps.foldl (step fuel) s

/-- The server as constructed and started: the main loop runs on the thread `main`, the worker
loops on the threads `workers`; the constructor sets the connection and message callbacks;
`backlog` peers wait to be accepted. -/
def started (main : Nat) (workers : List Nat) (backlog : Nat) : Server :=
  { main_loop_ := main
    loops_ := workers
    started_ := true
    next_conn_id_ := 1
    next_loop_index_ := 0
    connection_callback_ := true
    message_callback_ := true
    write_complete_callback_ := false
    connections_ := []
    objects := []
    backlog := backlog
    queued := []
    mutex_held := false
    relocked := false
    out_of_fuel := false
    calls := [] }

/-- A server in single-reactor mode (no worker, the main loop on thread 1) that has accepted
one peer: the connection `Connection-1` is CONNECTED on the main loop. -/
def singleReactor : Server := run 5 (started 1 [] 1) [.newConnection true]

end EchoServer

/-! ## EchoServer: the thread of each callback -/

namespace EchoServer

/-- The connection a task is for. -/
def ServerTask.conn : ServerTask → Nat
  | .establishConnection conn _ => conn
  | .destroyConnection conn => conn
  | .removeConnectionInLoop conn => conn
  | .forceCloseInLoop conn => conn
  | .shutdownInLoop conn => conn
  | .sendInLoop conn _ _ => conn
  | .handleRead conn _ => conn
  | .handleWrite conn _ => conn
  | .handleClose conn => conn
  | .handleError conn => conn

/-- The thread of the loop that owns the connection `conn`, when the object exists. -/
def loopOf (s : Server) (conn : Nat) : Option Nat := (s.objects[conn]?).map (fun o => o.loop_)

/-- The thread `t` runs a loop that `getNextLoop` can return: a worker loop, or the main loop
when there is no worker. -/
def IsLoop (s : Server) (t : Nat) : Prop :=
  if s.loops_ = [] then t = s.main_loop_ else t ∈ s.loops_

/-- The server `s'` has the loops of `s`, and its connections those of `s` with the same
owners, and possibly new ones. -/
def Extends (s s' : Server) : Prop :=
  s'.main_loop_ = s.main_loop_ ∧ s'.loops_ = s.loops_ ∧
  ∀ p, loopOf s' p = loopOf s p ∨ (loopOf s p = none ∧ ∃ t, loopOf s' p = some t ∧ IsLoop s t)

end EchoServer

/-! ## Lemmas on the vector primitives -/

theorem copyInto_length (data : List Byte) :
    ∀ (buf : List Byte) (pos : Nat), (copyInto buf pos data).length = buf.length := by
  induction data with
  | nil => intro buf pos; rfl
  | cons d ds ih => intro buf pos; simp [copyInto, ih]

theorem copyInto_split (data : List Byte) :
    ∀ (pre mid post : List Byte), mid.length = data.length →
      copyInto (pre ++ mid ++ post) pre.length data = pre ++ data ++ post := by
  induction data with
  | nil =>
    intro pre mid post h
    have : mid = [] := List.length_eq_zero.mp (by simpa using h)
    simp [copyInto, this]
  | cons d ds ih =>
    intro pre mid post h
    cases mid with
    | nil => simp at h
    | cons m ms =>
      have hlen : ms.length = ds.length := by simpa using h
      have hset : (pre ++ m :: ms ++ post).set pre.length d = (pre ++ [d]) ++ ms ++ post := by
        simp [List.set_append]
      have hpos : pre.length + 1 = (pre ++ [d]).length := by simp
      rw [copyInto, hset, hpos, ih (pre ++ [d]) ms post hlen]
      simp

theorem copyInto_eq (buf data : List Byte) (pos : Nat) (h : pos + data.length ≤ buf.length) :
    copyInto buf pos data = buf.take pos ++ data ++ buf.drop (pos + data.length) := by
  have hpre : (buf.take pos).length = pos := by
    rw [List.length_take]; omega
  have hmid : ((buf.drop pos).take data.length).length = data.length := by
    rw [List.length_take, List.length_drop]; omega
  have hsplit : buf = buf.take pos ++ (buf.drop pos).take data.length
      ++ buf.drop (pos + data.length) := by
    rw [List.append_assoc, ← List.drop_drop, List.take_append_drop, List.take_append_drop]
  have := copyInto_split data (buf.take pos) ((buf.drop pos).take data.length)
    (buf.drop (pos + data.length)) hmid
  rw [hpre, ← hsplit] at this
  exact this

theorem copyWithin_length (n : Nat) :
    ∀ (buf : List Byte) (src dst : Nat), (copyWithin buf src dst n).length = buf.length := by
  induction n with
  | zero => intro buf src dst; rfl
  | succ n ih => intro buf src dst; simp [copyWithin, ih]

theorem vectorResize_length (v : List Byte) (n : Nat) : (vectorResize v n).length = n := by
  simp [vectorResize, List.length_take]; omega

theorem vectorResize_take (v : List Byte) (n k : Nat) (hk : k ≤ v.length) (hn : k ≤ n) :
    (vectorResize v n).take k = v.take k := by
  unfold vectorResize
  rw [List.take_append_of_le_length (by rw [List.length_take]; omega), List.take_take]
  congr 1; omega

theorem copyWithin_getElem? (n : Nat) :
    ∀ (buf : List Byte) (src dst : Nat), dst ≤ src → src + n ≤ buf.length → ∀ i : Nat,
      (copyWithin buf src dst n)[i]? =
        if dst ≤ i ∧ i < dst + n then buf[src + (i - dst)]? else buf[i]? := by
  induction n with
  | zero =>
    intro buf src dst _ _ i
    have : ¬ (dst ≤ i ∧ i < dst + 0) := by omega
    rw [if_neg this, copyWithin]
  | succ n ih =>
    intro buf src dst hds hlen i
    have hsrc : src < buf.length := by omega
    have hv : buf.getD src 0 = buf[src] := by
      simp [List.getD_eq_getElem?_getD, List.getElem?_eq_getElem hsrc]
    rw [copyWithin, ih (buf.set dst (buf.getD src 0)) (src + 1) (dst + 1) (by omega)
      (by rw [List.length_set]; omega) i, hv]
    by_cases h1 : dst + 1 ≤ i ∧ i < dst + 1 + n
    · have h2 : dst ≤ i ∧ i < dst + (n + 1) := by omega
      have h3 : src + 1 + (i - (dst + 1)) = src + (i - dst) := by omega
      have h4 : dst ≠ src + (i - dst) := by omega
      rw [if_pos h1, if_pos h2, h3, List.getElem?_set_ne h4]
    · rw [if_neg h1]
      by_cases h5 : i = dst
      · subst h5
        have h2 : i ≤ i ∧ i < i + (n + 1) := by omega
        rw [if_pos h2, List.getElem?_set_self (by omega)]
        simp [List.getElem?_eq_getElem hsrc]
      · have h2 : ¬ (dst ≤ i ∧ i < dst + (n + 1)) := by omega
        rw [if_neg h2, List.getElem?_set_ne (fun h => h5 h.symm)]

/-- The front-to-back copy towards the front moves the source range intact. -/
theorem copyWithin_slice (buf : List Byte) (src dst n : Nat) (hds : dst ≤ src)
    (hlen : src + n ≤ buf.length) :
    ((copyWithin buf src dst n).drop dst).take n = (buf.drop src).take n := by
  apply List.ext_getElem?
  intro i
  rw [List.getElem?_take, List.getElem?_take]
  by_cases hi : i < n
  · rw [if_pos hi, if_pos hi, List.getElem?_drop, List.getElem?_drop,
      copyWithin_getElem? n buf src dst hds hlen (dst + i)]
    have h2 : dst ≤ dst + i ∧ dst + i < dst + n := by omega
    rw [if_pos h2]
    congr 1; omega
  · rw [if_neg hi, if_neg hi]

/-! ## Buffer: index invariants and content lemmas -/

namespace Buffer

theorem readable_eq (b : Buffer) (h : b.read_index_ ≤ b.write_index_) :
    b.readable = (b.buffer_.take b.write_index_).drop b.read_index_ := by
  unfold readable peekN readableBytes
  rw [List.take_drop]
  congr 2; omega

theorem readable_mk (buf : List Byte) (r w : Nat) (h : r ≤ w) :
    Buffer.readable ⟨buf, r, w⟩ = (buf.take w).drop r :=
  readable_eq ⟨buf, r, w⟩ h

theorem readable_length (b : Buffer) (h : b.WellFormed) :
    b.readable.length = b.readableBytes := by
  obtain ⟨h1, h2⟩ := h
  unfold readable peekN readableBytes
  rw [List.length_take, List.length_drop]; omega

/-- A sum that is not above `max_size()` does not wrap. -/
theorem sizeWrap_of_le (n : Nat) (h : n ≤ kMaxSize) : sizeWrap n = n := by
  unfold kMaxSize at h
  exact Nat.mod_eq_of_lt (by omega)

theorem makeSpace_resize (b : Buffer) (len : Nat) (hf : b.Fits len)
    (hc : b.writableBytes + b.prependableBytes < len + kCheapPrepend) :
    b.makeSpace len = { b with buffer_ := vectorResize b.buffer_ (b.write_index_ + len) } := by
  have h1 : sizeWrap (len + kCheapPrepend) = len + kCheapPrepend :=
    Nat.mod_eq_of_lt (by unfold Fits kMaxSize at hf; unfold kCheapPrepend; omega)
  unfold makeSpace; rw [h1, if_pos hc, sizeWrap_of_le _ hf]

theorem makeSpace_compact (b : Buffer) (len : Nat) (hf : b.Fits len)
    (hc : ¬ b.writableBytes + b.prependableBytes < len + kCheapPrepend) :
    b.makeSpace len =
      { buffer_ := copyWithin b.buffer_ b.read_index_ kCheapPrepend
          (b.write_index_ - b.read_index_)
        read_index_ := kCheapPrepend
        write_index_ := kCheapPrepend + b.readableBytes } := by
  have h1 : sizeWrap (len + kCheapPrepend) = len + kCheapPrepend :=
    Nat.mod_eq_of_lt (by unfold Fits kMaxSize at hf; unfold kCheapPrepend; omega)
  unfold makeSpace; rw [h1, if_neg hc]

theorem makeSpace_spec (b : Buffer) (len : Nat) (h : b.WellFormed) (hf : b.Fits len)
    (hw : b.writableBytes < len) :
    (b.makeSpace len).WellFormed ∧ len ≤ (b.makeSpace len).writableBytes ∧
      (b.makeSpace len).readable = b.readable ∧
      (kCheapPrepend ≤ b.read_index_ → kCheapPrepend ≤ (b.makeSpace len).read_index_) ∧
      (kCheapPrepend ≤ b.write_index_ → kCheapPrepend ≤ (b.makeSpace len).write_index_) := by
  obtain ⟨h1, h2⟩ := h
  by_cases hc : b.writableBytes + b.prependableBytes < len + kCheapPrepend
  · rw [makeSpace_resize b len hf hc]
    refine ⟨⟨h1, ?_⟩, ?_, ?_, fun h => h, fun h => h⟩
    · simp only [vectorResize_length]; omega
    · simp only [writableBytes, vectorResize_length]; omega
    · rw [readable_eq b h1, readable_mk _ _ _ h1]
      rw [vectorResize_take _ _ _ h2 (by omega)]
  · rw [makeSpace_compact b len hf hc]
    unfold writableBytes prependableBytes kCheapPrepend at hc
    unfold writableBytes at hw
    refine ⟨⟨?_, ?_⟩, ?_, ?_, fun _ => Nat.le_refl _, fun _ => ?_⟩
    · simp only [readableBytes]; omega
    · simp only [readableBytes, copyWithin_length, kCheapPrepend]; omega
    · simp only [writableBytes, readableBytes, copyWithin_length, kCheapPrepend]; omega
    · unfold readable peekN readableBytes
      simp only [Nat.add_sub_cancel_left]
      exact copyWithin_slice b.buffer_ b.read_index_ kCheapPrepend
        (b.write_index_ - b.read_index_) (by unfold kCheapPrepend; omega) (by omega)
    · simp only; omega

/-- After `makeSpace` the write index is not above the old one, and the vector is the old
one or has `write_index_ + len` bytes. -/
theorem makeSpace_bounds (b : Buffer) (len : Nat) (h : b.WellFormed) (hf : b.Fits len)
    (hw : b.writableBytes < len) :
    (b.makeSpace len).write_index_ ≤ b.write_index_ ∧
    ((b.makeSpace len).buffer_.length = b.buffer_.length ∨
      (b.makeSpace len).buffer_.length = b.write_index_ + len) := by
  obtain ⟨h1, h2⟩ := h
  by_cases hc : b.writableBytes + b.prependableBytes < len + kCheapPrepend
  · rw [makeSpace_resize b len hf hc]
    exact ⟨Nat.le_refl _, Or.inr (vectorResize_length _ _)⟩
  · rw [makeSpace_compact b len hf hc]
    unfold writableBytes prependableBytes kCheapPrepend at hc
    unfold writableBytes at hw
    refine ⟨?_, Or.inl (copyWithin_length _ _ _ _)⟩
    simp only [readableBytes, kCheapPrepend]
    omega

theorem ensureWritableBytes_spec (b : Buffer) (len : Nat) (h : b.WellFormed)
    (hf : b.Fits len) :
    (b.ensureWritableBytes len).WellFormed ∧ len ≤ (b.ensureWritableBytes len).writableBytes ∧
      (b.ensureWritableBytes len).readable = b.readable ∧
      (kCheapPrepend ≤ b.read_index_ →
        kCheapPrepend ≤ (b.ensureWritableBytes len).read_index_) ∧
      (kCheapPrepend ≤ b.write_index_ →
        kCheapPrepend ≤ (b.ensureWritableBytes len).write_index_) := by
  unfold ensureWritableBytes
  by_cases hw : b.writableBytes < len
  · rw [if_pos hw]; exact makeSpace_spec b len h hf hw
  · rw [if_neg hw]; exact ⟨h, by omega, rfl, fun h => h, fun h => h⟩

theorem ensureWritableBytes_bounds (b : Buffer) (len : Nat) (h : b.WellFormed)
    (hf : b.Fits len) :
    (b.ensureWritableBytes len).write_index_ ≤ b.write_index_ ∧
    ((b.ensureWritableBytes len).buffer_.length = b.buffer_.length ∨
      (b.ensureWritableBytes len).buffer_.length = b.write_index_ + len) := by
  unfold ensureWritableBytes
  by_cases hw : b.writableBytes < len
  · rw [if_pos hw]; exact makeSpace_bounds b len h hf hw
  · rw [if_neg hw]; exact ⟨Nat.le_refl _, Or.inl rfl⟩

theorem Fits.mono {b : Buffer} {m n : Nat} (h : b.Fits n) (hmn : m ≤ n) : b.Fits m := by
  unfold Fits at *; omega

/-- A buffer whose vector can grow by `n` bytes has room for `n` bytes past its write
index. -/
theorem Fits.of_size {b : Buffer} {n : Nat} (h : b.WellFormed)
    (hs : b.buffer_.length + n ≤ kMaxSize) : b.Fits n := by
  unfold Fits; have := h.2; omega

/-- Storing `data` at the write index of a buffer with room for it and moving the write
index past it. -/
theorem store_readable (b : Buffer) (data : List Byte) (h : b.WellFormed)
    (hw : data.length ≤ b.writableBytes) :
    Buffer.readable ⟨copyInto b.buffer_ b.write_index_ data, b.read_index_,
      b.write_index_ + data.length⟩ = b.readable ++ data := by
  obtain ⟨h1, h2⟩ := h
  unfold writableBytes at hw
  rw [readable_eq b h1, readable_mk _ _ _ (by omega)]
  rw [copyInto_eq _ _ _ (by omega), List.append_assoc]
  have hl : (List.take b.write_index_ b.buffer_).length = b.write_index_ := by
    rw [List.length_take]; omega
  rw [List.take_append_eq_append_take, List.take_append_eq_append_take, hl]
  rw [List.take_of_length_le (by rw [hl]; omega),
    List.take_of_length_le (by omega : data.length ≤ b.write_index_ + data.length - b.write_index_)]
  have : b.write_index_ + data.length - b.write_index_ - data.length = 0 := by omega
  rw [this, List.take_zero, List.append_nil]
  rw [List.drop_append_of_le_length (by rw [hl]; omega)]

/-- The method `append` once the sums are known not to wrap. -/
theorem append_eq (b : Buffer) (data : List Byte) (h : b.WellFormed)
    (hf : b.Fits data.length) :
    b.append data =
      ⟨copyInto (b.ensureWritableBytes data.length).buffer_
        (b.ensureWritableBytes data.length).write_index_ data,
       (b.ensureWritableBytes data.length).read_index_,
       (b.ensureWritableBytes data.length).write_index_ + data.length⟩ := by
  have hb := (ensureWritableBytes_bounds b data.length h hf).1
  unfold append hasWritten
  simp only
  rw [sizeWrap_of_le _ (by unfold Fits at hf; omega)]

theorem append_spec (b : Buffer) (data : List Byte) (h : b.WellFormed)
    (hf : b.Fits data.length) :
    (b.append data).WellFormed ∧ (b.append data).readable = b.readable ++ data ∧
      (kCheapPrepend ≤ b.read_index_ → kCheapPrepend ≤ (b.append data).read_index_) ∧
      (kCheapPrepend ≤ b.write_index_ → kCheapPrepend ≤ (b.append data).write_index_) := by
  obtain ⟨hwf, hroom, hread, hr8, hw8⟩ := ensureWritableBytes_spec b data.length h hf
  rw [append_eq b data h hf]
  refine ⟨?_, ?_, ?_, ?_⟩
  · obtain ⟨h1, h2⟩ := hwf
    unfold writableBytes at hroom
    constructor
    · simp only; omega
    · simp only [copyInto_length]; omega
  · rw [store_readable _ data hwf hroom, hread]
  · intro h8; exact hr8 h8
  · intro h8; have := hw8 h8
    simp only; omega

/-- After `append` the vector has at most the old size plus the bytes appended, and the
write index is at most the old one plus the bytes appended. -/
theorem append_bounds (b : Buffer) (data : List Byte) (h : b.WellFormed)
    (hf : b.Fits data.length) :
    (b.append data).buffer_.length ≤ b.buffer_.length + data.length ∧
    (b.append data).write_index_ ≤ b.write_index_ + data.length := by
  obtain ⟨hb1, hb2⟩ := ensureWritableBytes_bounds b data.length h hf
  rw [append_eq b data h hf]
  simp only [copyInto_length]
  refine ⟨?_, by omega⟩
  rcases hb2 with e | e <;> rw [e]
  · omega
  · have := h.2; omega

theorem new_wellFormed (n : Nat) (hn : kCheapPrepend + n ≤ kMaxSize) :
    (Buffer.new n).WellFormed := by
  unfold WellFormed new
  simp only [List.length_replicate, sizeWrap_of_le _ hn]
  omega

theorem new_default_wellFormed : (Buffer.new kInitialSize).WellFormed :=
  new_wellFormed kInitialSize (by decide)

theorem new_readable (n : Nat) : (Buffer.new n).readable = [] := by
  simp [readable, peekN, readableBytes, new]

theorem retrieveAll_inv (b : Buffer) (h : b.WellFormed) (h8 : kCheapPrepend ≤ b.write_index_) :
    b.retrieveAll.WellFormed ∧ kCheapPrepend ≤ b.retrieveAll.write_index_ ∧
      kCheapPrepend ≤ b.retrieveAll.read_index_ := by
  obtain ⟨h1, h2⟩ := h
  unfold WellFormed retrieveAll
  simp only
  omega

theorem retrieve_inv (b : Buffer) (len : Nat) (h : b.WellFormed)
    (h8 : kCheapPrepend ≤ b.write_index_) :
    (b.retrieve len).WellFormed ∧ kCheapPrepend ≤ (b.retrieve len).write_index_ ∧
      (kCheapPrepend ≤ b.read_index_ → kCheapPrepend ≤ (b.retrieve len).read_index_) := by
  unfold retrieve
  by_cases hl : len < b.readableBytes
  · rw [if_pos hl]
    obtain ⟨h1, h2⟩ := h
    unfold readableBytes at hl
    unfold WellFormed
    simp only
    omega
  · rw [if_neg hl]
    obtain ⟨ha, hb, hc⟩ := retrieveAll_inv b h h8
    exact ⟨ha, hb, fun _ => hc⟩

theorem retrieveAllAsString_fst (b : Buffer) : b.retrieveAllAsString.1 = b.readable := by
  simp [retrieveAllAsString, retrieveAsString, readable]

theorem retrieveAllAsString_snd (b : Buffer) : b.retrieveAllAsString.2 = b.retrieveAll := by
  simp [retrieveAllAsString, retrieveAsString, retrieve]

theorem prepend_ok (b : Buffer) (data : List Byte) (h : data.length ≤ b.read_index_) :
    b.prepend data =
      { b with read_index_ := b.read_index_ - data.length,
               buffer_ := copyInto b.buffer_ (b.read_index_ - data.length) data } := by
  unfold prepend prependableBytes
  rw [if_neg (by omega)]

theorem drop_take_append (pre data post : List Byte) (w : Nat)
    (hw : pre.length + data.length ≤ w) :
    List.drop pre.length (List.take w (pre ++ (data ++ post))) =
      data ++ List.take (w - pre.length - data.length) post := by
  rw [List.take_append_eq_append_take,
    List.take_of_length_le (show pre.length ≤ w by omega),
    List.drop_left, List.take_append_eq_append_take,
    List.take_of_length_le (show data.length ≤ w - pre.length by omega)]

theorem prepend_readable (b : Buffer) (data : List Byte) (h : b.WellFormed)
    (hn : data.length ≤ b.read_index_) :
    (b.prepend data).readable = data ++ b.readable := by
  obtain ⟨h1, h2⟩ := h
  rw [prepend_ok b data hn, readable_eq b h1, readable_mk _ _ _ (by omega)]
  have hpos : b.read_index_ - data.length + data.length = b.read_index_ := by omega
  rw [copyInto_eq _ _ _ (by omega), hpos, List.append_assoc]
  have hl : (List.take (b.read_index_ - data.length) b.buffer_).length =
      b.read_index_ - data.length := by
    rw [List.length_take]; omega
  have key := drop_take_append (List.take (b.read_index_ - data.length) b.buffer_) data
    (List.drop b.read_index_ b.buffer_) b.write_index_ (by rw [hl]; omega)
  rw [hl] at key
  rw [key, List.drop_take]
  congr 2; omega

theorem retrieve_readable_lt (b : Buffer) (n : Nat) (hn : n < b.readableBytes) :
    (b.retrieve n).readable = b.readable.drop n := by
  unfold retrieve
  rw [if_pos hn]
  unfold readable peekN readableBytes
  simp only
  rw [List.drop_take, List.drop_drop]
  congr 1; omega

theorem retrieve_readable (b : Buffer) (n : Nat) (h : b.WellFormed)
    (hn : n ≤ b.readableBytes) :
    (b.retrieve n).readable = b.readable.drop n := by
  by_cases hlt : n < b.readableBytes
  · exact retrieve_readable_lt b n hlt
  · have hlen := readable_length b h
    unfold retrieve
    rw [if_neg hlt, List.drop_of_length_le (by omega)]
    simp [retrieveAll, readable, peekN, readableBytes]

end Buffer

/-! ## Buffer: the claims -/

namespace Buffer

/-- A size that cannot exist breaks the order of the indices: on a default-constructed buffer
holding 100 bytes, `ensureWritableBytes(2^64 - 50)` takes the resize branch, the `size_t` sum
`write_index_ + len` wraps to 58, and the vector is cut to 58 bytes below the write index
108. -/
theorem wrapped_resize_breaks_order :
    (((Buffer.new kInitialSize).append (List.replicate 100 1)).ensureWritableBytes
      18446744073709551566).buffer_.length = 58 ∧
    (((Buffer.new kInitialSize).append (List.replicate 100 1)).ensureWritableBytes
      18446744073709551566).write_index_ = 108 := by
  decide

/-- C2: on a well-formed buffer with no readable bytes, `append(X)` followed by
`retrieveAllAsString()` returns exactly `X` and leaves no readable bytes, for every byte
string `X` that the buffer can hold (`write_index_ + |X|` not above `max_size()`, as for
every byte string that exists). -/
theorem C2_append_then_retrieveAllAsString (b : Buffer) (X : List Byte) (h : b.WellFormed)
    (hempty : b.readableBytes = 0) (hf : b.Fits X.length) :
    (b.append X).retrieveAllAsString.1 = X ∧
      (b.append X).retrieveAllAsString.2.readableBytes = 0 := by
  obtain ⟨_, hread, _, _⟩ := append_spec b X h hf
  constructor
  · rw [retrieveAllAsString_fst, hread]
    simp [readable, peekN, hempty]
  · rw [retrieveAllAsString_snd]
    simp [retrieveAll, readableBytes]

/-- C8: `retrieve(n)` with `n < readableBytes()` advances `read_index_` by `n`, keeps
`write_index_` and drops the first `n` readable bytes; with `n ≥ readableBytes()` it sets
both indices to the reserve 8. -/
theorem C8_retrieve (b : Buffer) (n : Nat) :
    (n < b.readableBytes →
      (b.retrieve n).read_index_ = b.read_index_ + n ∧
      (b.retrieve n).write_index_ = b.write_index_ ∧
      (b.retrieve n).readable = b.readable.drop n) ∧
    (b.readableBytes ≤ n →
      (b.retrieve n).read_index_ = 8 ∧ (b.retrieve n).write_index_ = 8) := by
  constructor
  · intro hn
    refine ⟨?_, ?_, retrieve_readable_lt b n hn⟩
    · unfold retrieve; rw [if_pos hn]
    · unfold retrieve; rw [if_pos hn]
  · intro hn
    unfold retrieve
    rw [if_neg (by omega)]
    exact ⟨rfl, rfl⟩

/-- C9: on a well-formed buffer `prepend(data, n)` with `n > prependableBytes()` changes
nothing; with `n ≤ read_index_` it lowers `read_index_` by `n`, keeps `write_index_` and
makes the readable content `data ++ old readable content`. -/
theorem C9_prepend (b : Buffer) (data : List Byte) (h : b.WellFormed) :
    (b.prependableBytes < data.length → b.prepend data = b) ∧
    (data.length ≤ b.read_index_ →
      (b.prepend data).read_index_ = b.read_index_ - data.length ∧
      (b.prepend data).write_index_ = b.write_index_ ∧
      (b.prepend data).readable = data ++ b.readable) := by
  constructor
  · intro hn
    unfold prepend
    rw [if_pos hn]
  · intro hn
    refine ⟨?_, ?_, prepend_readable b data h hn⟩
    · rw [prepend_ok b data hn]
    · rw [prepend_ok b data hn]

/-- C3: on a newly constructed buffer, `append(X)`, then `prepend(Y)` with `|Y| ≤ 8`, then
`retrieveAllAsString()` returns `Y ++ X`, for every initial size and byte string `X` that can
exist (the reserve, the initial size and `|X|` together not above `max_size()`). -/
theorem C3_append_prepend_retrieveAllAsString (initial_size : Nat) (X Y : List Byte)
    (hY : Y.length ≤ 8) (hsz : kCheapPrepend + initial_size + X.length ≤ kMaxSize) :
    (((Buffer.new initial_size).append X).prepend Y).retrieveAllAsString.1 = Y ++ X := by
  have hf : (Buffer.new initial_size).Fits X.length := by
    unfold Fits
    have : (Buffer.new initial_size).write_index_ = kCheapPrepend := rfl
    rw [this]; omega
  obtain ⟨hwf, hread, h8, _⟩ := append_spec (Buffer.new initial_size) X
    (new_wellFormed initial_size (by omega)) hf
  have hr : 8 ≤ ((Buffer.new initial_size).append X).read_index_ := h8 (Nat.le_refl _)
  have hp := prepend_readable ((Buffer.new initial_size).append X) Y hwf (by omega)
  rw [retrieveAllAsString_fst, hp, hread, new_readable, List.nil_append]

/-- C10 (as stated, refuted): on a default-constructed buffer (1024 writable bytes) with
`len = 2^64 - 4`, the sum `len + kCheapPrepend` of the guard of `makeSpace` wraps to 4, so
`ensureWritableBytes(len)` takes the compaction branch although
`writableBytes() + prependableBytes() - 8 < len`: the vector keeps its 1032 bytes and
`writableBytes()` stays below `len`. -/
theorem C10_wrapped_guard_compacts :
    (Buffer.new kInitialSize).WellFormed ∧
    (Buffer.new kInitialSize).writableBytes < 18446744073709551612 ∧
    ¬ (18446744073709551612 ≤
      (Buffer.new kInitialSize).writableBytes + (Buffer.new kInitialSize).prependableBytes - 8) ∧
    ((Buffer.new kInitialSize).ensureWritableBytes 18446744073709551612).buffer_.length =
      1032 ∧
    ((Buffer.new kInitialSize).ensureWritableBytes 18446744073709551612).writableBytes <
      18446744073709551612 := by
  decide

/-- C10 (amended): on a well-formed buffer with `writableBytes() < len` and
`write_index_ + len` not above `max_size()`, `ensureWritableBytes(len)` compacts when
`writableBytes() + prependableBytes() - 8 ≥ len` (size unchanged, `read_index_` 8,
`write_index_` 8 plus the old readable count) and otherwise resizes the vector to exactly
`write_index_ + len` with both indices unchanged; either way `writableBytes() ≥ len`
afterwards. With `writableBytes() ≥ len` the buffer is unchanged, for every `len`. -/
theorem C10_ensureWritableBytes (b : Buffer) (len : Nat) (h : b.WellFormed) :
    (b.writableBytes < len → b.Fits len →
      (len ≤ b.writableBytes + b.prependableBytes - 8 →
        (b.ensureWritableBytes len).buffer_.length = b.buffer_.length ∧
        (b.ensureWritableBytes len).read_index_ = 8 ∧
        (b.ensureWritableBytes len).write_index_ = 8 + b.readableBytes) ∧
      (¬ len ≤ b.writableBytes + b.prependableBytes - 8 →
        (b.ensureWritableBytes len).buffer_.length = b.write_index_ + len ∧
        (b.ensureWritableBytes len).read_index_ = b.read_index_ ∧
        (b.ensureWritableBytes len).write_index_ = b.write_index_) ∧
      len ≤ (b.ensureWritableBytes len).writableBytes) ∧
    (len ≤ b.writableBytes → b.ensureWritableBytes len = b) := by
  constructor
  · intro hw hf
    have hlt : b.ensureWritableBytes len = b.makeSpace len := by
      unfold ensureWritableBytes; rw [if_pos hw]
    rw [hlt]
    refine ⟨?_, ?_, (makeSpace_spec b len h hf hw).2.1⟩
    · intro hc
      have hc' : ¬ b.writableBytes + b.prependableBytes < len + kCheapPrepend := by
        unfold kCheapPrepend; omega
      rw [makeSpace_compact b len hf hc']
      exact ⟨copyWithin_length _ _ _ _, rfl, rfl⟩
    · intro hc
      have hc' : b.writableBytes + b.prependableBytes < len + kCheapPrepend := by
        unfold kCheapPrepend; omega
      rw [makeSpace_resize b len hf hc']
      exact ⟨vectorResize_length _ _, rfl, rfl⟩
  · intro hw
    unfold ensureWritableBytes
    rw [if_neg (by omega)]

theorem C2_append_then_retrieveAllAsString_witness :
    (Buffer.new 2).WellFormed ∧ (Buffer.new 2).readableBytes = 0 ∧
    (Buffer.new 2).Fits [1, 2, 3, 4, 5].length ∧
    ((Buffer.new 2).append [1, 2, 3, 4, 5]).retrieveAllAsString.1 = [1, 2, 3, 4, 5] ∧
    ((Buffer.new 2).append [1, 2, 3, 4, 5]).retrieveAllAsString.2.readableBytes = 0 :=
  ⟨by decide, by decide, by decide,
    C2_append_then_retrieveAllAsString (Buffer.new 2) [1, 2, 3, 4, 5] (by decide) (by decide)
      (by decide)⟩

theorem C3_append_prepend_retrieveAllAsString_witness :
    [7, 8].length ≤ 8 ∧ kCheapPrepend + 2 + [1, 2, 3].length ≤ kMaxSize ∧
    (((Buffer.new 2).append [1, 2, 3]).prepend [7, 8]).retrieveAllAsString.1 =
      [7, 8] ++ [1, 2, 3] :=
  ⟨by decide, by decide,
    C3_append_prepend_retrieveAllAsString 2 [1, 2, 3] [7, 8] (by decide) (by decide)⟩

theorem C8_retrieve_witness :
    1 < compactable.readableBytes ∧
    (compactable.retrieve 1).read_index_ = compactable.read_index_ + 1 ∧
    (compactable.retrieve 1).write_index_ = compactable.write_index_ ∧
    (compactable.retrieve 1).readable = compactable.readable.drop 1 :=
  ⟨by decide, (C8_retrieve compactable 1).1 (by decide)⟩

theorem C9_prepend_witness :
    compactable.WellFormed ∧ [3, 4].length ≤ compactable.read_index_ ∧
    (compactable.prepend [3, 4]).read_index_ = compactable.read_index_ - [3, 4].length ∧
    (compactable.prepend [3, 4]).write_index_ = compactable.write_index_ ∧
    (compactable.prepend [3, 4]).readable = [3, 4] ++ compactable.readable :=
  ⟨by decide, by decide, (C9_prepend compactable [3, 4] (by decide)).2 (by decide)⟩

theorem C10_ensureWritableBytes_witness :
    compactable.WellFormed ∧ compactable.writableBytes < 2 ∧ compactable.Fits 2 ∧
    2 ≤ compactable.writableBytes + compactable.prependableBytes - 8 ∧
    (compactable.ensureWritableBytes 2).buffer_.length = compactable.buffer_.length ∧
    (compactable.ensureWritableBytes 2).read_index_ = 8 ∧
    (compactable.ensureWritableBytes 2).write_index_ = 8 + compactable.readableBytes :=
  ⟨by decide, by decide, by decide, by decide,
    ((C10_ensureWritableBytes compactable 2 (by decide)).1 (by decide) (by decide)).1
      (by decide)⟩

end Buffer

/-! ## EventHandler: dispatch -/

theorem and_two_pow_eq (E k : Nat) : E &&& 2 ^ k = if E.testBit k then 2 ^ k else 0 := by
  apply Nat.eq_of_testBit_eq
  intro i
  rw [Nat.testBit_and, Nat.testBit_two_pow]
  by_cases hk : k = i
  · subst hk
    by_cases hb : E.testBit k = true
    · simp [hb, Nat.testBit_two_pow_self]
    · simp [hb]
  · by_cases hb : E.testBit k = true
    · simp [hb, hk, Nat.testBit_two_pow_of_ne hk]
    · simp [hb, hk]

theorem or_eq_zero_iff (x y : Nat) : x ||| y = 0 ↔ x = 0 ∧ y = 0 := by
  constructor
  · intro h
    have hx : ∀ i, (x ||| y).testBit i = false := by
      rw [h]; intro i; exact Nat.zero_testBit i
    constructor
    · apply Nat.zero_of_testBit_eq_false
      intro i
      have := hx i
      rw [Nat.testBit_or] at this
      simp at this
      exact this.1
    · apply Nat.zero_of_testBit_eq_false
      intro i
      have := hx i
      rw [Nat.testBit_or] at this
      simp at this
      exact this.2
  · rintro ⟨rfl, rfl⟩
    rfl

theorem and_two_pow_ne_zero (E k : Nat) : E &&& 2 ^ k ≠ 0 ↔ E.testBit k = true := by
  rw [and_two_pow_eq]
  have hp : 2 ^ k ≠ 0 := Nat.pos_iff_ne_zero.mp (Nat.two_pow_pos k)
  by_cases hb : E.testBit k = true
  · simp [hb]
  · simp [hb]

theorem hasFlag_two_pow (E k : Nat) : hasFlag E (2 ^ k) = E.testBit k := by
  unfold hasFlag
  rw [and_two_pow_eq]
  have hp : 2 ^ k ≠ 0 := Nat.pos_iff_ne_zero.mp (Nat.two_pow_pos k)
  by_cases hb : E.testBit k = true
  · simp [hb]
  · simp [hb]
    exact fun h => hp h.symm

theorem and_readMask_ne_zero (E : Nat) :
    E &&& (EPOLLIN ||| EPOLLPRI ||| EPOLLRDHUP) ≠ 0 ↔
      (E.testBit 0 = true ∨ E.testBit 1 = true ∨ E.testBit 13 = true) := by
  have h0 : EPOLLIN = 2 ^ 0 := rfl
  have h1 : EPOLLPRI = 2 ^ 1 := rfl
  have h13 : EPOLLRDHUP = 2 ^ 13 := rfl
  rw [Nat.and_or_distrib_left, Nat.and_or_distrib_left, Ne, or_eq_zero_iff, or_eq_zero_iff,
    h0, h1, h13]
  have a0 := and_two_pow_ne_zero E 0
  have a1 := and_two_pow_ne_zero E 1
  have a13 := and_two_pow_ne_zero E 13
  constructor
  · intro h
    by_contra hc
    push_neg at hc
    apply h
    refine ⟨⟨?_, ?_⟩, ?_⟩
    · by_contra h'; exact hc.1 (a0.mp h')
    · by_contra h'; exact hc.2.1 (a1.mp h')
    · by_contra h'; exact hc.2.2 (a13.mp h')
  · rintro (h | h | h) ⟨⟨e0, e1⟩, e13⟩
    · exact a0.mpr h e0
    · exact a1.mpr h e1
    · exact a13.mpr h e13

/-- C7: with all four callbacks set, `handleEvents(E)` invokes exactly the callbacks of the
specified dispatch rule, in its order: the close callback alone when `E` has EPOLLHUP
without EPOLLIN; otherwise error iff EPOLLERR, then read iff one of EPOLLIN, EPOLLPRI,
EPOLLRDHUP, then write iff EPOLLOUT, each at most once and never close. -/
theorem C7_handleEvents_dispatch (fd : Int) (mask E : Nat) (log : List Callback) :
    (tracingHandler fd mask).handleEvents E log = log ++ specDispatch E := by
  have hIN : hasFlag E EPOLLIN = E.testBit 0 := hasFlag_two_pow E 0
  have hPRI : hasFlag E EPOLLPRI = E.testBit 1 := hasFlag_two_pow E 1
  have hOUT : hasFlag E EPOLLOUT = E.testBit 2 := hasFlag_two_pow E 2
  have hERR : hasFlag E EPOLLERR = E.testBit 3 := hasFlag_two_pow E 3
  have hHUP : hasFlag E EPOLLHUP = E.testBit 4 := hasFlag_two_pow E 4
  have hRD : hasFlag E EPOLLRDHUP = E.testBit 13 := hasFlag_two_pow E 13
  have cIN : E &&& EPOLLIN ≠ 0 ↔ E.testBit 0 = true := and_two_pow_ne_zero E 0
  have cOUT : E &&& EPOLLOUT ≠ 0 ↔ E.testBit 2 = true := and_two_pow_ne_zero E 2
  have cERR : E &&& EPOLLERR ≠ 0 ↔ E.testBit 3 = true := and_two_pow_ne_zero E 3
  have cHUP : E &&& EPOLLHUP ≠ 0 ↔ E.testBit 4 = true := and_two_pow_ne_zero E 4
  have cRM := and_readMask_ne_zero E
  unfold EventHandler.handleEvents specDispatch
  simp only [cIN, cOUT, cERR, cHUP, cRM, hIN, hPRI, hOUT, hERR, hHUP, hRD, tracingHandler,
    invoke]
  cases E.testBit 0 <;> cases E.testBit 1 <;> cases E.testBit 2 <;> cases E.testBit 3 <;>
    cases E.testBit 4 <;> cases E.testBit 13 <;> simp

/-! ## Connection: the byte stream through `sendInLoop` and `handleWrite` -/

namespace Connection

theorem take_length_take (data : List Byte) (n : Nat) :
    data.take (data.take n).length = data.take n := by
  rw [List.length_take]
  by_cases h : n ≤ data.length
  · rw [Nat.min_eq_left h]
  · rw [Nat.min_eq_right (by omega), List.take_of_length_le (by omega),
      List.take_of_length_le (by omega)]

theorem take_append_drop_length (data : List Byte) (n : Nat) :
    data.take n ++ data.drop (data.take n).length = data := by
  have h := take_length_take data n
  calc data.take n ++ data.drop (data.take n).length
      = data.take (data.take n).length ++ data.drop (data.take n).length := by rw [h]
    _ = data := List.take_append_drop _ _

theorem directSend_spec (c : Connection) (data : List Byte) (r : SendResult)
    (hnf : r ≠ .failed EPIPE ∧ r ≠ .failed ECONNRESET) :
    (c.directSend data r).1 ≤ data.length ∧
    (c.directSend data r).2.1 = data.length - (c.directSend data r).1 ∧
    (c.directSend data r).2.2.1 = false ∧
    (c.directSend data r).2.2.2.state_ = c.state_ ∧
    (c.directSend data r).2.2.2.output_buffer_ = c.output_buffer_ ∧
    (c.directSend data r).2.2.2.wire = c.wire ++ data.take (c.directSend data r).1 ∧
    ((c.directSend data r).1 = 0 ∨ c.output_buffer_.readable = []) := by
  have hnil : c.output_buffer_.readableBytes = 0 → c.output_buffer_.readable = [] := by
    intro h; simp [Buffer.readable, Buffer.peekN, h]
  unfold directSend
  by_cases he : c.output_buffer_.readableBytes = 0
  · rw [if_pos he]
    cases r with
    | failed e =>
      have h1 : e ≠ EPIPE := fun h => hnf.1 (by rw [h])
      have h2 : e ≠ ECONNRESET := fun h => hnf.2 (by rw [h])
      simp [socketSend, sendErrno, h1, h2]
    | room n =>
      have hle : (data.take n).length ≤ data.length := List.length_take_le' n data
      simp only [socketSend]
      rw [if_pos (by omega)]
      simp only [Int.toNat_ofNat, take_length_take]
      refine ⟨hle, trivial, trivial, ?_, ?_, ?_, Or.inr (hnil he)⟩ <;> split_ifs <;> rfl
  · rw [if_neg he]
    simp

theorem queueRemaining_spec (c : Connection) (data : List Byte) (nwrote : Nat)
    (hok : c.OutOK) (hf : c.output_buffer_.Fits data.length) :
    (c.queueRemaining data nwrote (data.length - nwrote) false).state_ = c.state_ ∧
    (c.queueRemaining data nwrote (data.length - nwrote) false).OutOK ∧
    (c.queueRemaining data nwrote (data.length - nwrote) false).wire = c.wire ∧
    (c.queueRemaining data nwrote (data.length - nwrote) false).output_buffer_.readable =
      c.output_buffer_.readable ++ data.drop nwrote := by
  obtain ⟨hwf, h8⟩ := hok
  unfold queueRemaining
  by_cases hr : data.length - nwrote > 0
  · rw [if_pos ⟨by simp, hr⟩]
    have htk : (data.drop nwrote).take (data.length - nwrote) = data.drop nwrote :=
      List.take_of_length_le (by rw [List.length_drop])
    rw [htk]
    obtain ⟨a1, a2, _, a4⟩ := Buffer.append_spec c.output_buffer_ (data.drop nwrote) hwf
      (hf.mono (by rw [List.length_drop]; omega))
    simp only
    split_ifs
    · exact ⟨rfl, ⟨a1, a4 h8⟩, rfl, a2⟩
    · exact ⟨rfl, ⟨a1, a4 h8⟩, rfl, a2⟩
  · rw [if_neg (by omega)]
    have : data.drop nwrote = [] := List.drop_of_length_le (by omega)
    rw [this, List.append_nil]
    exact ⟨rfl, ⟨hwf, h8⟩, rfl, rfl⟩

theorem sendInLoop_stream (c : Connection) (data : List Byte) (r : SendResult)
    (hst : c.state_ = .CONNECTED) (hok : c.OutOK)
    (hnf : r ≠ .failed EPIPE ∧ r ≠ .failed ECONNRESET)
    (hf : c.output_buffer_.Fits data.length) :
    (c.sendInLoop data r).state_ = .CONNECTED ∧ (c.sendInLoop data r).OutOK ∧
      (c.sendInLoop data r).wire ++ (c.sendInLoop data r).output_buffer_.readable =
        c.wire ++ c.output_buffer_.readable ++ data := by
  obtain ⟨d1, d2, d3, d4, d5, d6, d7⟩ := directSend_spec c data r hnf
  unfold sendInLoop
  rw [if_neg (by simp [hst])]
  simp only
  rw [d2, d3]
  have hok' : (c.directSend data r).2.2.2.OutOK := by
    unfold OutOK; rw [d5]; exact hok
  obtain ⟨q1, q2, q3, q4⟩ := queueRemaining_spec (c.directSend data r).2.2.2 data
    (c.directSend data r).1 hok' (by rw [d5]; exact hf)
  refine ⟨by rw [q1, d4, hst], q2, ?_⟩
  rw [q3, q4, d6, d5]
  rcases d7 with h0 | hnil
  · rw [h0]; simp
  · rw [hnil]; simp

theorem writeDrained_frame (c : Connection) :
    c.writeDrained.state_ = c.state_ ∧ c.writeDrained.output_buffer_ = c.output_buffer_ ∧
      c.writeDrained.wire = c.wire := by
  unfold writeDrained shutdownInLoop act
  simp only
  split_ifs <;> exact ⟨rfl, rfl, rfl⟩

theorem handleWrite_stream (c : Connection) (r : SendResult) (hok : c.OutOK) :
    (c.handleWrite r).state_ = c.state_ ∧ (c.handleWrite r).OutOK ∧
      (c.handleWrite r).wire ++ (c.handleWrite r).output_buffer_.readable =
        c.wire ++ c.output_buffer_.readable := by
  obtain ⟨hwf, h8⟩ := hok
  unfold handleWrite
  by_cases hw : c.writeInterest = true
  · rw [if_pos hw]
    cases r with
    | failed e =>
      simp only [socketSend]
      rw [if_neg (by omega)]
      exact ⟨rfl, ⟨hwf, h8⟩, rfl⟩
    | room n =>
      simp only [socketSend, Int.toNat_ofNat]
      have hlen := Buffer.readable_length c.output_buffer_ hwf
      have hle : (c.output_buffer_.readable.take n).length ≤ c.output_buffer_.readableBytes := by
        rw [← hlen]; exact List.length_take_le' n _
      by_cases hpos : ((c.output_buffer_.readable.take n).length : Int) > 0
      · rw [if_pos hpos]
        obtain ⟨r1, r2, _⟩ := Buffer.retrieve_inv c.output_buffer_
          (c.output_buffer_.readable.take n).length hwf h8
        have r3 := Buffer.retrieve_readable c.output_buffer_
          (c.output_buffer_.readable.take n).length hwf hle
        have key : c.wire ++ List.take n c.output_buffer_.readable ++
            (c.output_buffer_.retrieve (List.take n c.output_buffer_.readable).length).readable =
            c.wire ++ c.output_buffer_.readable := by
          rw [r3, List.append_assoc]
          congr 1
          exact take_append_drop_length _ n
        split_ifs
        · obtain ⟨w1, w2, w3⟩ := writeDrained_frame
            { c with wire := c.wire ++ List.take n c.output_buffer_.readable,
                     output_buffer_ := c.output_buffer_.retrieve
                       (List.take n c.output_buffer_.readable).length }
          refine ⟨w1, ?_, ?_⟩
          · unfold OutOK; rw [w2]; exact ⟨r1, r2⟩
          · rw [w2, w3]; exact key
        · exact ⟨rfl, ⟨r1, r2⟩, key⟩
      · rw [if_neg hpos]
        have hz : c.output_buffer_.readable.take n = [] :=
          List.length_eq_zero.mp (by omega)
        rw [hz]
        exact ⟨rfl, ⟨hwf, h8⟩, by simp⟩
  · rw [if_neg hw]
    exact ⟨rfl, ⟨hwf, h8⟩, rfl⟩

theorem directSend_out (c : Connection) (data : List Byte) (r : SendResult) :
    (c.directSend data r).2.2.2.output_buffer_ = c.output_buffer_ := by
  unfold directSend
  by_cases he : c.output_buffer_.readableBytes = 0
  · rw [if_pos he]
    cases r with
    | failed e =>
      simp only [socketSend]
      rw [if_neg (by omega)]
    | room n =>
      simp only [socketSend]
      rw [if_pos (by omega)]
      simp only
      split_ifs <;> rfl
  · rw [if_neg he]

/-- The vector of the output buffer grows by at most the bytes submitted. -/
theorem queueRemaining_out_length (c : Connection) (data : List Byte)
    (nwrote remaining : Nat) (fault : Bool) (hwf : c.output_buffer_.WellFormed)
    (hf : c.output_buffer_.Fits data.length) :
    (c.queueRemaining data nwrote remaining fault).output_buffer_.buffer_.length ≤
      c.output_buffer_.buffer_.length + data.length := by
  have hlen : ((data.drop nwrote).take remaining).length ≤ data.length := by
    rw [List.length_take, List.length_drop]; omega
  unfold queueRemaining
  by_cases hq : ¬ fault = true ∧ remaining > 0
  · rw [if_pos hq]
    have hb := (Buffer.append_bounds c.output_buffer_ _ hwf (hf.mono hlen)).1
    simp only
    split_ifs
    · exact Nat.le_trans hb (Nat.add_le_add_left hlen _)
    · exact Nat.le_trans hb (Nat.add_le_add_left hlen _)
  · rw [if_neg hq]; omega

theorem sendInLoop_out_length (c : Connection) (data : List Byte) (r : SendResult)
    (hwf : c.output_buffer_.WellFormed) (hf : c.output_buffer_.Fits data.length) :
    (c.sendInLoop data r).output_buffer_.buffer_.length ≤
      c.output_buffer_.buffer_.length + data.length := by
  unfold sendInLoop
  by_cases hs : c.state_ ≠ .CONNECTED
  · rw [if_pos hs]; omega
  · rw [if_neg hs]
    have hd := directSend_out c data r
    have := queueRemaining_out_length (c.directSend data r).2.2.2 data
      (c.directSend data r).1 (c.directSend data r).2.1 (c.directSend data r).2.2.1
      (by rw [hd]; exact hwf) (by rw [hd]; exact hf)
    rw [hd] at this
    exact this

theorem retrieve_buffer (b : Buffer) (n : Nat) : (b.retrieve n).buffer_ = b.buffer_ := by
  unfold Buffer.retrieve Buffer.retrieveAll
  split_ifs <;> rfl

theorem handleWrite_out_length (c : Connection) (r : SendResult) :
    (c.handleWrite r).output_buffer_.buffer_.length = c.output_buffer_.buffer_.length := by
  unfold handleWrite
  by_cases hw : c.writeInterest = true
  · rw [if_pos hw]
    cases r with
    | failed e =>
      simp only [socketSend]
      rw [if_neg (by omega)]
    | room n =>
      simp only [socketSend]
      split_ifs
      · rw [(writeDrained_frame _).2.1]
        simp only [retrieve_buffer]
      · simp only [retrieve_buffer]
      · rfl
  · rw [if_neg hw]

theorem isFault_false (r : SendResult) (h : isFault r = false) :
    r ≠ .failed EPIPE ∧ r ≠ .failed ECONNRESET := by
  cases r with
  | failed e =>
    simp only [isFault, decide_eq_false_iff_not, not_or] at h
    exact ⟨fun h' => h.1 (by injection h'), fun h' => h.2 (by injection h')⟩
  | room n => exact ⟨fun h' => (by cases h'), fun h' => (by cases h')⟩

theorem payload_total_cons (call : Call) (rest : List Call) :
    (((call :: rest).map Call.payload).flatten).length =
      call.payload.length + ((rest.map Call.payload).flatten).length := by
  simp

theorem run_stream (calls : List Call) : ∀ (c : Connection), c.state_ = .CONNECTED →
    c.OutOK → (∀ call ∈ calls, call.isWrite = true) → (∀ call ∈ calls, call.faults = false) →
    c.output_buffer_.buffer_.length + ((calls.map Call.payload).flatten).length ≤ kMaxSize →
    (c.run calls).state_ = .CONNECTED ∧ (c.run calls).OutOK ∧
      (c.run calls).wire ++ (c.run calls).output_buffer_.readable =
        c.wire ++ c.output_buffer_.readable ++ (calls.map Call.payload).flatten := by
  induction calls with
  | nil => intro c hst hok _ _ _; exact ⟨hst, hok, by simp [run]⟩
  | cons call rest ih =>
    intro c hst hok hw hf hsz
    rw [payload_total_cons] at hsz
    have hw1 := hw call (List.mem_cons_self _ _)
    have hf1 := hf call (List.mem_cons_self _ _)
    have hfit : c.output_buffer_.Fits call.payload.length :=
      Buffer.Fits.of_size hok.1 (by omega)
    have hstep : (c.step call).state_ = .CONNECTED ∧ (c.step call).OutOK ∧
        (c.step call).wire ++ (c.step call).output_buffer_.readable =
          c.wire ++ c.output_buffer_.readable ++ call.payload ∧
        (c.step call).output_buffer_.buffer_.length ≤
          c.output_buffer_.buffer_.length + call.payload.length := by
      cases call with
      | sendInLoop data r =>
        obtain ⟨a, b, d⟩ := sendInLoop_stream c data r hst hok (isFault_false r hf1) hfit
        exact ⟨a, b, d, sendInLoop_out_length c data r hok.1 hfit⟩
      | handleWrite r =>
        obtain ⟨a, b, d⟩ := handleWrite_stream c r hok
        exact ⟨by rw [step, a, hst], b, by simpa [step, Call.payload] using d,
          by simp only [step, handleWrite_out_length]; omega⟩
      | _ => simp [Call.isWrite] at hw1
    obtain ⟨s1, s2, s3, s4⟩ := hstep
    obtain ⟨t1, t2, t3⟩ := ih (c.step call) s1 s2
      (fun x hx => hw x (List.mem_cons_of_mem _ hx))
      (fun x hx => hf x (List.mem_cons_of_mem _ hx)) (by omega)
    refine ⟨t1, t2, ?_⟩
    have hrun : c.run (call :: rest) = (c.step call).run rest := rfl
    rw [hrun, t3, s3]
    simp

/-- C4: on a CONNECTED connection with a well-formed output buffer, after any sequence of
`sendInLoop(d_i)` and `handleWrite` calls none of whose sends fails with EPIPE or ECONNRESET,
the bytes accepted by the socket followed by the readable content of the output buffer are
what they were before followed by `d_1 ++ ... ++ d_k`; the vector of the output buffer and
the `d_i` together are bytes that can exist (not above `max_size()`). -/
theorem C4_send_stream (c : Connection) (calls : List Call) (hst : c.state_ = .CONNECTED)
    (hok : c.OutOK) (hw : ∀ call ∈ calls, call.isWrite = true)
    (hf : ∀ call ∈ calls, call.faults = false)
    (hsz : c.output_buffer_.buffer_.length + ((calls.map Call.payload).flatten).length ≤
      kMaxSize) :
    (c.run calls).wire ++ (c.run calls).output_buffer_.readable =
      c.wire ++ c.output_buffer_.readable ++ (calls.map Call.payload).flatten :=
  (run_stream calls c hst hok hw hf hsz).2.2

end Connection

/-! ## Connection: close callback and state order -/

namespace Connection

theorem rank_le_disconnected (s : ConnectionState) :
    s.rank ≤ ConnectionState.DISCONNECTED.rank := by
  cases s <;> decide

theorem handleClose_state (c : Connection) : c.handleClose.state_ = .DISCONNECTED := by
  unfold handleClose act
  simp only
  split_ifs <;> rfl

theorem handleError_state (c : Connection) : c.handleError.state_ = c.state_ := by
  unfold handleError act
  split_ifs <;> rfl

theorem shutdownInLoop_state (c : Connection) : c.shutdownInLoop.state_ = c.state_ := by
  unfold shutdownInLoop act
  split_ifs <;> rfl

theorem handleWrite_state (c : Connection) (r : SendResult) :
    (c.handleWrite r).state_ = c.state_ := by
  unfold handleWrite
  cases r with
  | failed e =>
    simp only [socketSend]
    split_ifs <;> first | rfl | omega
  | room n =>
    simp only [socketSend]
    split_ifs <;> first | rfl | exact (writeDrained_frame _).1

theorem directSend_state (c : Connection) (data : List Byte) (r : SendResult) :
    (c.directSend data r).2.2.2.state_ = c.state_ := by
  unfold directSend
  cases r with
  | failed e => simp only [socketSend]; split_ifs <;> rfl
  | room n => simp only [socketSend]; split_ifs <;> rfl

theorem queueRemaining_state (c : Connection) (data : List Byte) (nwrote remaining : Nat)
    (fault : Bool) : (c.queueRemaining data nwrote remaining fault).state_ = c.state_ := by
  unfold queueRemaining act
  simp only
  split_ifs <;> rfl

theorem sendInLoop_state (c : Connection) (data : List Byte) (r : SendResult) :
    (c.sendInLoop data r).state_ = c.state_ := by
  unfold sendInLoop
  split_ifs
  · rfl
  · simp only
    rw [queueRemaining_state, directSend_state]

theorem handleRead_rank (c : Connection) (r : Buffer.ReadvResult) :
    c.state_.rank ≤ (c.handleRead r).state_.rank := by
  unfold handleRead
  simp only
  split_ifs
  · exact Nat.le_refl _
  · exact Nat.le_refl _
  · rw [handleClose_state]; exact rank_le_disconnected _
  · rw [handleError_state]

/-- State after a callback of the connection's handler never smaller. -/
theorem deliver_rank (c : Connection) (E : Nat) (rd : Buffer.ReadvResult) (sd : SendResult) :
    c.state_.rank ≤ (c.deliver E rd sd).state_.rank := by
  have hR : ∀ x : Connection, x.state_.rank ≤ (x.handleRead rd).state_.rank :=
    fun x => handleRead_rank x rd
  have hW : ∀ x : Connection, x.state_.rank ≤ (x.handleWrite sd).state_.rank :=
    fun x => by rw [handleWrite_state]
  have hE : ∀ x : Connection, x.state_.rank ≤ x.handleError.state_.rank :=
    fun x => by rw [handleError_state]
  have hC : ∀ x : Connection, x.state_.rank ≤ x.handleClose.state_.rank :=
    fun x => by rw [handleClose_state]; exact rank_le_disconnected _
  unfold deliver EventHandler.handleEvents handler invoke
  simp only
  split_ifs <;>
    first
    | exact Nat.le_refl _
    | exact hC _
    | exact hE _
    | exact hR _
    | exact hW _
    | exact Nat.le_trans (hE _) (hR _)
    | exact Nat.le_trans (hE _) (hW _)
    | exact Nat.le_trans (hR _) (hW _)
    | exact Nat.le_trans (hE _) (Nat.le_trans (hR _) (hW _))

theorem step_rank (c : Connection) (call : Call)
    (h : call.isEstablish = true → c.state_ = .CONNECTING) :
    c.state_.rank ≤ (c.step call).state_.rank := by
  cases call with
  | establishConnection ok =>
    rw [h rfl]
    exact Nat.zero_le _
  | destroyConnection =>
    simp only [step, destroyConnection, act]
    split_ifs <;> first | exact Nat.le_refl _ | exact rank_le_disconnected _
  | shutdown =>
    simp only [step, shutdown]
    split_ifs with hc
    · rw [shutdownInLoop_state, hc]; simp [ConnectionState.rank]
    · exact Nat.le_refl _
  | forceClose =>
    simp only [step, forceClose, forceCloseInLoop]
    split_ifs
    · rw [handleClose_state]; exact rank_le_disconnected _
    · rename_i h1 h2; simp at h2
    · exact Nat.le_refl _
  | send data r =>
    simp only [step, send]
    split_ifs
    · exact Nat.le_refl _
    · rw [sendInLoop_state]
  | sendInLoop data r => simp only [step]; rw [sendInLoop_state]
  | handleRead r => exact handleRead_rank c r
  | handleWrite r => simp only [step]; rw [handleWrite_state]
  | handleClose => simp only [step]; rw [handleClose_state]; exact rank_le_disconnected _
  | handleError => simp only [step]; rw [handleError_state]
  | deliver E rd sd => exact deliver_rank c E rd sd

theorem run_append (c : Connection) (xs ys : List Call) :
    c.run (xs ++ ys) = (c.run xs).run ys := by
  unfold run; rw [List.foldl_append]

theorem run_take_succ (c : Connection) (calls : List Call) (j : Nat) :
    c.run (calls.take (j + 1)) =
      match calls[j]? with
      | some call => (c.run (calls.take j)).step call
      | none => c.run (calls.take j) := by
  rw [List.take_succ, run_append]
  cases calls[j]? with
  | none => rfl
  | some call => rfl

theorem established_outOK (ok : Bool) : (Connection.new.establishConnection ok).OutOK := by
  have h := Buffer.new_default_wellFormed
  unfold establishConnection act
  simp only
  split_ifs <;> exact ⟨h, Nat.le_refl _⟩

theorem C4_send_stream_witness :
    (Connection.new.establishConnection true).state_ = .CONNECTED ∧
    (Connection.new.establishConnection true).OutOK ∧
    (∀ call ∈ [Call.sendInLoop [1, 2, 3] (.room 1), Call.sendInLoop [4, 5] (.room 7),
      Call.handleWrite (.room 3), Call.sendInLoop [6] (.failed EWOULDBLOCK),
      Call.handleWrite (.room 9)], call.isWrite = true) ∧
    (∀ call ∈ [Call.sendInLoop [1, 2, 3] (.room 1), Call.sendInLoop [4, 5] (.room 7),
      Call.handleWrite (.room 3), Call.sendInLoop [6] (.failed EWOULDBLOCK),
      Call.handleWrite (.room 9)], call.faults = false) ∧
    ((Connection.new.establishConnection true).run
        [Call.sendInLoop [1, 2, 3] (.room 1), Call.sendInLoop [4, 5] (.room 7),
          Call.handleWrite (.room 3), Call.sendInLoop [6] (.failed EWOULDBLOCK),
          Call.handleWrite (.room 9)]).wire ++
      ((Connection.new.establishConnection true).run
        [Call.sendInLoop [1, 2, 3] (.room 1), Call.sendInLoop [4, 5] (.room 7),
          Call.handleWrite (.room 3), Call.sendInLoop [6] (.failed EWOULDBLOCK),
          Call.handleWrite (.room 9)]).output_buffer_.readable =
      (Connection.new.establishConnection true).wire ++
        (Connection.new.establishConnection true).output_buffer_.readable ++
        ([Call.sendInLoop [1, 2, 3] (.room 1), Call.sendInLoop [4, 5] (.room 7),
          Call.handleWrite (.room 3), Call.sendInLoop [6] (.failed EWOULDBLOCK),
          Call.handleWrite (.room 9)].map Call.payload).flatten :=
  ⟨rfl, established_outOK true, by decide, by decide,
    C4_send_stream (Connection.new.establishConnection true) _ rfl (established_outOK true)
      (by decide) (by decide) (by decide)⟩

/-- C5 (the code at the failing input): a connection with a close callback is established;
a first readable event whose read returns 0 runs the close path and invokes the callback;
the handler is still in the loop's table, and a second such event, or a hang-up event,
invokes the callback a second time. -/
theorem C5_close_callback_invoked_twice :
    ((Connection.new.setCloseCallback).run
      [.establishConnection true, .deliver EPOLLIN (.data []) (.room 0)]).closeCount = 1 ∧
    ((Connection.new.setCloseCallback).run
      [.establishConnection true, .deliver EPOLLIN (.data []) (.room 0)]).registered = true ∧
    ((Connection.new.setCloseCallback).run
      [.establishConnection true, .deliver EPOLLIN (.data []) (.room 0),
        .deliver EPOLLIN (.data []) (.room 0)]).closeCount = 2 ∧
    ((Connection.new.setCloseCallback).run
      [.establishConnection true, .deliver EPOLLIN (.data []) (.room 0),
        .deliver EPOLLHUP (.data []) (.room 0)]).closeCount = 2 := by
  decide

/-- C6 (as stated, refuted): after `establishConnection` and `shutdown` the state is
DISCONNECTING, and a further `establishConnection` moves it back to CONNECTED. -/
theorem C6_establishConnection_moves_back :
    (Connection.new.run [.establishConnection true, .shutdown]).state_ =
      ConnectionState.DISCONNECTING ∧
    (Connection.new.run [.establishConnection true, .shutdown,
      .establishConnection true]).state_ = ConnectionState.CONNECTED ∧
    ¬ ((Connection.new.run [.establishConnection true, .shutdown]).state_.rank ≤
      (Connection.new.run [.establishConnection true, .shutdown,
        .establishConnection true]).state_.rank) := by
  decide

/-- C6 (amended): along any sequence of calls in which every `establishConnection` is made
while the state is CONNECTING, the state never moves to a smaller one: the state after the
first `i` calls is at most the state after the first `j` calls whenever `i ≤ j`. -/
theorem C6_state_never_decreases (c : Connection) (calls : List Call)
    (h : ∀ (i : Nat) (ok : Bool), calls[i]? = some (Call.establishConnection ok) →
      (c.run (calls.take i)).state_ = .CONNECTING)
    (i j : Nat) (hij : i ≤ j) :
    (c.run (calls.take i)).state_.rank ≤ (c.run (calls.take j)).state_.rank := by
  induction j, hij using Nat.le_induction with
  | base => exact Nat.le_refl _
  | succ j _ ih =>
    rw [run_take_succ]
    cases hcall : calls[j]? with
    | none => exact ih
    | some call =>
      refine Nat.le_trans ih (step_rank _ call ?_)
      intro he
      cases call with
      | establishConnection ok => exact h j ok hcall
      | _ => simp [Call.isEstablish] at he

theorem C6_state_never_decreases_witness :
    (∀ (i : Nat) (ok : Bool),
      [Call.establishConnection true, Call.shutdown, Call.handleRead (.data []),
        Call.forceClose][i]? = some (Call.establishConnection ok) →
      (Connection.new.run ([Call.establishConnection true, Call.shutdown,
        Call.handleRead (.data []), Call.forceClose].take i)).state_ = .CONNECTING) ∧
    (Connection.new.run ([Call.establishConnection true, Call.shutdown,
        Call.handleRead (.data []), Call.forceClose].take 1)).state_.rank ≤
      (Connection.new.run ([Call.establishConnection true, Call.shutdown,
        Call.handleRead (.data []), Call.forceClose].take 4)).state_.rank :=
  have hyp : ∀ (i : Nat) (ok : Bool),
      [Call.establishConnection true, Call.shutdown, Call.handleRead (.data []),
        Call.forceClose][i]? = some (Call.establishConnection ok) →
      (Connection.new.run ([Call.establishConnection true, Call.shutdown,
        Call.handleRead (.data []), Call.forceClose].take i)).state_ = .CONNECTING := by
    intro i ok hi
    match i with
    | 0 => rfl
    | 1 => simp at hi
    | 2 => simp at hi
    | 3 => simp at hi
    | n + 4 => simp at hi
  ⟨hyp, C6_state_never_decreases Connection.new _ hyp 1 4 (by decide)⟩

end Connection

/-! ## Buffer: gathered read and searches, the claims -/

namespace Buffer

theorem store_mk (b : Buffer) (data : List Byte) (h : b.WellFormed)
    (hw : data.length ≤ b.writableBytes) :
    Buffer.readable ⟨copyInto b.buffer_ b.write_index_ data, b.read_index_,
      b.write_index_ + data.length⟩ = b.readable ++ data :=
  store_readable b data h hw

theorem readFd_data (b : Buffer) (d : List Byte) (h : b.WellFormed)
    (hd : d.length ≤ b.readvCapacity) (hf : b.Fits d.length) :
    (b.readFd (.data d)).1 = d.length ∧ (b.readFd (.data d)).2.1 = none ∧
      (b.readFd (.data d)).2.2.WellFormed ∧
      (b.readFd (.data d)).2.2.readable = b.readable ++ d := by
  have hcap : (if (if b.writableBytes < kExtraBuf then 2 else 1) = 2
      then b.writableBytes + kExtraBuf else b.writableBytes) = b.readvCapacity := by
    unfold readvCapacity
    by_cases hw : b.writableBytes < kExtraBuf
    · simp [hw]
    · simp [hw]
  unfold readFd
  simp only [hcap, List.take_of_length_le hd]
  by_cases hn : d.length ≤ b.writableBytes
  · rw [if_pos hn, List.take_of_length_le hn]
    refine ⟨rfl, rfl, ?_, store_readable b d h hn⟩
    obtain ⟨h1, h2⟩ := h
    unfold writableBytes at hn
    constructor
    · simp only; omega
    · simp only [copyInto_length]; omega
  · rw [if_neg hn]
    obtain ⟨h1, h2⟩ := h
    have hlen : (d.take b.writableBytes).length = b.writableBytes := by
      rw [List.length_take]; omega
    have hfull : b.write_index_ + (d.take b.writableBytes).length = b.buffer_.length := by
      rw [hlen]; unfold writableBytes; omega
    have hstore := store_mk b (d.take b.writableBytes) ⟨h1, h2⟩ (by rw [hlen])
    have hwf1 : Buffer.WellFormed ⟨copyInto b.buffer_ b.write_index_ (d.take b.writableBytes),
        b.read_index_, b.write_index_ + (d.take b.writableBytes).length⟩ := by
      constructor
      · simp only; omega
      · simp only [copyInto_length, hfull]; exact Nat.le_refl _
    simp only [copyInto_length]
    rw [← hfull]
    have htk : (d.drop b.writableBytes).take (d.length - b.writableBytes) =
        d.drop b.writableBytes := List.take_of_length_le (by rw [List.length_drop])
    rw [htk]
    have hfit : Buffer.Fits ⟨copyInto b.buffer_ b.write_index_ (d.take b.writableBytes),
        b.read_index_, b.write_index_ + (d.take b.writableBytes).length⟩
        (d.drop b.writableBytes).length := by
      unfold Fits at hf ⊢
      simp only [List.length_drop, hlen]
      omega
    obtain ⟨a1, a2, _, _⟩ := append_spec _ (d.drop b.writableBytes) hwf1 hfit
    refine ⟨trivial, trivial, a1, ?_⟩
    rw [a2, hstore, List.append_assoc, List.take_append_drop]

theorem matchAt_kCRLF (buf : List Byte) (last first : Nat) :
    matchAt buf last first kCRLF =
      if first = last then MatchResult.atEnd
      else if buf.getD first 0 = 13 then
        (if first + 1 = last then MatchResult.atEnd
         else if buf.getD (first + 1) 0 = 10 then MatchResult.found
         else MatchResult.mismatch)
      else MatchResult.mismatch := by
  simp only [kCRLF, matchAt]

theorem stdSearch_kCRLF (buf : List Byte) (last : Nat) :
    ∀ (fuel first : Nat), first ≤ last → last - first < fuel →
      (stdSearch buf last kCRLF fuel first = last ∧
        ∀ q, first ≤ q → q + 2 ≤ last →
          ¬ (buf.getD q 0 = 13 ∧ buf.getD (q + 1) 0 = 10)) ∨
      (first ≤ stdSearch buf last kCRLF fuel first ∧
        stdSearch buf last kCRLF fuel first + 2 ≤ last ∧
        (buf.getD (stdSearch buf last kCRLF fuel first) 0 = 13 ∧
          buf.getD (stdSearch buf last kCRLF fuel first + 1) 0 = 10) ∧
        ∀ q, first ≤ q → q < stdSearch buf last kCRLF fuel first →
          ¬ (buf.getD q 0 = 13 ∧ buf.getD (q + 1) 0 = 10)) := by
  intro fuel
  induction fuel with
  | zero => intro first _ h; omega
  | succ fuel ih =>
    intro first hle hfuel
    rw [stdSearch, matchAt_kCRLF]
    by_cases h1 : first = last
    · rw [if_pos h1]
      left
      exact ⟨rfl, fun q hq hq2 => by omega⟩
    · rw [if_neg h1]
      have step : ¬ (buf.getD first 0 = 13 ∧ buf.getD (first + 1) 0 = 10) →
          ((stdSearch buf last kCRLF fuel (first + 1) = last ∧
            ∀ q, first ≤ q → q + 2 ≤ last →
              ¬ (buf.getD q 0 = 13 ∧ buf.getD (q + 1) 0 = 10)) ∨
          (first ≤ stdSearch buf last kCRLF fuel (first + 1) ∧
            stdSearch buf last kCRLF fuel (first + 1) + 2 ≤ last ∧
            (buf.getD (stdSearch buf last kCRLF fuel (first + 1)) 0 = 13 ∧
              buf.getD (stdSearch buf last kCRLF fuel (first + 1) + 1) 0 = 10) ∧
            ∀ q, first ≤ q → q < stdSearch buf last kCRLF fuel (first + 1) →
              ¬ (buf.getD q 0 = 13 ∧ buf.getD (q + 1) 0 = 10))) := by
        intro hno
        rcases ih (first + 1) (by omega) (by omega) with ⟨e, hq⟩ | ⟨a, b, c, hq⟩
        · left
          refine ⟨e, fun q hq1 hq2 => ?_⟩
          by_cases hqf : q = first
          · rw [hqf]; exact hno
          · exact hq q (by omega) hq2
        · right
          refine ⟨by omega, b, c, fun q hq1 hq2 => ?_⟩
          by_cases hqf : q = first
          · rw [hqf]; exact hno
          · exact hq q (by omega) hq2
      by_cases h2 : buf.getD first 0 = 13
      · rw [if_pos h2]
        by_cases h3 : first + 1 = last
        · rw [if_pos h3]
          left
          exact ⟨rfl, fun q hq hq2 => by omega⟩
        · rw [if_neg h3]
          by_cases h4 : buf.getD (first + 1) 0 = 10
          · rw [if_pos h4]
            dsimp only
            right
            exact ⟨Nat.le_refl _, by omega, ⟨h2, h4⟩, fun q hq hq2 => by omega⟩
          · rw [if_neg h4]
            exact step (fun h => h4 h.2)
      · rw [if_neg h2]
        exact step (fun h => h2 h.1)

theorem memchr_spec (buf : List Byte) (c : Byte) :
    ∀ (n pos : Nat),
      (memchr buf c pos n = none ∧ ∀ q, pos ≤ q → q < pos + n → buf.getD q 0 ≠ c) ∨
      (∃ r, memchr buf c pos n = some r ∧ pos ≤ r ∧ r < pos + n ∧ buf.getD r 0 = c ∧
        ∀ q, pos ≤ q → q < r → buf.getD q 0 ≠ c) := by
  intro n
  induction n with
  | zero => intro pos; left; exact ⟨rfl, fun q h1 h2 => by omega⟩
  | succ n ih =>
    intro pos
    rw [memchr]
    by_cases h : buf.getD pos 0 = c
    · rw [if_pos h]
      right
      exact ⟨pos, rfl, Nat.le_refl _, by omega, h, fun q h1 h2 => by omega⟩
    · rw [if_neg h]
      rcases ih (pos + 1) with ⟨e, hq⟩ | ⟨r, e, a, b, hc, hq⟩
      · left
        refine ⟨e, fun q h1 h2 => ?_⟩
        by_cases hqp : q = pos
        · rw [hqp]; exact h
        · exact hq q (by omega) (by omega)
      · right
        refine ⟨r, e, by omega, by omega, hc, fun q h1 h2 => ?_⟩
        by_cases hqp : q = pos
        · rw [hqp]; exact h
        · exact hq q (by omega) h2

theorem getD_eq_iff (buf : List Byte) (q : Nat) (v : Byte) (h : q < buf.length) :
    buf.getD q 0 = v ↔ buf[q]? = some v := by
  rw [List.getD_eq_getElem?_getD, List.getElem?_eq_getElem h]
  simp

theorem CRLFAt_iff (b : Buffer) (h : b.WellFormed) (q : Nat) :
    b.CRLFAt q ↔ (b.read_index_ ≤ q ∧ q + 2 ≤ b.write_index_ ∧
      (b.buffer_.getD q 0 = 13 ∧ b.buffer_.getD (q + 1) 0 = 10)) := by
  obtain ⟨_, h2⟩ := h
  unfold CRLFAt
  constructor
  · rintro ⟨a, c, d, e⟩
    exact ⟨a, c, (getD_eq_iff _ _ _ (by omega)).mpr d, (getD_eq_iff _ _ _ (by omega)).mpr e⟩
  · rintro ⟨a, c, d, e⟩
    exact ⟨a, c, (getD_eq_iff _ _ _ (by omega)).mp d, (getD_eq_iff _ _ _ (by omega)).mp e⟩

theorem EOLAt_iff (b : Buffer) (h : b.WellFormed) (q : Nat) :
    b.EOLAt q ↔ (b.read_index_ ≤ q ∧ q < b.write_index_ ∧ b.buffer_.getD q 0 = 10) := by
  obtain ⟨_, h2⟩ := h
  unfold EOLAt
  constructor
  · rintro ⟨a, c, d⟩
    exact ⟨a, c, (getD_eq_iff _ _ _ (by omega)).mpr d⟩
  · rintro ⟨a, c, d⟩
    exact ⟨a, c, (getD_eq_iff _ _ _ (by omega)).mp d⟩

theorem findCRLF_spec (b : Buffer) (h : b.WellFormed) :
    (∀ p, b.findCRLF = some p ↔ (b.CRLFAt p ∧ ∀ q, q < p → ¬ b.CRLFAt q)) ∧
    (b.findCRLF = none ↔ ∀ q, ¬ b.CRLFAt q) := by
  have hiff := CRLFAt_iff b h
  obtain ⟨h1, h2⟩ := h
  have key := stdSearch_kCRLF b.buffer_ b.write_index_
    (b.write_index_ + 1 - b.read_index_) b.read_index_ h1 (by omega)
  unfold findCRLF
  simp only
  rcases key with ⟨e, hq⟩ | ⟨a, c, d, hq⟩
  · rw [if_pos e]
    have hnone : ∀ q, ¬ b.CRLFAt q := by
      intro q hc
      obtain ⟨x, y, z⟩ := (hiff q).mp hc
      exact hq q x y z
    constructor
    · intro p
      constructor
      · intro hp; cases hp
      · intro hp; exact absurd hp.1 (hnone p)
    · exact ⟨fun _ => hnone, fun _ => rfl⟩
  · have hne : stdSearch b.buffer_ b.write_index_ kCRLF
        (b.write_index_ + 1 - b.read_index_) b.read_index_ ≠ b.write_index_ := by omega
    rw [if_neg hne]
    have hr : b.CRLFAt (stdSearch b.buffer_ b.write_index_ kCRLF
        (b.write_index_ + 1 - b.read_index_) b.read_index_) := (hiff _).mpr ⟨a, c, d⟩
    have hmin : ∀ q, q < stdSearch b.buffer_ b.write_index_ kCRLF
        (b.write_index_ + 1 - b.read_index_) b.read_index_ → ¬ b.CRLFAt q := by
      intro q hlt hc
      obtain ⟨x, _, z⟩ := (hiff q).mp hc
      exact hq q x hlt z
    constructor
    · intro p
      constructor
      · intro hp
        injection hp with hp
        rw [← hp]
        exact ⟨hr, hmin⟩
      · rintro ⟨hp, hpmin⟩
        congr 1
        rcases Nat.lt_trichotomy p (stdSearch b.buffer_ b.write_index_ kCRLF
          (b.write_index_ + 1 - b.read_index_) b.read_index_) with hlt | heq | hgt
        · exact absurd hp (hmin p hlt)
        · exact heq.symm
        · exact absurd hr (hpmin _ hgt)
    · constructor
      · intro hp; cases hp
      · intro hall; exact absurd hr (hall _)

theorem findEOL_spec (b : Buffer) (h : b.WellFormed) :
    (∀ p, b.findEOL = some p ↔ (b.EOLAt p ∧ ∀ q, q < p → ¬ b.EOLAt q)) ∧
    (b.findEOL = none ↔ ∀ q, ¬ b.EOLAt q) := by
  have hiff := EOLAt_iff b h
  obtain ⟨h1, h2⟩ := h
  have hend : b.read_index_ + b.readableBytes = b.write_index_ := by
    unfold readableBytes; omega
  unfold findEOL
  rcases memchr_spec b.buffer_ 10 b.readableBytes b.read_index_ with
    ⟨e, hq⟩ | ⟨r, e, a, c, d, hq⟩
  · rw [e]
    rw [hend] at hq
    have hnone : ∀ q, ¬ b.EOLAt q := by
      intro q hc
      obtain ⟨x, y, z⟩ := (hiff q).mp hc
      exact hq q x y z
    constructor
    · intro p
      constructor
      · intro hp; cases hp
      · intro hp; exact absurd hp.1 (hnone p)
    · exact ⟨fun _ => hnone, fun _ => rfl⟩
  · rw [e]
    rw [hend] at c
    have hr : b.EOLAt r := (hiff r).mpr ⟨a, c, d⟩
    have hmin : ∀ q, q < r → ¬ b.EOLAt q := by
      intro q hlt hc
      obtain ⟨x, _, z⟩ := (hiff q).mp hc
      exact hq q x hlt z
    constructor
    · intro p
      constructor
      · intro hp
        injection hp with hp
        rw [← hp]
        exact ⟨hr, hmin⟩
      · rintro ⟨hp, hpmin⟩
        congr 1
        rcases Nat.lt_trichotomy p r with hlt | heq | hgt
        · exact absurd hp (hmin p hlt)
        · exact heq.symm
        · exact absurd hr (hpmin _ hgt)
    · constructor
      · intro hp; cases hp
      · intro hall; exact absurd hr (hall _)

/-- C11: on a well-formed buffer, `readFd` whose `readv` fails returns a negative value,
stores the `errno` through `saved_errno` and leaves the buffer unchanged; `readFd` whose
`readv` delivers the bytes `d` (at most what the writable zone and the scratch segment hold)
returns their number `n`, and the readable content afterwards is the old readable content
followed by `d`, whether `n ≤ writableBytes()` or the overflow is appended; the write index
and `n` together are a size that can exist (not above `max_size()`). -/
theorem C11_readFd (b : Buffer) (h : b.WellFormed) :
    (∀ errno : Int, (b.readFd (.failed errno)).1 < 0 ∧
      (b.readFd (.failed errno)).2.1 = some errno ∧ (b.readFd (.failed errno)).2.2 = b) ∧
    (∀ d : List Byte, d.length ≤ b.readvCapacity → b.Fits d.length →
      (b.readFd (.data d)).1 = d.length ∧
      (b.readFd (.data d)).2.2.readable = b.readable ++ d ∧
      (b.readFd (.data d)).2.2.WellFormed) := by
  constructor
  · intro errno
    simp [readFd]
  · intro d hd hf
    obtain ⟨a, _, c, e⟩ := readFd_data b d h hd hf
    exact ⟨a, e, c⟩

theorem C11_readFd_witness :
    compactable.WellFormed ∧ [1, 2, 3].length ≤ compactable.readvCapacity ∧
    compactable.Fits [1, 2, 3].length ∧
    (compactable.readFd (.data [1, 2, 3])).1 = [1, 2, 3].length ∧
    (compactable.readFd (.data [1, 2, 3])).2.2.readable = compactable.readable ++ [1, 2, 3] ∧
    (compactable.readFd (.data [1, 2, 3])).2.2.WellFormed :=
  ⟨by decide, by decide, by decide,
    (C11_readFd compactable (by decide)).2 [1, 2, 3] (by decide) (by decide)⟩

/-- C12: on a well-formed buffer, `findCRLF()` returns the position of the first carriage
return, line feed pair lying entirely inside the readable zone and `nullptr` exactly when
the zone holds none; `findEOL()` returns the position of the first line feed of the readable
zone and `nullptr` exactly when there is none. -/
theorem C12_findCRLF_findEOL (b : Buffer) (h : b.WellFormed) :
    (∀ p, b.findCRLF = some p ↔ (b.CRLFAt p ∧ ∀ q, q < p → ¬ b.CRLFAt q)) ∧
    (b.findCRLF = none ↔ ∀ q, ¬ b.CRLFAt q) ∧
    (∀ p, b.findEOL = some p ↔ (b.EOLAt p ∧ ∀ q, q < p → ¬ b.EOLAt q)) ∧
    (b.findEOL = none ↔ ∀ q, ¬ b.EOLAt q) :=
  ⟨(findCRLF_spec b h).1, (findCRLF_spec b h).2, (findEOL_spec b h).1, (findEOL_spec b h).2⟩

theorem C12_findCRLF_findEOL_witness :
    crBeforeEnd.WellFormed ∧ crBeforeEnd.findCRLF = none ∧ crBeforeEnd.findEOL = some 3 ∧
    (∀ q, ¬ crBeforeEnd.CRLFAt q) ∧
    (crBeforeEnd.EOLAt 3 ∧ ∀ q, q < 3 → ¬ crBeforeEnd.EOLAt q) :=
  ⟨by decide, by decide, by decide,
    (C12_findCRLF_findEOL crBeforeEnd (by decide)).2.1.mp (by decide),
    ((C12_findCRLF_findEOL crBeforeEnd (by decide)).2.2.1 3).mp (by decide)⟩

end Buffer

/-! ## EventLoop: the handler table -/

theorem tableErase_idem (t : List (Int × HandlerRef)) (fd : Int) :
    tableErase (tableErase t fd) fd = tableErase t fd := by
  unfold tableErase
  rw [List.filter_filter]
  congr 1
  funext e
  simp

theorem lookup_cons_ne (k fd : Int) (v : HandlerRef) (es : List (Int × HandlerRef))
    (h : fd ≠ k) : List.lookup fd ((k, v) :: es) = List.lookup fd es := by
  have h' : (fd == k) = false := by simpa using h
  rw [List.lookup_cons, h']

theorem lookup_cons_self (k : Int) (v : HandlerRef) (es : List (Int × HandlerRef)) :
    List.lookup k ((k, v) :: es) = some v := by
  have h' : (k == k) = true := by simp
  rw [List.lookup_cons, h']

theorem tableFind_erase_self (t : List (Int × HandlerRef)) (fd : Int) :
    tableFind (tableErase t fd) fd = none := by
  unfold tableFind tableErase
  induction t with
  | nil => rfl
  | cons e rest ih =>
    obtain ⟨k, v⟩ := e
    by_cases h : k = fd
    · rw [List.filter_cons_of_neg (by simpa using h)]
      exact ih
    · rw [List.filter_cons_of_pos (by simpa using h), lookup_cons_ne _ _ _ _ (fun hh => h hh.symm)]
      exact ih

theorem tableFind_erase_ne (t : List (Int × HandlerRef)) (fd fd' : Int) (hne : fd' ≠ fd) :
    tableFind (tableErase t fd) fd' = tableFind t fd' := by
  unfold tableFind tableErase
  induction t with
  | nil => rfl
  | cons e rest ih =>
    obtain ⟨k, v⟩ := e
    by_cases h : k = fd
    · rw [List.filter_cons_of_neg (by simpa using h),
        lookup_cons_ne _ _ _ _ (by rw [h]; exact hne)]
      exact ih
    · rw [List.filter_cons_of_pos (by simpa using h)]
      by_cases h2 : fd' = k
      · rw [h2, lookup_cons_self, lookup_cons_self]
      · rw [lookup_cons_ne _ _ _ _ h2, lookup_cons_ne _ _ _ _ h2]
        exact ih

theorem tableFind_assign_self (t : List (Int × HandlerRef)) (fd : Int) (handler : HandlerRef) :
    tableFind (tableAssign t fd handler) fd = some handler := by
  unfold tableFind tableAssign
  exact lookup_cons_self _ _ _

theorem tableFind_assign_ne (t : List (Int × HandlerRef)) (fd fd' : Int) (handler : HandlerRef)
    (hne : fd' ≠ fd) :
    tableFind (tableAssign t fd handler) fd' = tableFind t fd' := by
  have := tableFind_erase_ne t fd fd' hne
  unfold tableFind at this ⊢
  unfold tableAssign
  rw [lookup_cons_ne _ _ _ _ hne]
  exact this

namespace EventLoop

theorem isInLoopThread_self (l : EventLoop) : l.isInLoopThread l.loop_thread_id_ = true := by
  simp [isInLoopThread]

theorem removeHandler_onLoop (l : EventLoop) (handler : HandlerRef) (ok : Bool) :
    l.removeHandler l.loop_thread_id_ handler ok =
      { l with handlers_ := tableErase l.handlers_ handler.fd_ } := by
  simp [removeHandler, isInLoopThread]

theorem addHandler_onLoop (l : EventLoop) (handler : HandlerRef) (ok : Bool) :
    l.addHandler l.loop_thread_id_ handler ok =
      if ok then { l with handlers_ := tableAssign l.handlers_ handler.fd_ handler } else l := by
  cases ok <;> simp [addHandler, isInLoopThread]

theorem updateHandler_onLoop (l : EventLoop) (handler : HandlerRef) (ok : Bool) :
    l.updateHandler l.loop_thread_id_ handler ok = l := by
  simp [updateHandler, isInLoopThread]

/-- C13: on the loop thread, with a table holding the handler of descriptor 5, a failed
`EPOLL_CTL_ADD` and a failed `EPOLL_CTL_MOD` leave the table as it is, as the claim says, but
`removeHandler` whose `EPOLL_CTL_DEL` fails goes on to erase the entry of the descriptor:
the table is not the same before and after. -/
theorem C13_removeHandler_erases_after_failed_del :
    oneHandlerLoop.isInLoopThread 1 = true ∧
    (oneHandlerLoop.addHandler 1 ⟨5, 0⟩ false).handlers_ = oneHandlerLoop.handlers_ ∧
    (oneHandlerLoop.updateHandler 1 ⟨5, 0⟩ false).handlers_ = oneHandlerLoop.handlers_ ∧
    (oneHandlerLoop.removeHandler 1 ⟨5, 0⟩ false).handlers_ = [] ∧
    ¬ ((oneHandlerLoop.removeHandler 1 ⟨5, 0⟩ false).handlers_ = oneHandlerLoop.handlers_) := by
  decide

/-- What the three table methods of the code do on the loop thread: `addHandler` leaves the
loop as it is when `EPOLL_CTL_ADD` fails and assigns the table entry of the descriptor when it
succeeds; `updateHandler` never changes the table; `removeHandler` has no `return` after a
failed `EPOLL_CTL_DEL`, so it erases the entry of the descriptor whatever the call answers,
and no other entry. -/
theorem handler_table_after_call (l : EventLoop) (handler : HandlerRef) (ok : Bool) :
    l.addHandler l.loop_thread_id_ handler false = l ∧
    (l.addHandler l.loop_thread_id_ handler true).handlers_ =
      tableAssign l.handlers_ handler.fd_ handler ∧
    l.updateHandler l.loop_thread_id_ handler ok = l ∧
    (l.removeHandler l.loop_thread_id_ handler ok).handlers_ =
      tableErase l.handlers_ handler.fd_ ∧
    tableFind (l.removeHandler l.loop_thread_id_ handler ok).handlers_ handler.fd_ = none ∧
    (∀ fd, fd ≠ handler.fd_ →
      tableFind (l.removeHandler l.loop_thread_id_ handler ok).handlers_ fd =
        tableFind l.handlers_ fd) := by
  refine ⟨?_, ?_, updateHandler_onLoop l handler ok, ?_, ?_, ?_⟩
  · rw [addHandler_onLoop]; rfl
  · rw [addHandler_onLoop]; rfl
  · rw [removeHandler_onLoop]
  · rw [removeHandler_onLoop]; exact tableFind_erase_self _ _
  · intro fd hne
    rw [removeHandler_onLoop]; exact tableFind_erase_ne _ _ _ hne

/-- C14: on the loop thread, a second `removeHandler(h)` leaves the loop, hence the handler
table, exactly as the first call left it, whatever `EPOLL_CTL_DEL` answers; the entries of
the other descriptors are those the table had before both calls. -/
theorem C14_removeHandler_twice (l : EventLoop) (handler : HandlerRef) (ok1 ok2 : Bool) :
    (l.removeHandler l.loop_thread_id_ handler ok1).removeHandler l.loop_thread_id_ handler ok2
      = l.removeHandler l.loop_thread_id_ handler ok1 ∧
    (∀ fd, fd ≠ handler.fd_ →
      tableFind ((l.removeHandler l.loop_thread_id_ handler ok1).removeHandler
        l.loop_thread_id_ handler ok2).handlers_ fd = tableFind l.handlers_ fd) := by
  have h1 := removeHandler_onLoop l handler ok1
  have h2 : (l.removeHandler l.loop_thread_id_ handler ok1).removeHandler
      l.loop_thread_id_ handler ok2 = l.removeHandler l.loop_thread_id_ handler ok1 := by
    rw [h1]
    have := removeHandler_onLoop
      ({ l with handlers_ := tableErase l.handlers_ handler.fd_ } : EventLoop) handler ok2
    simp only at this
    rw [this, tableErase_idem]
  refine ⟨h2, fun fd hne => ?_⟩
  rw [h2, h1]
  exact tableFind_erase_ne _ _ _ hne

end EventLoop

/-! ## Connection: write completion, half-close, read errors, close path -/

namespace EchoServer

theorem eraseConnection_not_mem {V : Type} (m : List (String × V)) (name : String) :
    name ∉ (eraseConnection m name).map Prod.fst := by
  unfold eraseConnection
  intro hmem
  obtain ⟨e, he, hname⟩ := List.mem_map.mp hmem
  have := (List.mem_filter.mp he).2
  simp at this
  exact this hname

end EchoServer

namespace Connection

theorem runWriteComplete_eq (c : Connection) (l : EventLoop) :
    c.runWriteComplete l = (c.act .writeCompleteCallback, l) := by
  simp [runWriteComplete, EventLoop.runInLoop, EventLoop.isInLoopThread]

theorem directSendOn_eq (c : Connection) (l : EventLoop) (data : List Byte) (r : SendResult) :
    c.directSendOn l data r =
      ((c.directSend data r).1, (c.directSend data r).2.1, (c.directSend data r).2.2.1,
        (c.directSend data r).2.2.2, l) := by
  unfold directSendOn directSend
  simp only [runWriteComplete_eq]
  split_ifs <;> rfl

theorem sendInLoopOn_eq (c : Connection) (l : EventLoop) (data : List Byte) (r : SendResult) :
    c.sendInLoopOn l data r = (c.sendInLoop data r, l) := by
  unfold sendInLoopOn sendInLoop
  simp only [directSendOn_eq]
  split_ifs <;> rfl

theorem writeDrainedOn_eq (c : Connection) (l : EventLoop) :
    c.writeDrainedOn l = (c.writeDrained, l) := by
  unfold writeDrainedOn writeDrained
  simp only [runWriteComplete_eq]
  split_ifs <;> rfl

theorem handleWriteOn_eq (c : Connection) (l : EventLoop) (r : SendResult) :
    c.handleWriteOn l r = (c.handleWrite r, l) := by
  unfold handleWriteOn handleWrite
  simp only [writeDrainedOn_eq]
  split_ifs <;> rfl

theorem clearWrite_out (e : Nat) : (e &&& (0xFFFFFFFF ^^^ EPOLLOUT)) &&& EPOLLOUT = 0 := by
  have h : (0xFFFFFFFF ^^^ EPOLLOUT) &&& EPOLLOUT = 0 := by decide
  rw [Nat.and_assoc, h, Nat.and_zero]

theorem clearWrite_in (e : Nat) :
    (e &&& (0xFFFFFFFF ^^^ EPOLLOUT)) &&& EPOLLIN = e &&& EPOLLIN := by
  have h : (0xFFFFFFFF ^^^ EPOLLOUT) &&& EPOLLIN = EPOLLIN := by decide
  rw [Nat.and_assoc, h]

/-- The result of `handleWrite` when the send takes every readable byte. -/
theorem handleWrite_all (c : Connection) (n : Nat) (hw : c.writeInterest = true)
    (hwf : c.output_buffer_.WellFormed) (hpos : 0 < c.output_buffer_.readableBytes)
    (hn : c.output_buffer_.readableBytes ≤ n) :
    c.handleWrite (.room n) =
      writeDrained { c with wire := c.wire ++ c.output_buffer_.readable,
                            output_buffer_ := c.output_buffer_.retrieveAll } := by
  have hlen := Buffer.readable_length c.output_buffer_ hwf
  have htake : c.output_buffer_.readable.take n = c.output_buffer_.readable :=
    List.take_of_length_le (by omega)
  unfold handleWrite
  rw [if_pos hw]
  simp only [socketSend, htake, hlen, Int.toNat_ofNat]
  rw [if_pos (by omega)]
  have hret : c.output_buffer_.retrieve c.output_buffer_.readableBytes =
      c.output_buffer_.retrieveAll := by
    unfold Buffer.retrieve; rw [if_neg (by omega)]
  rw [hret]
  rw [if_pos (by simp [Buffer.retrieveAll, Buffer.readableBytes])]

theorem writeDrained_fields (c : Connection) :
    c.writeDrained.state_ = c.state_ ∧
    c.writeDrained.events_ = c.events_ &&& (0xFFFFFFFF ^^^ EPOLLOUT) ∧
    c.writeDrained.input_buffer_ = c.input_buffer_ ∧
    c.writeDrained.output_buffer_ = c.output_buffer_ ∧
    c.writeDrained.wire = c.wire ∧
    c.writeDrained.trace = c.trace ++
      [Action.updateHandler (c.events_ &&& (0xFFFFFFFF ^^^ EPOLLOUT))] ++
      (if c.write_complete_callback_ then [Action.writeCompleteCallback] else []) ++
      (if c.state_ = .DISCONNECTING then [Action.shutdownWrite] else []) := by
  have hclr := clearWrite_out c.events_
  unfold writeDrained shutdownInLoop writeInterest act
  simp only
  by_cases h1 : c.write_complete_callback_ = true <;>
    by_cases h2 : c.state_ = ConnectionState.DISCONNECTING <;>
    simp [h1, h2, hclr]

/-- The result of `handleWrite` when the send takes only part of the readable bytes. -/
theorem handleWrite_part (c : Connection) (n : Nat) (hw : c.writeInterest = true)
    (hwf : c.output_buffer_.WellFormed) (hpos : 0 < n)
    (hn : n < c.output_buffer_.readableBytes) :
    c.handleWrite (.room n) =
      { c with wire := c.wire ++ c.output_buffer_.readable.take n,
               output_buffer_ := c.output_buffer_.retrieve n } := by
  have hlen := Buffer.readable_length c.output_buffer_ hwf
  have htl : (c.output_buffer_.readable.take n).length = n := by
    rw [List.length_take]; omega
  unfold handleWrite
  rw [if_pos hw]
  simp only [socketSend, htl, Int.toNat_ofNat]
  rw [if_pos (by omega)]
  have hne : ¬ (c.output_buffer_.retrieve n).readableBytes = 0 := by
    unfold Buffer.retrieve
    rw [if_pos hn]
    unfold Buffer.readableBytes at hn ⊢
    simp only
    omega
  rw [if_neg hne]

theorem shutdown_connected (c : Connection) (h : c.state_ = .CONNECTED) :
    c.shutdown.state_ = .DISCONNECTING ∧ c.shutdown.events_ = c.events_ ∧
    c.shutdown.input_buffer_ = c.input_buffer_ ∧
    c.shutdown.output_buffer_ = c.output_buffer_ ∧
    c.shutdown.trace = c.trace ++ (if c.writeInterest then [] else [Action.shutdownWrite]) := by
  unfold shutdown
  rw [if_pos h]
  unfold shutdownInLoop writeInterest act
  simp only
  by_cases hw : c.events_ &&& EPOLLOUT ≠ 0
  · simp [hw]
  · simp [hw]

theorem shutdown_of_ne (c : Connection) (h : c.state_ ≠ .CONNECTED) : c.shutdown = c := by
  unfold shutdown; rw [if_neg h]

theorem shutdown_idem (c : Connection) : c.shutdown.shutdown = c.shutdown := by
  by_cases h : c.state_ = .CONNECTED
  · have hs := (shutdown_connected c h).1
    exact shutdown_of_ne c.shutdown (by rw [hs]; decide)
  · rw [shutdown_of_ne c h, shutdown_of_ne c h]

theorem shutdownOn_eq (c : Connection) (l : EventLoop) :
    c.shutdownOn l = (c.shutdown, l) := by
  unfold shutdownOn shutdown
  simp only [EventLoop.runInLoop, EventLoop.isInLoopThread, decide_True, if_true]
  split_ifs <;> rfl

theorem handleRead_failed (c : Connection) (errno : Int) :
    c.handleRead (.failed errno) = c.handleError := by
  unfold handleRead
  simp [Buffer.readFd]

theorem handleClose_then_destroy (c : Connection) :
    c.handleClose.destroyConnection = c.handleClose := by
  have hs := handleClose_state c
  unfold destroyConnection
  rw [if_neg (by rw [hs]; decide)]

theorem handleClose_registered (c : Connection) : c.handleClose.registered = c.registered := by
  unfold handleClose act
  simp only
  split_ifs <;> rfl

theorem sendInLoop_all (c : Connection) (data : List Byte) (n : Nat)
    (hst : c.state_ = .CONNECTED) (he : c.output_buffer_.readableBytes = 0)
    (hn : data.length ≤ n) (hcb : c.write_complete_callback_ = true) :
    c.sendInLoop data (.room n) =
      Connection.act { c with wire := c.wire ++ data } .writeCompleteCallback := by
  have htake : data.take n = data := List.take_of_length_le hn
  unfold sendInLoop directSend
  rw [if_neg (by simp [hst]), if_pos he]
  simp only [socketSend, htake, Int.toNat_ofNat]
  rw [if_pos (by omega)]
  simp only [Nat.sub_self, hcb, and_self, if_true]
  unfold queueRemaining
  rw [if_neg (by simp)]

end Connection

/-! ## Connection: the claims on write completion, half-close, read errors, close path -/

namespace Connection

/-- C15 (as stated, refuted): `sendInLoop` on the owning loop, output buffer empty, the send
taking all three bytes, a write-complete callback registered: the callback is invoked inside
the call and the pending-task queue of the loop stays empty. The same for `handleWrite`
draining the output buffer. -/
theorem C15_write_complete_runs_inside_call :
    (withWriteComplete.sendInLoopOn oneHandlerLoop [1, 2, 3] (.room 3)).1.trace =
      [Action.addHandler, Action.writeCompleteCallback] ∧
    (withWriteComplete.sendInLoopOn oneHandlerLoop [1, 2, 3] (.room 3)).2.pending_tasks_ = [] ∧
    (withPendingOutput.handleWriteOn oneHandlerLoop (.room 5)).1.trace =
      [Action.addHandler, Action.updateHandler 5, Action.updateHandler 1,
        Action.writeCompleteCallback] ∧
    (withPendingOutput.handleWriteOn oneHandlerLoop (.room 5)).2.pending_tasks_ = [] := by
  decide

/-- C15 (amended): `sendInLoop` on the owning loop with an empty output buffer, a send that
accepts all of the data and a write-complete callback registered hands the callback to
`runInLoop`, which on the loop thread invokes it at once: the callback runs inside the
`sendInLoop` call, after the send, and the loop with its pending-task queue is unchanged.
Likewise `handleWrite` draining the output buffer invokes the callback inside the call, after
`updateHandler`, and leaves the loop unchanged. -/
theorem C15_write_complete_inline (c : Connection) (l : EventLoop) (data : List Byte)
    (n : Nat) (hcb : c.write_complete_callback_ = true) :
    (c.state_ = .CONNECTED → c.output_buffer_.readableBytes = 0 → data.length ≤ n →
      (c.sendInLoopOn l data (.room n)).1.trace = c.trace ++ [Action.writeCompleteCallback] ∧
      (c.sendInLoopOn l data (.room n)).2 = l) ∧
    (c.writeInterest = true → c.output_buffer_.WellFormed →
      0 < c.output_buffer_.readableBytes → c.output_buffer_.readableBytes ≤ n →
      (c.handleWriteOn l (.room n)).1.trace = c.trace ++
        [Action.updateHandler (c.events_ &&& (0xFFFFFFFF ^^^ EPOLLOUT)),
          Action.writeCompleteCallback] ++
        (if c.state_ = .DISCONNECTING then [Action.shutdownWrite] else []) ∧
      (c.handleWriteOn l (.room n)).2 = l) := by
  constructor
  · intro hst he hn
    rw [sendInLoopOn_eq, sendInLoop_all c data n hst he hn hcb]
    exact ⟨rfl, rfl⟩
  · intro hw hwf hpos hn
    rw [handleWriteOn_eq, handleWrite_all c n hw hwf hpos hn]
    refine ⟨?_, rfl⟩
    rw [(writeDrained_fields _).2.2.2.2.2]
    simp [hcb]

theorem C15_write_complete_inline_witness :
    withWriteComplete.write_complete_callback_ = true ∧
    withWriteComplete.state_ = .CONNECTED ∧
    withWriteComplete.output_buffer_.readableBytes = 0 ∧ [1, 2, 3].length ≤ 3 ∧
    (withWriteComplete.sendInLoopOn oneHandlerLoop [1, 2, 3] (.room 3)).1.trace =
      withWriteComplete.trace ++ [Action.writeCompleteCallback] ∧
    (withWriteComplete.sendInLoopOn oneHandlerLoop [1, 2, 3] (.room 3)).2 = oneHandlerLoop :=
  ⟨by decide, by decide, by decide, by decide,
    (C15_write_complete_inline withWriteComplete oneHandlerLoop [1, 2, 3] 3 (by decide)).1
      (by decide) (by decide) (by decide)⟩

/-- C16 (the code on the close path): for every connection and every connections map, after
`handleClose` and then `removeConnectionInLoop`, the name is no longer a key of the map, but
`destroyConnection` has done nothing, its guard `state_ == CONNECTED` being false: the
connection is as `handleClose` left it and its handler is in the loop's table if it was
before. For an established connection closed by an end-of-file read the handler is still
registered and `removeHandler` was never called. -/
theorem C16_close_path_keeps_handler :
    (∀ (m : List (String × Nat)) (name : String) (c : Connection),
      name ∉ (EchoServer.removeConnectionInLoop m name c.handleClose).1.map Prod.fst ∧
      (EchoServer.removeConnectionInLoop m name c.handleClose).2 = c.handleClose ∧
      (EchoServer.removeConnectionInLoop m name c.handleClose).2.registered = c.registered) ∧
    (EchoServer.removeConnectionInLoop [("Connection-1", 1), ("Connection-2", 2)]
      "Connection-1" ((Connection.new.setCloseCallback.establishConnection true).deliver
        EPOLLIN (.data []) (.room 0))).1 = [("Connection-2", 2)] ∧
    (EchoServer.removeConnectionInLoop [("Connection-1", 1), ("Connection-2", 2)]
      "Connection-1" ((Connection.new.setCloseCallback.establishConnection true).deliver
        EPOLLIN (.data []) (.room 0))).2.registered = true ∧
    (EchoServer.removeConnectionInLoop [("Connection-1", 1), ("Connection-2", 2)]
      "Connection-1" ((Connection.new.setCloseCallback.establishConnection true).deliver
        EPOLLIN (.data []) (.room 0))).2.trace = [Action.addHandler, Action.closeCallback] := by
  refine ⟨fun m name c => ⟨EchoServer.eraseConnection_not_mem m name, ?_, ?_⟩,
    by decide, by decide, by decide⟩
  · exact handleClose_then_destroy c
  · show c.handleClose.destroyConnection.registered = c.registered
    rw [handleClose_then_destroy, handleClose_registered]

/-- C17: for a connection with write interest set and `L > 0` readable bytes in a well-formed
output buffer, `handleWrite` whose send accepts all `L` bytes empties the output buffer,
clears the write-interest bit, keeps the read-interest bit, calls `updateHandler`, and issues
the write-side shutdown when the state is DISCONNECTING; a send accepting `0 < n < L` bytes
leaves the last `L - n` bytes in the buffer and write interest set. -/
theorem C17_handleWrite (c : Connection) (n : Nat) (hw : c.writeInterest = true)
    (hwf : c.output_buffer_.WellFormed) :
    (0 < c.output_buffer_.readableBytes → c.output_buffer_.readableBytes ≤ n →
      (c.handleWrite (.room n)).output_buffer_.readableBytes = 0 ∧
      (c.handleWrite (.room n)).writeInterest = false ∧
      (c.handleWrite (.room n)).events_ &&& EPOLLIN = c.events_ &&& EPOLLIN ∧
      (c.handleWrite (.room n)).wire = c.wire ++ c.output_buffer_.readable ∧
      (c.handleWrite (.room n)).state_ = c.state_ ∧
      (c.handleWrite (.room n)).trace = c.trace ++
        [Action.updateHandler (c.handleWrite (.room n)).events_] ++
        (if c.write_complete_callback_ then [Action.writeCompleteCallback] else []) ++
        (if c.state_ = .DISCONNECTING then [Action.shutdownWrite] else [])) ∧
    (0 < n → n < c.output_buffer_.readableBytes →
      (c.handleWrite (.room n)).output_buffer_.readable = c.output_buffer_.readable.drop n ∧
      (c.handleWrite (.room n)).output_buffer_.readableBytes =
        c.output_buffer_.readableBytes - n ∧
      (c.handleWrite (.room n)).writeInterest = true ∧
      (c.handleWrite (.room n)).wire = c.wire ++ c.output_buffer_.readable.take n ∧
      (c.handleWrite (.room n)).trace = c.trace) := by
  constructor
  · intro hpos hn
    rw [handleWrite_all c n hw hwf hpos hn]
    obtain ⟨f1, f2, _, f4, f5, f6⟩ := writeDrained_fields
      { c with wire := c.wire ++ c.output_buffer_.readable,
               output_buffer_ := c.output_buffer_.retrieveAll }
    refine ⟨?_, ?_, ?_, f5, f1, ?_⟩
    · rw [f4]; simp [Buffer.retrieveAll, Buffer.readableBytes]
    · unfold writeInterest; rw [f2]; simp [clearWrite_out]
    · rw [f2]; exact clearWrite_in c.events_
    · rw [f6, f2]
  · intro hpos hn
    rw [handleWrite_part c n hw hwf hpos hn]
    refine ⟨Buffer.retrieve_readable_lt _ n hn, ?_, hw, rfl, rfl⟩
    simp only
    unfold Buffer.retrieve
    rw [if_pos hn]
    unfold Buffer.readableBytes
    simp only
    omega

theorem C17_handleWrite_witness :
    withPendingOutput.shutdown.writeInterest = true ∧
    withPendingOutput.shutdown.output_buffer_.WellFormed ∧
    0 < withPendingOutput.shutdown.output_buffer_.readableBytes ∧
    withPendingOutput.shutdown.output_buffer_.readableBytes ≤ 2 ∧
    (withPendingOutput.shutdown.handleWrite (.room 2)).output_buffer_.readableBytes = 0 ∧
    (withPendingOutput.shutdown.handleWrite (.room 2)).writeInterest = false ∧
    (withPendingOutput.shutdown.handleWrite (.room 2)).events_ &&& EPOLLIN =
      withPendingOutput.shutdown.events_ &&& EPOLLIN ∧
    (withPendingOutput.shutdown.handleWrite (.room 2)).wire =
      withPendingOutput.shutdown.wire ++ withPendingOutput.shutdown.output_buffer_.readable ∧
    (withPendingOutput.shutdown.handleWrite (.room 2)).state_ =
      withPendingOutput.shutdown.state_ ∧
    (withPendingOutput.shutdown.handleWrite (.room 2)).trace =
      withPendingOutput.shutdown.trace ++
        [Action.updateHandler (withPendingOutput.shutdown.handleWrite (.room 2)).events_] ++
        (if withPendingOutput.shutdown.write_complete_callback_
          then [Action.writeCompleteCallback] else []) ++
        (if withPendingOutput.shutdown.state_ = .DISCONNECTING
          then [Action.shutdownWrite] else []) :=
  ⟨by decide, by decide, by decide, by decide,
    (C17_handleWrite withPendingOutput.shutdown 2 (by decide) (by decide)).1
      (by decide) (by decide)⟩

/-- C18: `shutdown()` on a CONNECTED connection, on the loop, sets the state to
DISCONNECTING, leaves the interest mask (hence read interest) and both buffers unchanged,
and issues the write-side shutdown exactly when the write-interest bit is not set: with
write interest set it issues nothing. -/
theorem C18_shutdown (c : Connection) (h : c.state_ = .CONNECTED) :
    c.shutdown.state_ = .DISCONNECTING ∧ c.shutdown.events_ = c.events_ ∧
    c.shutdown.input_buffer_ = c.input_buffer_ ∧
    c.shutdown.output_buffer_ = c.output_buffer_ ∧
    (c.writeInterest = false → c.shutdown.trace = c.trace ++ [Action.shutdownWrite]) ∧
    (c.writeInterest = true → c.shutdown.trace = c.trace) := by
  obtain ⟨a1, a2, a3, a4, a5⟩ := shutdown_connected c h
  refine ⟨a1, a2, a3, a4, ?_, ?_⟩
  · intro hw; rw [a5, hw]; simp
  · intro hw; rw [a5, hw]; simp

theorem C18_shutdown_witness :
    withPendingOutput.state_ = .CONNECTED ∧ withPendingOutput.writeInterest = true ∧
    withPendingOutput.shutdown.state_ = .DISCONNECTING ∧
    withPendingOutput.shutdown.events_ = withPendingOutput.events_ ∧
    withPendingOutput.shutdown.trace = withPendingOutput.trace ∧
    withWriteComplete.state_ = .CONNECTED ∧ withWriteComplete.writeInterest = false ∧
    withWriteComplete.shutdown.trace = withWriteComplete.trace ++ [Action.shutdownWrite] :=
  ⟨by decide, by decide, (C18_shutdown withPendingOutput (by decide)).1,
    (C18_shutdown withPendingOutput (by decide)).2.1,
    (C18_shutdown withPendingOutput (by decide)).2.2.2.2.2 (by decide),
    by decide, by decide,
    (C18_shutdown withWriteComplete (by decide)).2.2.2.2.1 (by decide)⟩

/-- C19: in any state, `shutdown()` called twice in a row on the loop leaves the connection
exactly as one call does: same state, interest mask, buffers, and the same trace, so the
second call issues no write-side shutdown; with the loop explicit, the second call leaves
the loop and its pending-task queue as they were. -/
theorem C19_shutdown_twice (c : Connection) (l : EventLoop) :
    c.shutdown.shutdown = c.shutdown ∧
    (c.shutdownOn l).1 = c.shutdown ∧ (c.shutdownOn l).2 = l ∧
    (c.shutdownOn l).1.shutdownOn (c.shutdownOn l).2 = (c.shutdown, l) := by
  have h1 := shutdownOn_eq c l
  have h2 := shutdownOn_eq c.shutdown l
  rw [h1]
  exact ⟨shutdown_idem c, rfl, rfl, by rw [h2, shutdown_idem]⟩

/-- C20 (the code at the failing input): a read failing with EAGAIN or EWOULDBLOCK is
handled as any failed read, by `handleError`; with an error callback set the callback is
invoked. -/
theorem C20_eagain_takes_error_path (c : Connection) :
    c.handleRead (.failed EAGAIN) = c.handleError ∧
    c.handleRead (.failed EWOULDBLOCK) = c.handleError ∧
    (c.setErrorCallback.handleRead (.failed EAGAIN)).trace =
      c.trace ++ [Action.errorCallback] := by
  refine ⟨handleRead_failed c EAGAIN, handleRead_failed c EWOULDBLOCK, ?_⟩
  rw [handleRead_failed]
  simp [handleError, setErrorCallback, act]

end Connection

/-! ## EchoServer: worker selection, the claims -/

namespace EchoServer

theorem toInt32_of_range (i : Int) (h0 : -2147483648 ≤ i) (h1 : i < 2147483648) :
    toInt32 i = i := by
  unfold toInt32; omega

theorem toSizeT_of_nonneg (i : Int) (h0 : 0 ≤ i) (h1 : i < 2147483648) :
    toSizeT i = i.toNat := by
  unfold toSizeT
  congr 1
  omega

theorem counterAfter_eq (N k : Nat) (hN : 0 < N) (hk : k < 2147483648) :
    counterAfter N k = (k : Int) := by
  induction k with
  | zero => rfl
  | succ k ih =>
    have := ih (by omega)
    rw [counterAfter, getNextLoop, if_neg (by omega)]
    simp only
    rw [this, toInt32_of_range _ (by omega) (by omega)]
    push_cast; ring

theorem getNextLoop_index (c : Int) (N : Nat) (hN : 0 < N) :
    (getNextLoop c N).1 = .worker (toInt32 ((toSizeT c % N : Nat) : Int)) := by
  rw [getNextLoop, if_neg (by omega)]

theorem index_in_bounds (c : Int) (N : Nat) (hN : 0 < N) (hN31 : N < 2147483648) :
    toInt32 ((toSizeT c % N : Nat) : Int) = ((toSizeT c % N : Nat) : Int) ∧
    (0 : Int) ≤ ((toSizeT c % N : Nat) : Int) ∧ ((toSizeT c % N : Nat) : Int) < N := by
  have hlt : toSizeT c % N < N := Nat.mod_lt _ hN
  refine ⟨toInt32_of_range _ (by omega) (by omega), by omega, by omega⟩

theorem kthLoop_eq (N k : Nat) (hN : 0 < N) (hk : k < 2147483648) :
    kthLoop N k = .worker ((k % N : Nat) : Int) := by
  unfold kthLoop
  rw [getNextLoop_index _ _ hN, counterAfter_eq N k hN hk,
    toSizeT_of_nonneg _ (by omega) (by omega), Int.toNat_ofNat]
  have hle : k % N ≤ k := Nat.mod_le k N
  rw [toInt32_of_range _ (by omega) (by omega)]

theorem kthLoop_zero (k : Nat) : kthLoop 0 k = .main := by
  unfold kthLoop
  rw [getNextLoop, if_pos rfl]

theorem mod_distinct (N i j : Nat) (hij : i < j) (hj : j < i + N) : i % N ≠ j % N := by
  intro h
  have h1 : (j - i) % N = 0 := by
    have := Nat.sub_mod_eq_zero_of_mod_eq h.symm
    exact this
  have h2 : j - i < N := by omega
  rw [Nat.mod_eq_of_lt h2] at h1
  omega

/-- C21: with `N > 0` workers, the `k`-th call of `getNextLoop` (counting from 0, `k` below
2^31) returns worker loop number `k mod N`, so the calls `k` and `j` of any `N` consecutive
calls return different workers; with no worker every call returns the main loop. -/
theorem C21_round_robin (N k : Nat) (hN : 0 < N) (hk : k < 2147483648) :
    kthLoop N k = .worker ((k % N : Nat) : Int) ∧
    (∀ j, k < j → j < k + N → j < 2147483648 → kthLoop N k ≠ kthLoop N j) ∧
    (∀ i, kthLoop 0 i = .main) := by
  refine ⟨kthLoop_eq N k hN hk, fun j hkj hjN hj => ?_, kthLoop_zero⟩
  rw [kthLoop_eq N k hN hk, kthLoop_eq N j hN hj]
  intro h
  injection h with h
  exact mod_distinct N k j hkj hjN (by exact_mod_cast h)

theorem C21_round_robin_witness :
    0 < 3 ∧ 7 < 2147483648 ∧ kthLoop 3 7 = .worker ((7 % 3 : Nat) : Int) ∧
    (∀ j, 7 < j → j < 7 + 3 → j < 2147483648 → kthLoop 3 7 ≠ kthLoop 3 j) ∧
    (∀ i, kthLoop 0 i = .main) :=
  ⟨by decide, by decide, C21_round_robin 3 7 (by decide) (by decide)⟩

/-- C29: with `N ≥ 1` workers (`N` an `int`, so below 2^31) and any value of the counter
`next_loop_index_`, negative ones included, `getNextLoop` returns `loops_[index]` with
`0 ≤ index < N`: the counter is converted to `size_t` before the remainder is taken and the
remainder fits the `int` it is stored in. -/
theorem C29_index_in_bounds (counter : Int) (N : Nat) (hN : 1 ≤ N) (hN31 : N < 2147483648) :
    ∃ index : Int, (getNextLoop counter N).1 = .worker index ∧ 0 ≤ index ∧ index < N := by
  obtain ⟨h1, h2, h3⟩ := index_in_bounds counter N (by omega) hN31
  exact ⟨_, getNextLoop_index counter N (by omega), by rw [h1]; exact h2, by rw [h1]; exact h3⟩

theorem C29_index_in_bounds_witness :
    1 ≤ 3 ∧ 3 < 2147483648 ∧
    ∃ index : Int, (getNextLoop (-2147483648) 3).1 = .worker index ∧ 0 ≤ index ∧
      index < (3 : Nat) :=
  ⟨by decide, by decide, C29_index_in_bounds (-2147483648) 3 (by decide) (by decide)⟩

end EchoServer

namespace Buffer

/-- C28: on a well-formed buffer, whatever its read index, `append(d)` makes the readable
content the old readable content followed by `d`; and when `append` has to make room and
`makeSpace` takes its compaction branch, the read index is above 8, so the front-to-back copy
to offset 8 moves the readable bytes intact; the write index and the length of `d` together
are a size that can exist (not above `max_size()`). -/
theorem C28_append (b : Buffer) (d : List Byte) (h : b.WellFormed)
    (hf : b.Fits d.length) :
    (b.append d).readable = b.readable ++ d ∧
    (b.writableBytes < d.length →
      ¬ (b.writableBytes + b.prependableBytes < d.length + kCheapPrepend) →
      8 < b.read_index_ ∧ (b.makeSpace d.length).read_index_ = 8 ∧
      (b.makeSpace d.length).readable = b.readable ∧
      ((copyWithin b.buffer_ b.read_index_ 8 b.readableBytes).drop 8).take b.readableBytes =
        (b.buffer_.drop b.read_index_).take b.readableBytes) := by
  refine ⟨(append_spec b d h hf).2.1, fun hw hc => ?_⟩
  have h8 : 8 < b.read_index_ := by
    unfold writableBytes prependableBytes kCheapPrepend at hc
    unfold writableBytes at hw
    omega
  refine ⟨h8, ?_, (makeSpace_spec b d.length h hf hw).2.2.1, ?_⟩
  · rw [makeSpace_compact b d.length hf hc]; rfl
  · obtain ⟨h1, h2⟩ := h
    exact copyWithin_slice b.buffer_ b.read_index_ 8 b.readableBytes (by omega)
      (by unfold readableBytes; omega)

theorem C28_append_witness :
    compactable.WellFormed ∧ compactable.Fits [1, 2].length ∧
    compactable.writableBytes < [1, 2].length ∧
    ¬ (compactable.writableBytes + compactable.prependableBytes <
      [1, 2].length + kCheapPrepend) ∧
    (compactable.append [1, 2]).readable = compactable.readable ++ [1, 2] ∧
    8 < compactable.read_index_ ∧ (compactable.makeSpace [1, 2].length).read_index_ = 8 :=
  ⟨by decide, by decide, by decide, by decide,
    (C28_append compactable [1, 2] (by decide) (by decide)).1,
    ((C28_append compactable [1, 2] (by decide) (by decide)).2 (by decide) (by decide)).1,
    ((C28_append compactable [1, 2] (by decide) (by decide)).2 (by decide) (by decide)).2.1⟩

end Buffer

/-! ## Connection: write interest and pending output, the claim -/

namespace Connection

theorem orIn_out (e : Nat) : (e ||| EPOLLIN) &&& EPOLLOUT = e &&& EPOLLOUT := by
  have h : EPOLLIN &&& EPOLLOUT = 0 := by decide
  apply Nat.eq_of_testBit_eq
  intro i
  have hi := congrArg (fun x => Nat.testBit x i) h
  simp only [Nat.testBit_and, Nat.zero_testBit] at hi
  simp only [Nat.testBit_and, Nat.testBit_or]
  cases h1 : e.testBit i <;> cases h2 : EPOLLIN.testBit i <;>
    cases h3 : EPOLLOUT.testBit i <;> simp_all

theorem orOut_out (e : Nat) : (e ||| EPOLLOUT) &&& EPOLLOUT ≠ 0 := by
  show (e ||| EPOLLOUT) &&& 2 ^ 2 ≠ 0
  rw [and_two_pow_ne_zero, Nat.testBit_or]
  have h : EPOLLOUT.testBit 2 = true := by decide
  rw [h, Bool.or_true]

theorem append_readableBytes (b : Buffer) (d : List Byte) (h : b.WellFormed)
    (hf : b.Fits d.length) :
    (b.append d).readableBytes = b.readableBytes + d.length := by
  obtain ⟨a1, a2, _, _⟩ := Buffer.append_spec b d h hf
  rw [← Buffer.readable_length _ a1, a2, List.length_append, Buffer.readable_length _ h]

/-- The invariant depends on the interest mask and the output buffer only. -/
theorem inv_congr (c d : Connection) (he : d.events_ = c.events_)
    (ho : d.output_buffer_ = c.output_buffer_) (h : c.OutOK ∧ c.WriteIffPending) :
    d.OutOK ∧ d.WriteIffPending := by
  unfold OutOK WriteIffPending writeInterest at *
  rw [he, ho]; exact h

theorem queueRemaining_inv (c : Connection) (data : List Byte) (nwrote remaining : Nat)
    (fault : Bool) (hr : remaining ≤ data.length - nwrote)
    (h : c.OutOK ∧ c.WriteIffPending) (hf : c.output_buffer_.Fits data.length) :
    (c.queueRemaining data nwrote remaining fault).OutOK ∧
    (c.queueRemaining data nwrote remaining fault).WriteIffPending := by
  obtain ⟨⟨hwf, h8⟩, hi⟩ := h
  unfold queueRemaining
  by_cases hq : ¬ fault = true ∧ remaining > 0
  · rw [if_pos hq]
    have hlen : ((data.drop nwrote).take remaining).length = remaining := by
      rw [List.length_take, List.length_drop]; omega
    have hf' : c.output_buffer_.Fits ((data.drop nwrote).take remaining).length :=
      hf.mono (by rw [hlen]; omega)
    obtain ⟨a1, _, _, a4⟩ :=
      Buffer.append_spec c.output_buffer_ ((data.drop nwrote).take remaining) hwf hf'
    have hb := append_readableBytes c.output_buffer_ ((data.drop nwrote).take remaining) hwf
      hf'
    rw [hlen] at hb
    simp only
    by_cases hw : c.writeInterest = true
    · rw [if_neg (by simpa [writeInterest] using hw)]
      refine ⟨⟨a1, a4 h8⟩, ?_⟩
      unfold WriteIffPending
      simp only [writeInterest] at hw ⊢
      constructor
      · intro _; rw [hb]; omega
      · intro _; exact hw
    · rw [if_pos (by simpa [writeInterest] using hw)]
      refine ⟨⟨a1, a4 h8⟩, ?_⟩
      unfold WriteIffPending
      simp only [writeInterest, act]
      constructor
      · intro _; rw [hb]; omega
      · intro _; exact decide_eq_true (orOut_out _)
  · rw [if_neg hq]
    exact ⟨⟨hwf, h8⟩, hi⟩

theorem directSend_inv (c : Connection) (data : List Byte) (r : SendResult)
    (h : c.OutOK ∧ c.WriteIffPending) :
    (c.directSend data r).2.1 ≤ data.length - (c.directSend data r).1 ∧
    (c.directSend data r).2.2.2.OutOK ∧ (c.directSend data r).2.2.2.WriteIffPending := by
  unfold directSend
  by_cases he : c.output_buffer_.readableBytes = 0
  · rw [if_pos he]
    cases r with
    | failed e =>
      simp only [socketSend]
      rw [if_neg (by omega)]
      exact ⟨by simp, h⟩
    | room n =>
      simp only [socketSend]
      rw [if_pos (by omega)]
      simp only [Int.toNat_ofNat]
      refine ⟨Nat.le_refl _, ?_⟩
      split_ifs
      · exact inv_congr c _ rfl rfl h
      · exact inv_congr c _ rfl rfl h
  · rw [if_neg he]
    exact ⟨by simp, h⟩

theorem sendInLoop_inv (c : Connection) (data : List Byte) (r : SendResult)
    (h : c.OutOK ∧ c.WriteIffPending) (hf : c.output_buffer_.Fits data.length) :
    (c.sendInLoop data r).OutOK ∧ (c.sendInLoop data r).WriteIffPending := by
  unfold sendInLoop
  by_cases hs : c.state_ ≠ .CONNECTED
  · rw [if_pos hs]; exact h
  · rw [if_neg hs]
    obtain ⟨d1, d2⟩ := directSend_inv c data r h
    exact queueRemaining_inv _ data _ _ _ d1 d2 (by rw [directSend_out]; exact hf)

theorem handleWrite_inv (c : Connection) (r : SendResult)
    (h : c.OutOK ∧ c.WriteIffPending) :
    (c.handleWrite r).OutOK ∧ (c.handleWrite r).WriteIffPending := by
  by_cases hw : c.writeInterest = true
  · have hpos : 0 < c.output_buffer_.readableBytes := h.2.1 hw
    have hwf := h.1.1
    have h8 := h.1.2
    cases r with
    | failed e =>
      unfold handleWrite
      rw [if_pos hw]
      simp only [socketSend]
      rw [if_neg (by omega)]
      exact h
    | room n =>
      by_cases hn0 : n = 0
      · subst hn0
        unfold handleWrite
        rw [if_pos hw]
        simp only [socketSend, List.take_zero, List.length_nil]
        rw [if_neg (by simp)]
        exact inv_congr c _ rfl rfl h
      · by_cases hn : n < c.output_buffer_.readableBytes
        · rw [handleWrite_part c n hw hwf (by omega) hn]
          obtain ⟨r1, r2, _⟩ := Buffer.retrieve_inv c.output_buffer_ n hwf h8
          refine ⟨⟨r1, r2⟩, ?_⟩
          unfold WriteIffPending writeInterest
          simp only
          have : 0 < (c.output_buffer_.retrieve n).readableBytes := by
            unfold Buffer.retrieve
            rw [if_pos hn]
            unfold Buffer.readableBytes at hn ⊢
            simp only
            omega
          exact ⟨fun _ => this, fun _ => hw⟩
        · rw [handleWrite_all c n hw hwf hpos (by omega)]
          obtain ⟨_, f2, _, f4, _, _⟩ := writeDrained_fields
            { c with wire := c.wire ++ c.output_buffer_.readable,
                     output_buffer_ := c.output_buffer_.retrieveAll }
          unfold OutOK WriteIffPending writeInterest
          rw [f2, f4]
          simp only [clearWrite_out]
          obtain ⟨h1, h2⟩ := hwf
          refine ⟨⟨⟨?_, ?_⟩, ?_⟩, ?_⟩
          · simp [Buffer.retrieveAll]
          · simp only [Buffer.retrieveAll]; omega
          · simp [Buffer.retrieveAll]
          · simp [Buffer.retrieveAll, Buffer.readableBytes]
  · have : c.handleWrite r = c := by
      unfold handleWrite; rw [if_neg hw]
    rw [this]; exact h

theorem establishConnection_inv (c : Connection) (ok : Bool)
    (h : c.OutOK ∧ c.WriteIffPending) :
    (c.establishConnection ok).OutOK ∧ (c.establishConnection ok).WriteIffPending := by
  have he : (c.establishConnection ok).events_ = c.events_ ||| EPOLLIN := by
    unfold establishConnection act; simp only; split_ifs <;> rfl
  have ho : (c.establishConnection ok).output_buffer_ = c.output_buffer_ := by
    unfold establishConnection act; simp only; split_ifs <;> rfl
  unfold OutOK WriteIffPending writeInterest at *
  rw [he, ho, orIn_out]; exact h

theorem shutdown_inv (c : Connection) (h : c.OutOK ∧ c.WriteIffPending) :
    c.shutdown.OutOK ∧ c.shutdown.WriteIffPending := by
  by_cases hs : c.state_ = .CONNECTED
  · obtain ⟨_, s2, _, s4, _⟩ := shutdown_connected c hs
    exact inv_congr c _ s2 s4 h
  · rw [shutdown_of_ne c hs]; exact h

theorem new_inv : Connection.new.OutOK ∧ Connection.new.WriteIffPending := by decide

theorem step_out_length (c : Connection) (k : Call) (hk : k.isOutputPath = true)
    (hwf : c.output_buffer_.WellFormed) (hf : c.output_buffer_.Fits k.payload.length) :
    (c.step k).output_buffer_.buffer_.length ≤
      c.output_buffer_.buffer_.length + k.payload.length := by
  cases k with
  | establishConnection ok =>
    have ho : (c.establishConnection ok).output_buffer_ = c.output_buffer_ := by
      unfold establishConnection act; simp only; split_ifs <;> rfl
    simp only [step, ho]; omega
  | sendInLoop d r => exact sendInLoop_out_length c d r hwf hf
  | handleWrite r => simp only [step, handleWrite_out_length]; omega
  | shutdown =>
    by_cases hs : c.state_ = .CONNECTED
    · obtain ⟨_, _, _, s4, _⟩ := shutdown_connected c hs
      simp only [step, s4]; omega
    · simp only [step, shutdown_of_ne c hs]; omega
  | _ => simp [Call.isOutputPath] at hk

theorem run_outputPath_inv (calls : List Call) :
    ∀ c : Connection, (c.OutOK ∧ c.WriteIffPending) →
      (∀ k ∈ calls, k.isOutputPath = true) →
      c.output_buffer_.buffer_.length + ((calls.map Call.payload).flatten).length ≤
        kMaxSize →
      (c.run calls).OutOK ∧ (c.run calls).WriteIffPending := by
  induction calls with
  | nil => intro c h _ _; exact h
  | cons k ks ih =>
    intro c h hk hsz
    rw [payload_total_cons] at hsz
    have hk0 := hk k (List.mem_cons_self _ _)
    have hfit : c.output_buffer_.Fits k.payload.length :=
      Buffer.Fits.of_size h.1.1 (by omega)
    have hlen := step_out_length c k hk0 h.1.1 hfit
    have hstep : (c.step k).OutOK ∧ (c.step k).WriteIffPending := by
      cases k with
      | establishConnection ok => exact establishConnection_inv c ok h
      | sendInLoop d r => exact sendInLoop_inv c d r h hfit
      | handleWrite r => exact handleWrite_inv c r h
      | shutdown => exact shutdown_inv c h
      | _ => simp [Call.isOutputPath] at hk0
    exact ih (c.step k) hstep (fun k' hk' => hk k' (List.mem_cons_of_mem _ hk'))
      (by omega)

/-- C27: in every state reached from a newly constructed connection by calls of
`establishConnection`, `sendInLoop`, `handleWrite` and `shutdown`, whatever the socket's
`send` returns at each call, the write-interest bit of the handler is set if and only if the
output buffer has at least one readable byte; the initial vector of the output buffer and the
bytes submitted together are bytes that can exist (not above `max_size()`). -/
theorem C27_write_interest_iff_pending (calls : List Call)
    (h : ∀ k ∈ calls, k.isOutputPath = true)
    (hsz : kCheapPrepend + kInitialSize + ((calls.map Call.payload).flatten).length ≤
      kMaxSize) :
    (Connection.new.run calls).writeInterest = true ↔
      0 < (Connection.new.run calls).output_buffer_.readableBytes := by
  have hl : Connection.new.output_buffer_.buffer_.length = kCheapPrepend + kInitialSize := by
    decide
  exact (run_outputPath_inv calls Connection.new new_inv h (by rw [hl]; exact hsz)).2

theorem C27_write_interest_iff_pending_witness :
    (∀ k ∈ [Call.establishConnection true, Call.sendInLoop [1, 2, 3] (.room 1)],
      k.isOutputPath = true) ∧
    (Connection.new.run
      [Call.establishConnection true, Call.sendInLoop [1, 2, 3] (.room 1)]).writeInterest
        = true ∧
    ((Connection.new.run
      [Call.establishConnection true, Call.sendInLoop [1, 2, 3] (.room 1)]).writeInterest
        = true ↔
      0 < (Connection.new.run
        [Call.establishConnection true,
          Call.sendInLoop [1, 2, 3] (.room 1)]).output_buffer_.readableBytes) :=
  ⟨by decide, by decide,
    C27_write_interest_iff_pending
      [Call.establishConnection true, Call.sendInLoop [1, 2, 3] (.room 1)] (by decide)
      (by decide)⟩

end Connection

/-! ## EventLoop: the pending-task queue, the claim -/

namespace EventLoop

theorem postAll_spec (posts : List (Nat × LoopTask)) :
    ∀ l : EventLoop, (∀ p ∈ posts, p.1 ≠ l.loop_thread_id_) →
      (l.postAll posts).pending_tasks_ = l.pending_tasks_ ++ posts.map Prod.snd ∧
      (l.postAll posts).loop_thread_id_ = l.loop_thread_id_ ∧
      (l.postAll posts).handlers_ = l.handlers_ := by
  induction posts with
  | nil => intro l _; simp [postAll]
  | cons p ps ih =>
    intro l h
    have hp : l.isInLoopThread p.1 = false := by
      have := h p (List.mem_cons_self _ _)
      unfold isInLoopThread
      exact decide_eq_false (fun e => this e.symm)
    have hstep : (l.runInLoop p.1 p.2 id ()).2 =
        wakeup { l with pending_tasks_ := l.pending_tasks_ ++ [p.2] } := by
      unfold runInLoop; rw [hp]; rfl
    have hfold : l.postAll (p :: ps) =
        (wakeup { l with pending_tasks_ := l.pending_tasks_ ++ [p.2] }).postAll ps := by
      unfold postAll; rw [List.foldl_cons, hstep]
    rw [hfold]
    obtain ⟨i1, i2, i3⟩ := ih (wakeup { l with pending_tasks_ := l.pending_tasks_ ++ [p.2] })
      (fun q hq => h q (List.mem_cons_of_mem _ hq))
    rw [i1, i2, i3]
    simp [wakeup]

theorem invokeTask_spec {σ : Type} (run : LoopTask → σ → σ) (ok : Bool) (t : LoopTask)
    (s : σ) (l : EventLoop) :
    (invokeTask run ok t s l).1 = run t s ∧
    (invokeTask run ok t s l).2.pending_tasks_ = l.pending_tasks_ ∧
    (invokeTask run ok t s l).2.loop_thread_id_ = l.loop_thread_id_ := by
  have hin : l.isInLoopThread l.loop_thread_id_ = true := by simp [isInLoopThread]
  cases t <;> simp only [invokeTask, addHandler, updateHandler, removeHandler, hin] <;>
    cases ok <;> simp

theorem runBatch_spec {σ : Type} (run : LoopTask → σ → σ) (ok : Nat → Bool)
    (arrivals : Nat → List (Nat × LoopTask)) (tid : Nat)
    (hother : ∀ i, ∀ p ∈ arrivals i, p.1 ≠ tid) (ts : List LoopTask) :
    ∀ (i : Nat) (s : σ) (l : EventLoop), l.loop_thread_id_ = tid →
      (runBatch run ok arrivals ts i (s, l)).1 = ts.foldl (fun s t => run t s) s ∧
      (runBatch run ok arrivals ts i (s, l)).2.pending_tasks_ =
        l.pending_tasks_ ++
          ((List.range' i ts.length).map (fun j => (arrivals j).map Prod.snd)).flatten := by
  induction ts with
  | nil => intro i s l _; simp [runBatch]
  | cons t ts ih =>
    intro i s l hl
    obtain ⟨v1, v2, v3⟩ := invokeTask_spec run (ok i) t s l
    obtain ⟨p1, p2, _⟩ := postAll_spec (arrivals i) (invokeTask run (ok i) t s l).2
      (fun p hp => by rw [v3, hl]; exact hother i p hp)
    obtain ⟨i1, i2⟩ := ih (i + 1) (invokeTask run (ok i) t s l).1
      ((invokeTask run (ok i) t s l).2.postAll (arrivals i)) (by rw [p2, v3, hl])
    simp only [runBatch]
    rw [i1, i2, p1, v1, v2]
    simp [List.range'_succ, List.append_assoc]

theorem sampleArrivals_other :
    ∀ i, ∀ p ∈ sampleArrivals i, p.1 ≠ threeTaskLoop.loop_thread_id_ := by
  intro i p hp
  have h1 : threeTaskLoop.loop_thread_id_ = 1 := rfl
  rw [h1]
  unfold sampleArrivals at hp
  split at hp
  · simp only [List.mem_cons, List.mem_singleton, List.not_mem_nil, or_false] at hp
    rcases hp with h | h <;> rw [h] <;> decide
  · simp only [List.mem_singleton] at hp
    rw [hp]; decide
  · simp at hp

/-- C26: one call of `doPendingTasks` on a loop whose queue holds `t_1..t_k` invokes
`t_1..t_k` once each, in that order, and nothing else (the state is the fold of the tasks'
effects over the queue, for every effect `run`); afterwards the queue holds exactly the tasks
that other threads gave to `runInLoop` while the batch was running, in arrival order. -/
theorem C26_doPendingTasks {σ : Type} (run : LoopTask → σ → σ) (epoll_ok : Nat → Bool)
    (arrivals : Nat → List (Nat × LoopTask)) (l : EventLoop) (s : σ)
    (hother : ∀ i, ∀ p ∈ arrivals i, p.1 ≠ l.loop_thread_id_) :
    (doPendingTasks run epoll_ok arrivals l s).1 =
      l.pending_tasks_.foldl (fun s t => run t s) s ∧
    (doPendingTasks run epoll_ok arrivals l s).2.pending_tasks_ =
      ((List.range l.pending_tasks_.length).map
        (fun j => (arrivals j).map Prod.snd)).flatten := by
  obtain ⟨h1, h2⟩ := runBatch_spec run epoll_ok arrivals l.loop_thread_id_ hother
    l.pending_tasks_ 0 s { l with pending_tasks_ := [] } rfl
  unfold doPendingTasks
  simp only
  rw [h1, h2, List.range_eq_range']
  simp

theorem C26_doPendingTasks_witness :
    (∀ i, ∀ p ∈ sampleArrivals i, p.1 ≠ threeTaskLoop.loop_thread_id_) ∧
    (doPendingTasks (fun t s => s ++ [t]) (fun _ => true) sampleArrivals threeTaskLoop []).1 =
      [.other 10, .removeHandler ⟨5, 0⟩, .other 11] ∧
    (doPendingTasks (fun t s => s ++ [t]) (fun _ => true) sampleArrivals
      threeTaskLoop []).2.pending_tasks_ = [.other 20, .other 30, .other 21] :=
  ⟨sampleArrivals_other,
    (C26_doPendingTasks (fun t s => s ++ [t]) (fun _ => true) sampleArrivals threeTaskLoop []
      sampleArrivals_other).1.trans (by decide),
    (C26_doPendingTasks (fun t s => s ++ [t]) (fun _ => true) sampleArrivals threeTaskLoop []
      sampleArrivals_other).2.trans (by decide)⟩

end EventLoop

/-! ## The program entry point, the claim -/

/-- The `int` that `atoi` returns for digit strings beyond the range of `int`, and the exit
codes that follow: `-p 4294967297` is port 1, `-t 4294967295` is the thread count -1. -/
theorem atoi_beyond_int :
    atoi "4294967297" = 1 ∧ atoi "4294967295" = -1 ∧ atoi " -12x" = -12 ∧
    atoi "99999999999999999999" = -1 ∧
    main ["-p", "4294967297"] goodEnv = 0 ∧ main ["-t", "4294967295"] goodEnv = 1 := by
  decide

/-- An argument that is none of the options ends the option loop with an error. -/
theorem parseArgs_unknown (o : Options) (arg : String) (rest : List String)
    (h : arg ∉ ["-h", "--help", "-p", "--port", "-a", "--address", "-t", "--threads",
      "-l", "--log-level", "-f", "--log-file"]) :
    parseArgs o (arg :: rest) = .error .unknownOption := by
  have h1 : arg ≠ "-h" := fun e => h (by rw [e]; decide)
  have h2 : arg ≠ "--help" := fun e => h (by rw [e]; decide)
  have h3 : arg ≠ "-p" := fun e => h (by rw [e]; decide)
  have h4 : arg ≠ "--port" := fun e => h (by rw [e]; decide)
  have h5 : arg ≠ "-a" := fun e => h (by rw [e]; decide)
  have h6 : arg ≠ "--address" := fun e => h (by rw [e]; decide)
  have h7 : arg ≠ "-t" := fun e => h (by rw [e]; decide)
  have h8 : arg ≠ "--threads" := fun e => h (by rw [e]; decide)
  have h9 : arg ≠ "-l" := fun e => h (by rw [e]; decide)
  have h10 : arg ≠ "--log-level" := fun e => h (by rw [e]; decide)
  have h11 : arg ≠ "-f" := fun e => h (by rw [e]; decide)
  have h12 : arg ≠ "--log-file" := fun e => h (by rw [e]; decide)
  cases rest <;> simp [parseArgs, h1, h2, h3, h4, h5, h6, h7, h8, h9, h10, h11, h12]

/-- A port option whose value is outside 1..65535, and a thread option whose value is
negative, end the option loop with an error; so does an option that needs a value and is
the last argument. -/
theorem parseArgs_bad_value (o : Options) (v : String) (rest : List String) :
    ((atoi v ≤ 0 ∨ atoi v > 65535) → parseArgs o ("-p" :: v :: rest) = .error .invalidPort ∧
      parseArgs o ("--port" :: v :: rest) = .error .invalidPort) ∧
    (atoi v < 0 → parseArgs o ("-t" :: v :: rest) = .error .invalidThreadNumber ∧
      parseArgs o ("--threads" :: v :: rest) = .error .invalidThreadNumber) ∧
    parseArgs o ["-p"] = .error .portRequiresValue ∧
    parseArgs o ["-a"] = .error .addressRequiresValue ∧
    parseArgs o ["-t"] = .error .threadsRequiresValue ∧
    parseArgs o ["-l"] = .error .logLevelRequiresValue ∧
    parseArgs o ["-f"] = .error .logFileRequiresValue := by
  refine ⟨fun h => ?_, fun h => ?_, ?_, ?_, ?_, ?_, ?_⟩
  · constructor <;> simp [parseArgs, h]
  · constructor <;> simp [parseArgs, h]
  all_goals simp [parseArgs]

/-- The exit codes of the paths of `main` other than a failed start-up: 1 after an error of
the option loop, when the log file cannot be opened and when the constructor of the server
or `start` throws; 0 for the usage text and after a server that started has been stopped. -/
theorem main_exit_code (args : List String) (env : RunEnv) :
    (∀ e, parseArgs (defaultOptions env) args = .error e → main args env = 1) ∧
    (parseArgs (defaultOptions env) args = .help → main args env = 0) ∧
    (∀ o, parseArgs (defaultOptions env) args = .options o →
      ((o.log_file ≠ "" ∧ env.log_file_opens = false) → main args env = 1) ∧
      ((o.log_file = "" ∨ env.log_file_opens = true) →
        (env.constructor_throws = true → main args env = 1) ∧
        (env.constructor_throws = false → EchoServer.start env = .thrown →
          main args env = 1) ∧
        (env.constructor_throws = false → env.create_ok = true → env.bind_ok = true →
          env.listen_ok = true → env.start_throws = false → main args env = 0))) := by
  refine ⟨fun e he => ?_, fun hh => ?_, fun o ho => ⟨fun hl => ?_, fun hl => ⟨fun hc => ?_,
    fun hc hs => ?_, fun hc h1 h2 h3 h4 => ?_⟩⟩⟩
  · unfold main; rw [he]
  · unfold main; rw [hh]
  · unfold main; rw [ho]
    simp only [runServer]
    rw [if_pos (by simp [hl.1, hl.2])]
  · unfold main; rw [ho]
    simp only [runServer]
    rw [if_neg (by rcases hl with h | h <;> simp [h]), if_pos hc]
  · unfold main; rw [ho]
    simp only [runServer]
    rw [if_neg (by rcases hl with h | h <;> simp [h]), if_neg (by simp [hc]), hs]
  · unfold main; rw [ho]
    simp only [runServer, EchoServer.start]
    rw [if_neg (by rcases hl with h | h <;> simp [h]), if_neg (by simp [hc])]
    simp [h1, h2, h3, h4]

/-- C23: when the arguments are read without an error, the log file (if any) opens and the
server is constructed, but the listening socket cannot be created, bound or put into listen
mode, `EchoServer::start` logs and returns, and `main` returns 0, where the claim requires
the exit code 1. -/
theorem C23_startup_failure_exits_zero (args : List String) (env : RunEnv) (o : Options)
    (hp : parseArgs (defaultOptions env) args = .options o)
    (hl : o.log_file = "" ∨ env.log_file_opens = true)
    (hc : env.constructor_throws = false)
    (hf : env.create_ok = false ∨ env.bind_ok = false ∨ env.listen_ok = false) :
    EchoServer.start env = .returned ∧ main args env = 0 := by
  have hs : EchoServer.start env = .returned := by
    unfold EchoServer.start
    rcases hf with h | h | h <;> simp [h]
  refine ⟨hs, ?_⟩
  unfold main
  rw [hp]
  simp only [runServer]
  rw [if_neg (by rcases hl with h | h <;> simp [h]), if_neg (by simp [hc]), hs]

theorem C23_startup_failure_exits_zero_witness :
    parseArgs (defaultOptions { goodEnv with bind_ok := false }) ["-p", "8080"] =
      .options { defaultOptions { goodEnv with bind_ok := false } with port := 8080 } ∧
    ({ goodEnv with bind_ok := false } : RunEnv).bind_ok = false ∧
    EchoServer.start { goodEnv with bind_ok := false } = .returned ∧
    main ["-p", "8080"] { goodEnv with bind_ok := false } = 0 :=
  ⟨by decide, rfl,
    C23_startup_failure_exits_zero ["-p", "8080"] { goodEnv with bind_ok := false }
      { defaultOptions { goodEnv with bind_ok := false } with port := 8080 }
      (by decide) (Or.inl rfl) rfl (Or.inr (Or.inl rfl))⟩

/-! ## EchoServer: connections, loops and threads, the claims -/

namespace EchoServer

/-- The fields that `establishConnection`, executed for a connection whose trace is empty,
leaves as they are. -/
theorem exec_establish_new (fuel : Nat) (s : Server) (thread conn : Nat) (ok : Bool)
    (o : ConnObject) (ho : s.objects[conn]? = some o) (ht : o.conn.trace = []) :
    (exec fuel s thread (.establishConnection conn ok)).backlog = s.backlog ∧
    (exec fuel s thread (.establishConnection conn ok)).connections_ = s.connections_ ∧
    (exec fuel s thread (.establishConnection conn ok)).next_conn_id_ = s.next_conn_id_ ∧
    (exec fuel s thread (.establishConnection conn ok)).relocked = s.relocked ∧
    (exec fuel s thread (.establishConnection conn ok)).connection_callback_ =
      s.connection_callback_ ∧
    (exec fuel s thread (.establishConnection conn ok)).objects.length = s.objects.length ∧
    ((exec fuel s thread (.establishConnection conn ok)).objects[conn]?).map
      (fun o => o.name_) = some o.name_ := by
  cases fuel with
  | zero => simp [exec, ho]
  | succ fuel =>
    by_cases hr : s.relocked = true
    · simp [exec, hr, ho]
    · have hfresh : ((o.conn.establishConnection ok).trace.drop o.conn.trace.length) =
          [Action.addHandler] := by
        unfold Connection.establishConnection Connection.act
        simp only
        split_ifs <;> simp [ht]
      simp only [exec, hr, onConnection, ho, hfresh]
      simp
      have hlt : conn < s.objects.length := by
        rcases Nat.lt_or_ge conn s.objects.length with h | h
        · exact h
        · rw [List.getElem?_eq_none h] at ho; cases ho
      simp [hlt]

theorem runInLoop_establish_new (fuel : Nat) (s : Server) (caller target conn : Nat)
    (ok : Bool) (o : ConnObject) (ho : s.objects[conn]? = some o) (ht : o.conn.trace = []) :
    (runInLoop (exec fuel) s caller target (.establishConnection conn ok)).backlog =
      s.backlog ∧
    (runInLoop (exec fuel) s caller target (.establishConnection conn ok)).connections_ =
      s.connections_ ∧
    (runInLoop (exec fuel) s caller target (.establishConnection conn ok)).next_conn_id_ =
      s.next_conn_id_ ∧
    (runInLoop (exec fuel) s caller target (.establishConnection conn ok)).objects.length =
      s.objects.length ∧
    ((runInLoop (exec fuel) s caller target (.establishConnection conn ok)).objects[conn]?).map
      (fun o => o.name_) = some o.name_ := by
  unfold runInLoop
  split_ifs
  · obtain ⟨e1, e2, e3, _, _, e6, e7⟩ := exec_establish_new fuel s caller conn ok o ho ht
    exact ⟨e1, e2, e3, e6, e7⟩
  · simp [ho]

/-- The last statement of `handleNewConnection`, the invocation of the connection callback,
changes the list of invocations only. -/
theorem connectionCallback_fields (s : Server) (conn caller : Nat) :
    (if s.relocked then s
      else if s.connection_callback_ then
        { s with calls := s.calls ++ [⟨conn, .connection, caller⟩] }
      else s).backlog = s.backlog ∧
    (if s.relocked then s
      else if s.connection_callback_ then
        { s with calls := s.calls ++ [⟨conn, .connection, caller⟩] }
      else s).connections_ = s.connections_ ∧
    (if s.relocked then s
      else if s.connection_callback_ then
        { s with calls := s.calls ++ [⟨conn, .connection, caller⟩] }
      else s).next_conn_id_ = s.next_conn_id_ ∧
    (if s.relocked then s
      else if s.connection_callback_ then
        { s with calls := s.calls ++ [⟨conn, .connection, caller⟩] }
      else s).objects = s.objects := by
  split_ifs <;> exact ⟨rfl, rfl, rfl, rfl⟩

/-- C22, as amended: one invocation of `handleNewConnection` with `m ≥ 1` peers pending accepts
exactly one of them: `m - 1` stay pending, one connection object is created, named
`Connection-` followed by the current `next_conn_id_`, one entry for that name is put in the
map, and `next_conn_id_` grows by one. -/
theorem C22_accepts_one_peer (fuel : Nat) (s : Server) (ok : Bool)
    (hr : s.relocked = false) (hm : s.mutex_held = false) (hb : 0 < s.backlog) :
    (step fuel s (.newConnection ok)).backlog = s.backlog - 1 ∧
    (step fuel s (.newConnection ok)).objects.length = s.objects.length + 1 ∧
    ((step fuel s (.newConnection ok)).objects[s.objects.length]?).map (fun o => o.name_) =
      some ("Connection-" ++ toString s.next_conn_id_) ∧
    (step fuel s (.newConnection ok)).connections_ =
      ("Connection-" ++ toString s.next_conn_id_, s.objects.length) ::
        eraseConnection s.connections_ ("Connection-" ++ toString s.next_conn_id_) ∧
    (step fuel s (.newConnection ok)).next_conn_id_ = s.next_conn_id_ + 1 := by
  have hobj : ({ createConnection s with
      connections_ := ((newConnectionObject s).name_, s.objects.length) ::
        eraseConnection s.connections_ (newConnectionObject s).name_ } :
        Server).objects[s.objects.length]? = some (newConnectionObject s) := by
    simp [createConnection]
  obtain ⟨e1, e2, e3, e4, e5⟩ := runInLoop_establish_new fuel _ s.main_loop_
    (newConnectionObject s).loop_ s.objects.length ok (newConnectionObject s) hobj rfl
  obtain ⟨f1, f2, f3, f4⟩ := connectionCallback_fields
    (runInLoop (exec fuel) { createConnection s with
      connections_ := ((newConnectionObject s).name_, s.objects.length) ::
        eraseConnection s.connections_ (newConnectionObject s).name_ } s.main_loop_
      (newConnectionObject s).loop_ (.establishConnection s.objects.length ok))
    s.objects.length s.main_loop_
  simp only [step, hr, handleNewConnection, hm]
  rw [if_neg (by simp), if_neg (by omega)]
  simp only [Bool.false_eq_true, if_false]
  rw [f1, f2, f3, f4, e1, e2, e3, e4, e5]
  simp [createConnection, newConnectionObject]

theorem C22_accepts_one_peer_witness :
    (started 1 [2] 2).relocked = false ∧ (started 1 [2] 2).mutex_held = false ∧
    0 < (started 1 [2] 2).backlog ∧
    (step 5 (started 1 [2] 2) (.newConnection true)).backlog = (started 1 [2] 2).backlog - 1 ∧
    (step 5 (started 1 [2] 2) (.newConnection true)).objects.length =
      (started 1 [2] 2).objects.length + 1 :=
  ⟨rfl, rfl, by decide,
    (C22_accepts_one_peer 5 (started 1 [2] 2) true rfl rfl (by decide)).1,
    (C22_accepts_one_peer 5 (started 1 [2] 2) true rfl rfl (by decide)).2.1⟩

/-- C22, counterexample: with two peers pending, one invocation of `handleNewConnection`
creates one connection and one map entry, and returns with one peer still pending, `accept`
not having reported would-block. -/
theorem C22_one_accept_per_invocation :
    (started 1 [2] 2).backlog = 2 ∧
    (step 5 (started 1 [2] 2) (.newConnection true)).objects.length = 1 ∧
    (step 5 (started 1 [2] 2) (.newConnection true)).connections_ = [("Connection-1", 0)] ∧
    (step 5 (started 1 [2] 2) (.newConnection true)).backlog = 1 ∧
    (step 5 (started 1 [2] 2) (.newConnection true)).out_of_fuel = false := by
  decide

theorem set_same {α : Type} (l : List α) (i : Nat) (a : α) (h : l[i]? = some a) :
    l.set i a = l := by
  apply List.ext_getElem?
  intro j
  rw [List.getElem?_set]
  split_ifs with h1 h2
  · subst h1; exact h.symm
  · subst h1
    rw [List.getElem?_eq_none (by omega)] at h; cases h
  · rfl

theorem getElem?_set_same {α : Type} (l : List α) (i : Nat) (a b : α) (h : l[i]? = some a) :
    (l.set i b)[i]? = some b := by
  have hlt : i < l.length := by
    rcases Nat.lt_or_ge i l.length with h' | h'
    · exact h'
    · rw [List.getElem?_eq_none h'] at h; cases h
  rw [List.getElem?_set]; simp [hlt]

/-- A method that invokes neither the close nor the error callback updates the connection
object and the list of invocations, nothing else. -/
theorem onConnection_quiet (rec : Server → Nat → ServerTask → Server) (s : Server)
    (thread conn : Nat) (f : Connection → Connection) (o : ConnObject)
    (ho : s.objects[conn]? = some o)
    (hq : Action.closeCallback ∉ (f o.conn).trace.drop o.conn.trace.length ∧
      Action.errorCallback ∉ (f o.conn).trace.drop o.conn.trace.length) :
    onConnection rec s thread conn f =
      { s with
        objects := s.objects.set conn { o with conn := f o.conn }
        calls := s.calls ++ ((f o.conn).trace.drop o.conn.trace.length).filterMap
          (fun a => (callbackOf a).map (fun k => ⟨conn, k, thread⟩)) } := by
  unfold onConnection
  rw [ho]
  simp only
  rw [if_neg (by simp [hq.1, hq.2])]

/-- A method that ends with the close or the error callback goes on with
`removeConnection`. -/
theorem onConnection_removes (rec : Server → Nat → ServerTask → Server) (s : Server)
    (thread conn : Nat) (f : Connection → Connection) (o : ConnObject)
    (ho : s.objects[conn]? = some o)
    (hq : Action.closeCallback ∈ (f o.conn).trace.drop o.conn.trace.length ∨
      Action.errorCallback ∈ (f o.conn).trace.drop o.conn.trace.length) :
    onConnection rec s thread conn f =
      removeConnection rec { s with
        objects := s.objects.set conn { o with conn := f o.conn }
        calls := s.calls ++ ((f o.conn).trace.drop o.conn.trace.length).filterMap
          (fun a => (callbackOf a).map (fun k => ⟨conn, k, thread⟩)) } thread conn := by
  unfold onConnection
  rw [ho]
  simp only
  rw [if_pos hq]

/-- The body of `destroyConnection` does nothing to a connection that is not CONNECTED. -/
theorem exec_destroy_noop (fuel : Nat) (s : Server) (thread conn : Nat) (o : ConnObject)
    (hr : s.relocked = false) (ho : s.objects[conn]? = some o)
    (hst : o.conn.state_ ≠ .CONNECTED) :
    exec (fuel + 1) s thread (.destroyConnection conn) = s := by
  have hd : o.conn.destroyConnection = o.conn := by
    unfold Connection.destroyConnection; rw [if_neg hst]
  simp only [exec, hr, Bool.false_eq_true, if_false]
  rw [onConnection_quiet _ s thread conn _ o ho (by rw [hd]; simp)]
  rw [hd]
  simp [set_same s.objects conn o ho]

theorem exec_remove (fuel : Nat) (s : Server) (thread conn : Nat) (o : ConnObject)
    (hr : s.relocked = false) (hm : s.mutex_held = false) (ho : s.objects[conn]? = some o) :
    exec (fuel + 1) s thread (.removeConnectionInLoop conn) =
      runInLoop (exec fuel) { s with connections_ := eraseConnection s.connections_ o.name_ }
        thread o.loop_ (.destroyConnection conn) := by
  simp only [exec, hr, Bool.false_eq_true, if_false, ho, hm]

theorem exec_destroy (fuel : Nat) (s : Server) (thread conn : Nat) (hr : s.relocked = false) :
    exec (fuel + 1) s thread (.destroyConnection conn) =
      onConnection (exec fuel) s thread conn Connection.destroyConnection := by
  simp only [exec, hr, Bool.false_eq_true, if_false]

theorem exec_handleError (fuel : Nat) (s : Server) (thread conn : Nat)
    (hr : s.relocked = false) :
    exec (fuel + 1) s thread (.handleError conn) =
      onConnection (exec fuel) s thread conn Connection.handleError := by
  simp only [exec, hr, Bool.false_eq_true, if_false]

theorem runInLoop_inline (rec : Server → Nat → ServerTask → Server) (s : Server)
    (thread : Nat) (task : ServerTask) : runInLoop rec s thread thread task = rec s thread task := by
  unfold runInLoop; rw [if_pos rfl]

theorem removeConnection_inline (rec : Server → Nat → ServerTask → Server) (s : Server)
    (caller conn : Nat) (h : s.main_loop_ = caller) :
    removeConnection rec s caller conn = rec s caller (.removeConnectionInLoop conn) := by
  unfold removeConnection runInLoop; rw [if_pos h]

theorem removeConnection_queued (rec : Server → Nat → ServerTask → Server) (s : Server)
    (caller conn : Nat) (h : s.main_loop_ ≠ caller) :
    removeConnection rec s caller conn =
      { s with queued := s.queued ++ [(s.main_loop_, .removeConnectionInLoop conn)] } := by
  unfold removeConnection runInLoop; rw [if_neg h]

theorem runInLoop_queued (rec : Server → Nat → ServerTask → Server) (s : Server)
    (caller target : Nat) (task : ServerTask) (h : target ≠ caller) :
    runInLoop rec s caller target task = { s with queued := s.queued ++ [(target, task)] } := by
  unfold runInLoop; rw [if_neg h]

/-- The task `removeConnectionInLoop` for a connection that is not CONNECTED, executed on the
thread of the connection's loop with the mutex free: the name is erased. -/
theorem exec_remove_closed (fuel : Nat) (s : Server) (conn : Nat) (o : ConnObject)
    (hr : s.relocked = false) (hm : s.mutex_held = false)
    (ho : s.objects[conn]? = some o) (hst : o.conn.state_ ≠ .CONNECTED) :
    exec (fuel + 2) s o.loop_ (.removeConnectionInLoop conn) =
      { s with connections_ := eraseConnection s.connections_ o.name_ } := by
  rw [exec_remove (fuel + 1) s o.loop_ conn o hr hm ho, runInLoop_inline]
  exact exec_destroy_noop fuel _ o.loop_ conn o hr ho hst

theorem destroy_fresh (c : Connection) (hst : c.state_ = .CONNECTED)
    (hcb : c.close_callback_ = true) :
    c.destroyConnection.trace.drop c.trace.length =
      [Action.removeHandler, Action.closeCallback] ∧
    c.destroyConnection.state_ = .DISCONNECTED ∧ c.destroyConnection.registered = false ∧
    c.destroyConnection.trace = c.trace ++ [Action.removeHandler, Action.closeCallback] := by
  unfold Connection.destroyConnection Connection.act
  simp [hst, hcb]

theorem handleError_fresh (c : Connection) (hcb : c.error_callback_ = true) :
    c.handleError.trace.drop c.trace.length = [Action.errorCallback] ∧
    c.handleError.state_ = c.state_ ∧ c.handleError.registered = c.registered ∧
    c.handleError.close_callback_ = c.close_callback_ ∧
    c.handleError.trace = c.trace ++ [Action.errorCallback] := by
  unfold Connection.handleError Connection.act
  simp [hcb]

/-- The body of `destroyConnection` for a CONNECTED connection of the main loop, executed on
the main loop's thread with the mutex free: the connection is closed, the close callback runs
and its `removeConnection`, inline, erases the name. -/
theorem exec_destroy_connected (fuel : Nat) (s : Server) (conn : Nat) (o : ConnObject)
    (hr : s.relocked = false) (hm : s.mutex_held = false)
    (ho : s.objects[conn]? = some o) (hst : o.conn.state_ = .CONNECTED)
    (hcb : o.conn.close_callback_ = true) (hl : s.main_loop_ = o.loop_) :
    exec (fuel + 3) s o.loop_ (.destroyConnection conn) =
      { s with
        objects := s.objects.set conn { o with conn := o.conn.destroyConnection }
        calls := s.calls ++ [⟨conn, .close, o.loop_⟩]
        connections_ := eraseConnection s.connections_ o.name_ } := by
  obtain ⟨d1, d2, _, _⟩ := destroy_fresh o.conn hst hcb
  rw [exec_destroy (fuel + 2) s _ conn hr,
    onConnection_removes _ s _ conn _ o ho (by rw [d1]; simp), d1]
  refine Eq.trans (removeConnection_inline _ _ _ _ ?_) ?_
  · exact hl
  have h := exec_remove_closed fuel
    { s with
      objects := s.objects.set conn { o with conn := o.conn.destroyConnection }
      calls := s.calls ++ [Action.removeHandler, Action.closeCallback].filterMap
        (fun a => (callbackOf a).map (fun k => ⟨conn, k, o.loop_⟩)) }
    conn { o with conn := o.conn.destroyConnection } hr hm
    (getElem?_set_same s.objects conn o _ ho) (by simp [d2])
  dsimp only at h ⊢
  rw [h]
  simp [callbackOf]

/-- The task `removeConnectionInLoop` for a CONNECTED connection of the main loop. -/
theorem exec_remove_connected (fuel : Nat) (s : Server) (conn : Nat) (o : ConnObject)
    (hr : s.relocked = false) (hm : s.mutex_held = false)
    (ho : s.objects[conn]? = some o) (hst : o.conn.state_ = .CONNECTED)
    (hcb : o.conn.close_callback_ = true) (hl : s.main_loop_ = o.loop_) :
    exec (fuel + 4) s o.loop_ (.removeConnectionInLoop conn) =
      { s with
        objects := s.objects.set conn { o with conn := o.conn.destroyConnection }
        calls := s.calls ++ [⟨conn, .close, o.loop_⟩]
        connections_ := eraseConnection (eraseConnection s.connections_ o.name_) o.name_ } := by
  rw [exec_remove (fuel + 3) s o.loop_ conn o hr hm ho, runInLoop_inline]
  exact exec_destroy_connected fuel _ conn o hr hm ho hst hcb hl

/-- The handler callback `handleError` for a CONNECTED connection of the main loop, with the
callbacks `handleNewConnection` installs. -/
theorem exec_handleError_main (fuel : Nat) (s : Server) (conn : Nat) (o : ConnObject)
    (hr : s.relocked = false) (hm : s.mutex_held = false)
    (ho : s.objects[conn]? = some o) (hst : o.conn.state_ = .CONNECTED)
    (hcb : o.conn.close_callback_ = true) (heb : o.conn.error_callback_ = true)
    (hl : s.main_loop_ = o.loop_) :
    exec (fuel + 5) s o.loop_ (.handleError conn) =
      { s with
        objects := s.objects.set conn
          { o with conn := o.conn.handleError.destroyConnection }
        calls := s.calls ++ [⟨conn, .error, o.loop_⟩, ⟨conn, .close, o.loop_⟩]
        connections_ := eraseConnection (eraseConnection s.connections_ o.name_) o.name_ } := by
  obtain ⟨e1, e2, _, e4, _⟩ := handleError_fresh o.conn heb
  rw [exec_handleError (fuel + 4) s _ conn hr,
    onConnection_removes _ s _ conn _ o ho (by rw [e1]; simp), e1]
  refine Eq.trans (removeConnection_inline _ _ _ _ ?_) ?_
  · exact hl
  have h := exec_remove_connected fuel
    { s with
      objects := s.objects.set conn { o with conn := o.conn.handleError }
      calls := s.calls ++ [Action.errorCallback].filterMap
        (fun a => (callbackOf a).map (fun k => ⟨conn, k, o.loop_⟩)) }
    conn { o with conn := o.conn.handleError } hr hm
    (getElem?_set_same s.objects conn o _ ho) (by simp [e2, hst]) (by simp [e4, hcb]) hl
  dsimp only at h ⊢
  rw [h]
  simp [callbackOf, List.set_set]

/-- The handler callback `handleError` for a connection of a worker loop: the task
`removeConnectionInLoop` is put on the main loop's queue. -/
theorem exec_handleError_worker (fuel : Nat) (s : Server) (conn : Nat) (o : ConnObject)
    (hr : s.relocked = false) (ho : s.objects[conn]? = some o)
    (heb : o.conn.error_callback_ = true) (hl : s.main_loop_ ≠ o.loop_) :
    exec (fuel + 1) s o.loop_ (.handleError conn) =
      { s with
        objects := s.objects.set conn { o with conn := o.conn.handleError }
        calls := s.calls ++ [⟨conn, .error, o.loop_⟩]
        queued := s.queued ++ [(s.main_loop_, .removeConnectionInLoop conn)] } := by
  obtain ⟨e1, _⟩ := handleError_fresh o.conn heb
  rw [exec_handleError fuel s _ conn hr,
    onConnection_removes _ s _ conn _ o ho (by rw [e1]; simp), e1]
  refine Eq.trans (removeConnection_queued _ _ _ _ ?_) ?_
  · exact hl
  simp [callbackOf]

/-- C24, as amended: `Connection::handleError` by itself leaves the state and the
registration as they are and invokes the error callback only. For a CONNECTED connection
created by `handleNewConnection` the error callback calls `removeConnection`, which closes the
connection. When the connection belongs to the main loop all of it runs inline: after the
error event the state is DISCONNECTED, the handler is removed from the loop, the close
callback has been invoked and the name is no longer in the map. When it belongs to a worker
loop the task `removeConnectionInLoop` is put on the queue of the main loop. -/
theorem C24_error_event_removes_connection (fuel : Nat) (s : Server) (conn : Nat)
    (o : ConnObject) (hr : s.relocked = false) (hm : s.mutex_held = false)
    (ho : s.objects[conn]? = some o) (hst : o.conn.state_ = .CONNECTED)
    (hcb : o.conn.close_callback_ = true) (heb : o.conn.error_callback_ = true) :
    (o.conn.handleError.state_ = .CONNECTED ∧
      o.conn.handleError.registered = o.conn.registered ∧
      o.conn.handleError.trace = o.conn.trace ++ [Action.errorCallback]) ∧
    (s.main_loop_ = o.loop_ →
      step (fuel + 5) s (.handleError conn) =
        { s with
          objects := s.objects.set conn
            { o with conn := o.conn.handleError.destroyConnection }
          calls := s.calls ++ [⟨conn, .error, o.loop_⟩, ⟨conn, .close, o.loop_⟩]
          connections_ :=
            eraseConnection (eraseConnection s.connections_ o.name_) o.name_ } ∧
      o.conn.handleError.destroyConnection.state_ = .DISCONNECTED ∧
      o.conn.handleError.destroyConnection.registered = false ∧
      o.conn.handleError.destroyConnection.trace =
        o.conn.trace ++ [Action.errorCallback, Action.removeHandler, Action.closeCallback] ∧
      o.name_ ∉ (step (fuel + 5) s (.handleError conn)).connections_.map Prod.fst) ∧
    (s.main_loop_ ≠ o.loop_ →
      step (fuel + 1) s (.handleError conn) =
        { s with
          objects := s.objects.set conn { o with conn := o.conn.handleError }
          calls := s.calls ++ [⟨conn, .error, o.loop_⟩]
          queued := s.queued ++ [(s.main_loop_, .removeConnectionInLoop conn)] }) := by
  obtain ⟨_, e2, e3, e4, e5⟩ := handleError_fresh o.conn heb
  refine ⟨⟨by rw [e2, hst], e3, e5⟩, fun hl => ?_, fun hl => ?_⟩
  · have hstep : step (fuel + 5) s (.handleError conn) =
        exec (fuel + 5) s o.loop_ (.handleError conn) := by
      simp only [step, dispatch, ho]
    obtain ⟨_, d2, d3, d4⟩ := destroy_fresh o.conn.handleError (by rw [e2, hst])
      (by rw [e4, hcb])
    rw [hstep, exec_handleError_main fuel s conn o hr hm ho hst hcb heb hl]
    refine ⟨rfl, d2, d3, ?_, eraseConnection_not_mem _ _⟩
    rw [d4, e5, List.append_assoc]; rfl
  · have hstep : step (fuel + 1) s (.handleError conn) =
        exec (fuel + 1) s o.loop_ (.handleError conn) := by
      simp only [step, dispatch, ho]
    rw [hstep, exec_handleError_worker fuel s conn o hr ho heb hl]

theorem C24_error_event_removes_connection_witness :
    (step 5 singleReactor (.handleError 0)).connections_ = [] ∧
    ((step 5 singleReactor (.handleError 0)).objects[0]?).map (fun o => o.conn.state_) =
      some .DISCONNECTED := by
  have ho : singleReactor.objects[0]? =
      some ⟨"Connection-1", 1, (newConnectionObject (started 1 [] 1)).conn.establishConnection
        true⟩ := by decide
  have h := (C24_error_event_removes_connection 0 singleReactor 0 _ (by decide) (by decide) ho
    (by decide) (by decide) (by decide)).2.1 (by decide)
  rw [h.1]
  exact ⟨by decide, by decide⟩

/-- C24, counterexample: in single-reactor mode the connection `Connection-1`, created by
`handleNewConnection`, is CONNECTED, registered and in the map; after one error event it is
DISCONNECTED, its close callback has been invoked once, its handler is removed from the loop
and its name is gone from the map. -/
theorem C24_error_event_closes_connection :
    singleReactor.connections_ = [("Connection-1", 0)] ∧
    (singleReactor.objects[0]?).map
      (fun o => (o.conn.state_, o.conn.registered, o.conn.closeCount)) =
        some (.CONNECTED, true, 0) ∧
    (step 5 singleReactor (.handleError 0)).connections_ = [] ∧
    ((step 5 singleReactor (.handleError 0)).objects[0]?).map
      (fun o => (o.conn.state_, o.conn.registered, o.conn.closeCount)) =
        some (.DISCONNECTED, false, 1) ∧
    (step 5 singleReactor (.handleError 0)).out_of_fuel = false := by
  decide

/-- C30: in single-reactor mode, with the connection `Connection-1` CONNECTED and in the map,
`stop()` called on the main loop's thread locks `connections_mutex_` and calls `forceClose`,
which runs `forceCloseInLoop`, `handleClose`, the close callback, `removeConnection` and
`removeConnectionInLoop` inline: the thread tries to lock the mutex it holds. -/
theorem C30_stop_locks_mutex_twice :
    singleReactor.main_loop_ = 1 ∧ singleReactor.loops_ = [] ∧
    singleReactor.mutex_held = false ∧ singleReactor.relocked = false ∧
    singleReactor.connections_ = [("Connection-1", 0)] ∧
    (singleReactor.objects[0]?).map (fun o => (o.loop_, o.conn.state_)) =
      some (1, .CONNECTED) ∧
    (step 5 singleReactor (.stop 1)).mutex_held = true ∧
    (step 5 singleReactor (.stop 1)).relocked = true ∧
    (step 5 singleReactor (.stop 1)).out_of_fuel = false ∧
    (step 5 singleReactor (.stop 1)).calls =
      singleReactor.calls ++ [⟨0, .close, 1⟩] := by
  decide

end EchoServer

/-! ## EchoServer: the thread of each callback, the claim -/

namespace EchoServer

theorem isLoop_congr (s s' : Server) (h1 : s'.main_loop_ = s.main_loop_)
    (h2 : s'.loops_ = s.loops_) (t : Nat) : IsLoop s' t ↔ IsLoop s t := by
  unfold IsLoop; rw [h1, h2]

theorem Extends.trans {a b c : Server} (h1 : Extends a b) (h2 : Extends b c) :
    Extends a c := by
  obtain ⟨m1, l1, p1⟩ := h1
  obtain ⟨m2, l2, p2⟩ := h2
  refine ⟨m2.trans m1, l2.trans l1, fun p => ?_⟩
  rcases p2 p with e2 | ⟨n2, t, ht, hl⟩
  · rcases p1 p with e1 | ⟨n1, t, ht, hl⟩
    · exact Or.inl (e2.trans e1)
    · exact Or.inr ⟨n1, t, e2.trans ht, hl⟩
  · rcases p1 p with e1 | ⟨n1, t', ht', _⟩
    · exact Or.inr ⟨e1 ▸ n2, t, ht, (isLoop_congr a b m1 l1 t).1 hl⟩
    · rw [n2] at ht'; cases ht'

theorem Extends.loopOf {s s' : Server} (h : Extends s s') (p t : Nat)
    (hp : loopOf s p = some t) : loopOf s' p = some t := by
  rcases h.2.2 p with e | ⟨n, _⟩
  · rw [e, hp]
  · rw [n] at hp; cases hp

end EchoServer

end echo_server
